import Mathlib

/-!
# tenyks IRC adapter: wire codec, commands, connection hooks

A shallow embedding of `pkg/adapter/irc` of kyleterry/tenyksv2 and theorems
about it.

Modelling conventions.

* A Go `string` is a `GoString`, a list of Unicode code points: the text is taken
  to be valid UTF-8.  Every slice the adapter takes is cut at an ASCII delimiter,
  so positions are counted in code points; `len(s)` in bytes is `goLen`.
* A Go function returning `(T, error)` returns `Except Failure T`.  A run-time
  panic (index or slice out of range) is the separate outcome `Failure.goPanic`,
  so that "returns an error" and "panics" are told apart.
* `nil` and empty slices are both the empty list; a nil pointer is `none`.
* Wall-clock time is the argument `now`.
-/

namespace Tenyks

/-! ## Go runtime and standard library -/

/-- Go strings, as lists of code points. -/
abbrev GoString := List Char

/-- Outcome of a Go call that did not produce its value: a returned `error`, or a
run-time panic. -/
inductive Failure where
  | goError (msg : String)
  | goPanic (what : String)
  deriving DecidableEq, Repr

/-- Whether an outcome is a returned Go `error` value. -/
def isGoError {α : Type} : Except Failure α → Bool
  | .error (.goError _) => true
  | _ => false

/-- Whether an outcome is a run-time panic. -/
def isGoPanic {α : Type} : Except Failure α → Bool
  | .error (.goPanic _) => true
  | _ => false

/-- Number of bytes of the UTF-8 encoding of one code point. -/
def runeLen (c : Char) : Nat :=
  if c.toNat < 0x80 then 1 else if c.toNat < 0x800 then 2 else if c.toNat < 0x10000 then 3 else 4

/-- Go `len(s)`: the length of a string in bytes. -/
def goLen (s : GoString) : Nat := (s.map runeLen).sum

/-- Go `xs[i]` on a slice: panics when `i` is out of range. -/
def index {α : Type} (xs : List α) (i : Nat) : Except Failure α :=
  match xs.get? i with
  | some x => .ok x
  | none => .error (.goPanic "index out of range")

/-- Go `s[lo:hi]`: panics unless `lo ≤ hi ≤ len(s)`. -/
def slice {α : Type} (s : List α) (lo hi : Nat) : Except Failure (List α) :=
  if lo ≤ hi ∧ hi ≤ s.length then .ok ((s.take hi).drop lo)
  else .error (.goPanic "slice bounds out of range")

/-- Go `s[lo:]`. -/
def sliceFrom {α : Type} (s : List α) (lo : Nat) : Except Failure (List α) :=
  slice s lo s.length

/-- Go `s[:hi]`. -/
def sliceTo {α : Type} (s : List α) (hi : Nat) : Except Failure (List α) :=
  slice s 0 hi

/-- Go `strings.HasSuffix`. -/
def HasSuffix (s suffix : GoString) : Bool := suffix.isSuffixOf s

/-- Go `strings.TrimSuffix`: `s` without the given trailing suffix, `s` itself when
it does not end with it. -/
def TrimSuffix (s suffix : GoString) : GoString :=
  if HasSuffix s suffix then s.take (s.length - suffix.length) else s

/-- Go `strings.Index`: position of the first occurrence of `substr` in `s`,
`none` for Go's `-1`. -/
def Index : GoString → GoString → Option Nat
  | [], substr => if substr = [] then some 0 else none
  | c :: s, substr =>
    if substr.isPrefixOf (c :: s) then some 0 else (Index s substr).map (· + 1)

/-- Go `strings.SplitN` for a non-empty separator and `n ≥ 0`: at most `n`
pieces, the last one the unsplit rest. -/
def SplitN (s sep : GoString) : Nat → List GoString
  | 0 => []
  | 1 => [s]
  | n + 2 =>
    match Index s sep with
    | none => [s]
    | some m => s.take m :: SplitN (s.drop (m + sep.length)) sep (n + 1)

/-- Go `strings.Split` for a non-empty separator: every piece between separators.
A string of `k` code points has at most `k + 1` pieces. -/
def Split (s sep : GoString) : List GoString := SplitN s sep (s.length + 1)

/-- Go `unicode.IsSpace`: the code points with the White_Space property. -/
def isSpace (c : Char) : Bool :=
  let n := c.toNat
  (0x09 ≤ n && n ≤ 0x0d) || n == 0x20 || n == 0x85 || n == 0xa0 || n == 0x1680 ||
  (0x2000 ≤ n && n ≤ 0x200a) || n == 0x2028 || n == 0x2029 || n == 0x202f ||
  n == 0x205f || n == 0x3000

/-- The scanning loop of Go `strings.FieldsFunc`: `cur` is the field being read. -/
def fieldsLoop : GoString → GoString → List GoString
  | cur, [] => if cur = [] then [] else [cur]
  | cur, c :: s =>
    if isSpace c then
      if cur = [] then fieldsLoop [] s else cur :: fieldsLoop [] s
    else fieldsLoop (cur ++ [c]) s

/-- Go `strings.Fields`: the maximal runs of non-white-space code points. -/
def Fields (s : GoString) : List GoString := fieldsLoop [] s

/-- Go `strings.Join`. -/
def Join : List GoString → GoString → GoString
  | [], _ => []
  | [a], _ => a
  | a :: b :: rest, sep => a ++ sep ++ Join (b :: rest) sep

/-- Decimal digits of Go `strconv.Atoi`, most significant first, onto `acc`. -/
def parseDigits : GoString → Nat → Option Nat
  | [], acc => some acc
  | c :: s, acc =>
    if 48 ≤ c.toNat ∧ c.toNat ≤ 57 then parseDigits s (acc * 10 + (c.toNat - 48)) else none

/-- Go `strconv.Atoi` (64-bit `int`): an optional sign, then one or more ASCII
digits, the value within the range of `int`; `none` when it returns an error. -/
def Atoi (s : GoString) : Option Int :=
  let signed : Bool × GoString :=
    match s with
    | '-' :: t => (true, t)
    | '+' :: t => (false, t)
    | _ => (false, s)
  if signed.2 = [] then none
  else
    match parseDigits signed.2 0 with
    | none => none
    | some v =>
      if signed.1 then (if v ≤ 2 ^ 63 then some (-(v : Int)) else none)
      else (if v < 2 ^ 63 then some (v : Int) else none)

/-- Go `strings.LastIndexByte`: position of the last occurrence of `c` in `s`,
`none` for Go's `-1`. -/
def LastIndexByte : GoString → Char → Option Nat
  | [], _ => none
  | x :: s, c =>
    match LastIndexByte s c with
    | some i => some (i + 1)
    | none => if x = c then some 0 else none

/-- Go `path.Split`: the path up to and with its last slash, and what follows it. -/
def pathSplit (path : GoString) : GoString × GoString :=
  match LastIndexByte path '/' with
  | some i => (path.take (i + 1), path.drop (i + 1))
  | none => ([], path)

/-- The error value that Go `net.SplitHostPort` returns. -/
def addrError (addr : GoString) (why : String) : Failure :=
  .goError ("address " ++ String.mk addr ++ ": " ++ why)

/-- The last checks of Go `net.SplitHostPort`: no `[` from position `j` on and no
`]` from position `k` on; then the port is what follows the colon at `i`. -/
def splitHostPortTail (hostport host : GoString) (i j k : Nat) :
    Except Failure (GoString × GoString) :=
  if (Index (hostport.drop j) "[".toList).isSome then
    .error (addrError hostport "unexpected '[' in address")
  else if (Index (hostport.drop k) "]".toList).isSome then
    .error (addrError hostport "unexpected ']' in address")
  else .ok (host, hostport.drop (i + 1))

/-- Go `net.SplitHostPort`: host and port of `host:port` or `[host]:port`. -/
def SplitHostPort (hostport : GoString) : Except Failure (GoString × GoString) :=
  match LastIndexByte hostport ':' with
  | none => .error (addrError hostport "missing port in address")
  | some i =>
    if hostport.head? = some '[' then
      match Index hostport "]".toList with
      | none => .error (addrError hostport "missing ']' in address")
      | some close =>
        if close + 1 = hostport.length then
          .error (addrError hostport "missing port in address")
        else if close + 1 = i then
          splitHostPortTail hostport ((hostport.take close).drop 1) i 1 (close + 1)
        else if hostport.get? (close + 1) = some ':' then
          .error (addrError hostport "too many colons in address")
        else .error (addrError hostport "missing port in address")
    else
      if (Index (hostport.take i) ":".toList).isSome then
        .error (addrError hostport "too many colons in address")
      else splitHostPortTail hostport (hostport.take i) i 0 0

/-- Go `time.Duration(d)` for a number `d` that is not a whole number of
nanoseconds: the conversion to an integer drops the fraction. -/
def toDuration (d : ℚ) : Int := if 0 ≤ d then Int.floor d else Int.ceil d

/-! ## message.go -/

/-- MessageType is the type of message received from the IRC server. -/
inductive MessageType where
  | MessageTypeCommand
  | MessageTypeReply
  deriving DecidableEq, Repr

/-- An IRCv3 tag. -/
structure Tag where
  Key : GoString := []
  Value : GoString := []
  Vendor : GoString := []
  deriving DecidableEq, Repr

/-- The tags of a message and the unaltered tag string. -/
structure TagsSection where
  Tags : List Tag := []
  RawTags : GoString := []
  deriving DecidableEq, Repr

/-- The source of a message. -/
structure PrefixSection where
  Nick : GoString := []
  Ident : GoString := []
  Host : GoString := []
  RawPrefix : GoString := []
  deriving DecidableEq, Repr

/-- Message holds all the parsed information from a message string. -/
structure Message where
  TagsSection : Option TagsSection := none
  PrefixSection : Option PrefixSection := none
  Command : GoString := []
  MessageType : MessageType := .MessageTypeCommand
  Params : List GoString := []
  Trail : GoString := []
  CreatedAt : Nat := 0
  RawMsg : GoString := []
  Parsed : Bool := false
  deriving DecidableEq, Repr

/-- The body of the tag loop of `ParseMessage` (message.go:70-99) for one tag. -/
def parseTag (tag : GoString) : Except Failure Tag := do
  let parts := Split tag "=".toList
  if parts.length > 2 then
    throw (.goError "failed to parse message: invalid tag format")
  let rawKey ← index parts 0
  let value := if parts.length > 1 then parts.getD 1 [] else []
  let first ← index rawKey 0
  if first = '+' then
    let rawKey ← sliceFrom rawKey 1
    match Index rawKey "/".toList with
    | some i =>
      let vendor ← sliceTo rawKey i
      let rawKey ← sliceFrom rawKey (i + 1)
      pure { Key := rawKey, Value := value, Vendor := vendor }
    | none => pure { Key := rawKey, Value := value, Vendor := [] }
  else
    pure { Key := rawKey, Value := value, Vendor := [] }

/-- The tag block of `ParseMessage` (message.go:60-104): the tags section, if the
line starts with `@`, and the rest of the line. -/
def parseTagsSection (raw : GoString) : Except Failure (Option TagsSection × GoString) := do
  let first ← index raw 0
  if first = '@' then
    match Index raw " ".toList with
    | some i =>
      let rawTags ← slice raw 1 i
      let rest ← sliceFrom raw (i + 1)
      let tags ← (Split rawTags ";".toList).mapM parseTag
      pure (some { Tags := tags, RawTags := rawTags }, rest)
    | none => throw (.goError "failed to parse message: invalid message format")
  else
    pure (none, raw)

/-- The prefix block of `ParseMessage` (message.go:107-136): the prefix section,
if the rest of the line starts with `:`, and what follows it. -/
def parsePrefixSection (raw : GoString) : Except Failure (Option PrefixSection × GoString) := do
  let first ← index raw 0
  if first = ':' then
    match Index raw " ".toList with
    | some i =>
      let rawPrefix ← slice raw 1 i
      let rest ← sliceFrom raw (i + 1)
      match Index rawPrefix "!".toList, Index rawPrefix "@".toList with
      | some nickIndex, some userIndex =>
        let nick ← sliceTo rawPrefix nickIndex
        let ident ← slice rawPrefix (nickIndex + 1) userIndex
        let host ← sliceFrom rawPrefix (userIndex + 1)
        pure (some { Nick := nick, Ident := ident, Host := host, RawPrefix := rawPrefix }, rest)
      | _, _ => pure (some { RawPrefix := rawPrefix }, rest)
    | none => throw (.goError "failed to parse message: invalid prefix")
  else
    pure (none, raw)

/-- The classification of `ParseMessage` (message.go:156-161): a reply when the
command is three bytes long and `strconv.Atoi` accepts it. -/
def classify (command : GoString) : MessageType :=
  if goLen command = 3 then
    match Atoi command with
    | some _ => .MessageTypeReply
    | none => .MessageTypeCommand
  else .MessageTypeCommand

/-- The command and parameters of `ParseMessage` (message.go:140-171), on the rest
of the line after the tag block and the prefix. -/
def parseParams (msg : Message) (raw : GoString) : Except Failure Message := do
  let parts := SplitN raw " :".toList 2
  let part0 ← index parts 0
  let params := Fields part0
  let trail := if parts.length = 2 then parts.getD 1 [] else msg.Trail
  let command ← index params 0
  pure { msg with
    Trail := trail
    Command := command
    MessageType := classify command
    Params := if params.length > 1 then params.drop 1 else msg.Params
    Parsed := true }

/-- ParseMessage takes a string from an IRC server and parses it into a Message
(message.go:51-172). -/
def ParseMessage (now : Nat) (raw : GoString) : Except Failure Message := do
  let raw := TrimSuffix raw "\r\n".toList
  let msg : Message := { CreatedAt := now, RawMsg := raw }
  let (tags, raw) ← parseTagsSection raw
  let (pfx, raw) ← parsePrefixSection raw
  parseParams { msg with TagsSection := tags, PrefixSection := pfx } raw

/-! ## messageencoding.go -/

/-- RawMessageEncoder.Encode builds the wire string of a message
(messageencoding.go:27-38).  The first component is the returned `(string, error)`,
the second the message after the call, whose `RawMsg` the encoder assigns. -/
def RawMessageEncoder.Encode (msg : Message) : Except Failure GoString × Message :=
  let params := if msg.Trail ≠ [] then msg.Params ++ [":".toList ++ msg.Trail] else msg.Params
  let rawMsg := msg.Command ++ " ".toList ++ Join params " ".toList
  (.ok (rawMsg ++ "\r\n".toList), { msg with RawMsg := rawMsg })

/-- RawMessageDecoder.Decode parses a raw IRC message (messageencoding.go:49-51). -/
def RawMessageDecoder.Decode (now : Nat) (s : GoString) : Except Failure Message :=
  ParseMessage now s

/-! ## types.go -/

/-- CommandType represents an IRC command. -/
inductive CommandType where
  | CommandTypeUser
  | CommandTypeNick
  | CommandTypeJoin
  | CommandTypePart
  | CommandTypePass
  | CommandTypePrivmsg
  | CommandTypePing
  | CommandTypePong
  | CommandTypeCTCP
  | CommandTypeUnknown
  deriving DecidableEq, Repr

/-- The map `CommandTypeMapping` from verbs to command types. -/
def CommandTypeMapping (verb : GoString) : Option CommandType :=
  if verb = "USER".toList then some .CommandTypeUser
  else if verb = "NICK".toList then some .CommandTypeNick
  else if verb = "JOIN".toList then some .CommandTypeJoin
  else if verb = "PART".toList then some .CommandTypePart
  else if verb = "PASS".toList then some .CommandTypePass
  else if verb = "PRIVMSG".toList then some .CommandTypePrivmsg
  else if verb = "PING".toList then some .CommandTypePing
  else if verb = "PONG".toList then some .CommandTypePong
  else if verb = "CTCP".toList then some .CommandTypeCTCP
  else none

/-- ReplyType represents a reply to a command. -/
inductive ReplyType where
  | ReplyTypeWelcome
  | ReplyTypeYourHost
  | ReplyTypeCreated
  | ReplyTypeMyInfo
  | ReplyTypeBounce
  | ReplyTypeNoTopic
  | ReplyTypeTopic
  | ReplyTypeNames
  | ReplyTypeEndOfNames
  | ReplyTypeErrNoSuchNick
  | ReplyTypeErrErroneusNickname
  | ReplyTypeErrNickInUse
  deriving DecidableEq, Repr

/-- The map `ReplyTypeMapping` from numerics to reply types. -/
def ReplyTypeMapping (code : GoString) : Option ReplyType :=
  if code = "001".toList then some .ReplyTypeWelcome
  else if code = "002".toList then some .ReplyTypeYourHost
  else if code = "003".toList then some .ReplyTypeCreated
  else if code = "004".toList then some .ReplyTypeMyInfo
  else if code = "005".toList then some .ReplyTypeBounce
  else if code = "331".toList then some .ReplyTypeNoTopic
  else if code = "332".toList then some .ReplyTypeTopic
  else if code = "353".toList then some .ReplyTypeNames
  else if code = "366".toList then some .ReplyTypeEndOfNames
  else if code = "401".toList then some .ReplyTypeErrNoSuchNick
  else if code = "432".toList then some .ReplyTypeErrErroneusNickname
  else if code = "433".toList then some .ReplyTypeErrNickInUse
  else none

/-! ## command.go -/

/-- The types implementing the interface `Command`, each owning one message.  A
`PrivmsgCommand` is `bound` when its `isDirectFunc` and `isMentionFunc` are the
closures of `mentionAndDirectPrivmsgCommand` over the owning connection, and not
bound when they are nil. -/
inductive Command where
  | PassCommand (m : Message)
  | UserCommand (m : Message)
  | NickCommand (m : Message)
  | JoinCommand (m : Message)
  | PrivmsgCommand (m : Message) (bound : Bool)
  | PingCommand (m : Message)
  | PongCommand (m : Message)
  | UnknownCommand (m : Message)
  deriving DecidableEq, Repr

/-- Method `Message()` of a command. -/
def Command.Message : Command → Tenyks.Message
  | .PassCommand m => m
  | .UserCommand m => m
  | .NickCommand m => m
  | .JoinCommand m => m
  | .PrivmsgCommand m _ => m
  | .PingCommand m => m
  | .PongCommand m => m
  | .UnknownCommand m => m

/-- The command with its message replaced: the effect of a write through the
command's message pointer. -/
def Command.withMessage : Command → Tenyks.Message → Command
  | .PassCommand _, m => .PassCommand m
  | .UserCommand _, m => .UserCommand m
  | .NickCommand _, m => .NickCommand m
  | .JoinCommand _, m => .JoinCommand m
  | .PrivmsgCommand _ b, m => .PrivmsgCommand m b
  | .PingCommand _, m => .PingCommand m
  | .PongCommand _, m => .PongCommand m
  | .UnknownCommand _, m => .UnknownCommand m

/-- Method `Encode()` of every command type: the wire string and error, and the
command after the call. -/
def Command.Encode (cmd : Command) : Except Failure GoString × Command :=
  let r := RawMessageEncoder.Encode cmd.Message
  (r.1, cmd.withMessage r.2)

/-- Method `Validate()` of every command type: `.ok ()` for a nil error. -/
def Command.Validate : Command → Except Failure Unit
  | .PassCommand m =>
    if m.Params.length ≠ 1 then .error (.goError "PASS command: wrong number of parameters")
    else .ok ()
  | .UserCommand m =>
    if m.Params.length ≠ 3 then
      .error (.goError "USER command error: wrong number of parameters")
    else if m.Trail = [] then
      .error (.goError "USER command error: real name parameter is required")
    else .ok ()
  | .NickCommand m =>
    if m.Params.length ≠ 1 then
      .error (.goError "NICK command: nick string parameter is required")
    else .ok ()
  | .JoinCommand m =>
    if m.Params.length < 1 then
      .error (.goError "JOIN command: channels parameter is required")
    else .ok ()
  | .PrivmsgCommand m _ =>
    if m.Params.length ≠ 1 then
      .error (.goError "PRIVMSG command: wrong number of parameters")
    else if m.Trail = [] then .error (.goError "PRIVMSG command: a message is required")
    else .ok ()
  | .PingCommand _ => .ok ()
  | .PongCommand _ => .ok ()
  | .UnknownCommand _ => .ok ()

/-- NewPassCommand (command.go:64-72). -/
def NewPassCommand (password : GoString) : Command :=
  .PassCommand { Command := "PASS".toList, MessageType := .MessageTypeCommand, Params := [password] }

/-- Go `fmt.Sprintf("%d", n)` for a natural number. -/
def formatNat (n : Nat) : GoString := (Nat.repr n).toList

/-- NewUserCommand (command.go:98-107), for a mode that is not negative. -/
def NewUserCommand (user : GoString) (mode : Nat) (realName : GoString) : Command :=
  .UserCommand
    { Command := "USER".toList, MessageType := .MessageTypeCommand,
      Params := [user, formatNat mode, "*".toList], Trail := realName }

/-- NewNickCommand (command.go:129-137). -/
def NewNickCommand (nick : GoString) : Command :=
  .NickCommand { Command := "NICK".toList, MessageType := .MessageTypeCommand, Params := [nick] }

/-- NewJoinCommand (command.go:159-168). -/
def NewJoinCommand (channels : List GoString) : Command :=
  .JoinCommand
    { Command := "JOIN".toList, MessageType := .MessageTypeCommand,
      Params := [Join channels ",".toList] }

/-- NewPrivmsgCommand (command.go:212-221). -/
def NewPrivmsgCommand (target : GoString) (msg : GoString) : Command :=
  .PrivmsgCommand
    { Command := "PRIVMSG".toList, MessageType := .MessageTypeCommand,
      Params := [target], Trail := msg } false

/-- NewPongCommand (command.go:280-288). -/
def NewPongCommand (server : GoString) : Command :=
  .PongCommand { Command := "PONG".toList, MessageType := .MessageTypeCommand, Trail := server }

/-- The map `DefaultCommandFactory` (command.go:20-42). -/
def DefaultCommandFactory : CommandType → Option (Message → Command)
  | .CommandTypePass => some .PassCommand
  | .CommandTypeUser => some .UserCommand
  | .CommandTypeNick => some .NickCommand
  | .CommandTypeJoin => some .JoinCommand
  | .CommandTypePrivmsg => some fun msg => .PrivmsgCommand msg false
  | .CommandTypePing => some .PingCommand
  | .CommandTypePong => some .PongCommand
  | _ => none

/-- The factory `mentionAndDirectPrivmsgCommand` (command.go:223-246): a PRIVMSG
whose direct and mention tests read the owning connection. -/
def mentionAndDirectPrivmsgCommand (m : Message) : Command := .PrivmsgCommand m true

/-! ## reply.go -/

/-- Every type implementing the interface `MessageObject`: the commands and the
four reply types. -/
inductive MessageObject where
  | command (cmd : Command)
  | WelcomeReply (m : Message)
  | NamesReply (m : Message)
  | EndOfNamesReply (m : Message)
  | ErrNickInUseReply (m : Message)
  deriving DecidableEq, Repr

/-- Method `Message()` of a message object. -/
def MessageObject.Message : MessageObject → Tenyks.Message
  | .command cmd => cmd.Message
  | .WelcomeReply m => m
  | .NamesReply m => m
  | .EndOfNamesReply m => m
  | .ErrNickInUseReply m => m

/-- The map `DefaultReplyFactory` (reply.go:13-26). -/
def DefaultReplyFactory : ReplyType → Option (Message → MessageObject)
  | .ReplyTypeWelcome => some .WelcomeReply
  | .ReplyTypeNames => some .NamesReply
  | .ReplyTypeEndOfNames => some .EndOfNamesReply
  | .ReplyTypeErrNickInUse => some .ErrNickInUseReply
  | _ => none

/-- NamesReply.Names (reply.go:57-59). -/
def NamesReply.Names (m : Message) : List GoString := Split m.Trail " ".toList

/-- NamesReply.Channel (reply.go:61-65): the last parameter; panics without one. -/
def NamesReply.Channel (m : Message) : Except Failure GoString :=
  index m.Params (m.Params.length - 1)

/-- EndOfNamesReply.Channel (reply.go:84-86): the last parameter; panics without
one. -/
def EndOfNamesReply.Channel (m : Message) : Except Failure GoString :=
  index m.Params (m.Params.length - 1)

/-- Modelled from the spec: the error value `ParameterCountValidationError`, whose
declaration is not among the sources; only that it is wrapped by the parameter
count errors is known, and its text here is a stand-in. -/
def ParameterCountValidationError : String := "parameter count validation error"

/-- NamesReply.Validate (reply.go:48-55). -/
def NamesReply.Validate (m : Message) : Except Failure Unit :=
  let l := m.Params.length
  if l < 2 ∨ l > 3 then
    .error (.goError (ParameterCountValidationError ++ ": expected 2 or 3, but got " ++
      toString l))
  else .ok ()

/-- EndOfNamesReply.Validate (reply.go:75-81): the error is returned when the
number of parameters is 2. -/
def EndOfNamesReply.Validate (m : Message) : Except Failure Unit :=
  if m.Params.length = 2 then
    .error (.goError (ParameterCountValidationError ++ ": expected 2, but got " ++
      toString m.Params.length))
  else .ok ()

/-! ## channel.go -/

/-- A Go map: an association list holding at most one entry for a key.  Iteration
order, which Go leaves unspecified, is the order of the list. -/
def GoMap (κ β : Type) : Type := List (κ × β)

instance {κ β : Type} [DecidableEq κ] [DecidableEq β] : DecidableEq (GoMap κ β) :=
  inferInstanceAs (DecidableEq (List (κ × β)))

instance {κ β : Type} [Repr κ] [Repr β] : Repr (GoMap κ β) :=
  inferInstanceAs (Repr (List (κ × β)))

/-- The empty map. -/
def GoMap.empty {κ β : Type} : GoMap κ β := ([] : List (κ × β))

/-- Go `v, ok := m[k]`. -/
def GoMap.lookup {κ β : Type} [DecidableEq κ] : GoMap κ β → κ → Option β
  | [], _ => none
  | (k', v) :: m, k => if k' = k then some v else GoMap.lookup m k

/-- Go `m[k] = v`. -/
def GoMap.store {κ β : Type} [DecidableEq κ] : GoMap κ β → κ → β → GoMap κ β
  | [], k, v => [(k, v)]
  | (k', v') :: m, k, v => if k' = k then (k, v) :: m else (k', v') :: GoMap.store m k v

/-- The keys of a map, as `range` visits them. -/
def GoMap.keys {κ β : Type} (m : GoMap κ β) : List κ := List.map Prod.fst m

/-- Modelled from the spec: the type `Nick`, whose declaration is not among the
sources; "a named channel member; presently only a name field". -/
structure Nick where
  Name : GoString := []
  deriving DecidableEq, Repr

/-- The states of a channel. -/
inductive ChannelStatusType where
  | ChannelStatusParted
  | ChannelStatusJoined
  | ChannelStatusErr
  deriving DecidableEq, Repr

/-- ChannelStatus is the current state of the channel. -/
structure ChannelStatus where
  Status : ChannelStatusType := .ChannelStatusParted
  Message : GoString := []
  Nicks : GoMap GoString Nick := GoMap.empty
  deriving DecidableEq, Repr

/-- A tracked channel. -/
structure Channel where
  Name : GoString := []
  Status : ChannelStatus := {}
  deriving DecidableEq, Repr

/-- NewChannel (channel.go:34-42). -/
def NewChannel (name : GoString) : Channel :=
  { Name := name, Status := { Status := .ChannelStatusParted, Nicks := GoMap.empty } }

/-! ## connection.go -/

/-- The status record of a connection. -/
structure ConnectionStatus where
  Connected : Bool := false
  CurrentNick : GoString := []
  CurrentServer : GoString := []
  StartedAt : Nat := 0
  LastServerProbe : Nat := 0
  LastServerProbeResponse : Nat := 0
  deriving DecidableEq, Repr

/-- The value of a logger parameter. -/
inductive LogValue where
  | text (s : GoString)
  | flag (b : Bool)
  | duration (d : Int)
  deriving DecidableEq, Repr

/-- One call of the logger: level, message and parameters. -/
structure LogEntry where
  level : String
  msg : GoString
  params : List (String × LogValue) := []
  deriving DecidableEq, Repr

/-- The chat message of package `message` (chat.go). -/
structure ChatMessage where
  DestinationPath : GoString := []
  OriginPath : GoString := []
  Direct : Bool := false
  Mention : Bool := false
  Content : GoString := []
  Timestamp : Nat := 0
  deriving DecidableEq, Repr

/-- The state of a connection.  The outgoing channel `out` is the list of the
commands sent on it and not yet received, oldest first; `log` is the list of calls
made to the logger; a registered chat-message handler is a number, and `delivered`
lists the calls made to the handlers.  The factory functions receive the owning
connection itself, which they can only keep: a command that keeps it is `bound`.
`conn` tells whether the field `conn` holds a socket (it is nil otherwise).  The
channel in the field `out` is nil as `New` leaves it; `Dial` makes it right after it
sets the socket (connection.go:126-137), and `Close` clears the socket and closes
the channel (connection.go:155-161): the channel is open while `conn` holds;
`closed` tells whether `Close` has ever closed the channels, so that when `conn`
does not hold the channel is closed if `closed` holds and nil if not.  The hooks
run in the goroutines that `Dial` starts and send on the channel that `Dial`
made. -/
structure Connection where
  Name : GoString := []
  Status : ConnectionStatus := {}
  CommandFactory : GoMap CommandType (Message → Command) := GoMap.empty
  ReplyFactory : GoMap ReplyType (Message → Command) := GoMap.empty
  channels : GoMap GoString Channel := GoMap.empty
  server : GoString := []
  password : GoString := []
  user : GoString := []
  realName : GoString := []
  useTLS : Bool := false
  nicks : List GoString := []
  log : List LogEntry := []
  conn : Bool := false
  closed : Bool := false
  out : List Command := []
  chatMessageHandlers : List Nat := []
  delivered : List (Nat × ChatMessage) := []

/-- Outcome of a call on a connection: the returned error (or a panic) and the
state of the connection after the call. -/
abbrev Effect := Except Failure Unit × Connection

/-- Connection.EnqueueCommand (connection.go:179-187); `none` when the call does
not return.  The send `c.out <- cmd` appends to the open channel; on the nil channel
of a connection that `Dial` has not connected it blocks for ever, and on the channel
that `Close` has closed it panics.  The queue is a list without a bound: the wait
of a send for the send loop when the 10 slots of the buffer are taken is not
represented. -/
def Connection.EnqueueCommand (c : Connection) (cmd : Command) : Option Effect :=
  match cmd.Validate with
  | .error (.goError e) =>
    some (.error (.goError ("failed to enqueue command; validation failed: " ++ e)), c)
  | .error p => some (.error p, c)
  | .ok () =>
    if c.conn then some (.ok (), { c with out := c.out ++ [cmd] })
    else if c.closed then some (.error (.goPanic "send on closed channel"), c)
    else none

/-- Connection.decodeAndMapMessage (connection.go:322-354). -/
def Connection.decodeAndMapMessage (c : Connection) (now : Nat) (raw : GoString) :
    Except Failure MessageObject :=
  match RawMessageDecoder.Decode now raw with
  | .error (.goError e) => .error (.goError ("failed to decode message: " ++ e))
  | .error p => .error p
  | .ok msg =>
    if msg.MessageType = .MessageTypeCommand then
      match CommandTypeMapping msg.Command with
      | some ct =>
        match c.CommandFactory.lookup ct with
        | some fn => .ok (.command (fn msg))
        | none =>
          match DefaultCommandFactory ct with
          | some fn => .ok (.command (fn msg))
          | none => .ok (.command (.UnknownCommand msg))
      | none => .ok (.command (.UnknownCommand msg))
    else
      match ReplyTypeMapping msg.Command with
      | some rt =>
        match c.ReplyFactory.lookup rt with
        | some fn => .ok (.command (fn msg))
        | none =>
          match DefaultReplyFactory rt with
          | some fn => .ok (fn msg)
          | none => .ok (.command (.UnknownCommand msg))
      | none => .ok (.command (.UnknownCommand msg))

/-- PrivmsgCommand.IsDirect (command.go:196-202) with the closure `isDirectFunc`
of `mentionAndDirectPrivmsgCommand` (command.go:226-232). -/
def PrivmsgCommand.IsDirect (c : Connection) (m : Message) (bound : Bool) :
    Except Failure Bool :=
  if bound = false then .ok false
  else if c.Status.Connected = false then .ok false
  else do
    let target ← index m.Params 0
    pure (decide (target = c.Status.CurrentNick))

/-- PrivmsgCommand.IsMention (command.go:204-210) with the closure `isMentionFunc`
of `mentionAndDirectPrivmsgCommand` (command.go:233-244). -/
def PrivmsgCommand.IsMention (c : Connection) (m : Message) (bound : Bool) :
    Except Failure Bool :=
  if bound = false then .ok false
  else if c.Status.Connected = false then .ok false
  else
    let parts := Split m.Trail ": ".toList
    if parts.length < 2 then .ok false
    else do
      let head ← index parts 0
      pure (decide (head = c.Status.CurrentNick))

/-- The encoder `tenyksChatMessageEncoder.Encode` (messageencoding.go:62-71). -/
def tenyksChatMessageEncoder.Encode (now : Nat) (m : Message) : Except Failure ChatMessage :=
  .ok { DestinationPath := "/".toList, OriginPath := "/".toList, Content := m.Trail,
        Timestamp := now }

/-! ## events.go -/

/-- An `OnCommandHook`; `now` is the reading of the clock. -/
abbrev OnCommandHook := Nat → Connection → Command → Effect

/-- An `OnReplyHook`.  Every message object implements the interface `Reply`. -/
abbrev OnReplyHook := Nat → Connection → MessageObject → Effect

/-- The hook `defaultConnectionStatusUpdater` (events.go:46-55). -/
def defaultConnectionStatusUpdater : OnReplyHook := fun _ c reply =>
  match reply with
  | .WelcomeReply _ => (.ok (), { c with Status := { c.Status with Connected := true } })
  | _ => (.ok (), c)

/-- The hook `defaultPingResponder` (events.go:57-66). -/
def defaultPingResponder : OnCommandHook := fun _ c command =>
  match command with
  | .PingCommand m => (.ok (), { c with out := c.out ++ [NewPongCommand m.Trail] })
  | _ => (.ok (), c)

/-- The hook `defaultJoinChannelStatusUpdater` (events.go:68-88). -/
def defaultJoinChannelStatusUpdater : OnCommandHook := fun _ c command =>
  match command with
  | .JoinCommand msg =>
    match msg.PrefixSection with
    | some pfx =>
      if pfx.Nick = c.Status.CurrentNick then
        match index msg.Params 0 with
        | .error e => (.error e, c)
        | .ok channelName =>
          match c.channels.lookup channelName with
          | some channel =>
            let joined : Channel :=
              { channel with Status := { channel.Status with Status := .ChannelStatusJoined } }
            (.ok (), { c with channels := c.channels.store channelName joined })
          | none => (.ok (), c)
      else (.ok (), c)
    | none => (.ok (), c)
  | _ => (.ok (), c)

/-- The loop of `defaultChannelMemberUpdater` (events.go:100-102) over the names. -/
def mergeNames (nicks : GoMap GoString Nick) (names : List GoString) : GoMap GoString Nick :=
  names.foldl (fun acc name => acc.store name { Name := name }) nicks

/-- The hook `defaultChannelMemberUpdater` (events.go:92-124). -/
def defaultChannelMemberUpdater : OnReplyHook := fun _ c reply =>
  match reply with
  | .NamesReply m =>
    match NamesReply.Channel m with
    | .error e => (.error e, c)
    | .ok channelName =>
      let names := NamesReply.Names m
      match c.channels.lookup channelName with
      | some channel =>
        let updated : Channel :=
          { channel with Status := { channel.Status with Nicks := mergeNames channel.Status.Nicks names } }
        (.ok (), { c with channels := c.channels.store channelName updated })
      | none => (.ok (), c)
  | .EndOfNamesReply m =>
    match EndOfNamesReply.Channel m with
    | .error e => (.error e, c)
    | .ok channelName =>
      let members : List GoString :=
        match c.channels.lookup channelName with
        | some channel => channel.Status.Nicks.keys
        | none => []
      let entry : LogEntry :=
        { level := "debug", msg := channelName,
          params := [("members", .text (Join members ", ".toList))] }
      (.ok (), { c with log := c.log ++ [entry] })
  | _ => (.ok (), c)

/-- The hook `defaultUnknownHandler` (events.go:134-141). -/
def defaultUnknownHandler : OnCommandHook := fun _ c command =>
  match command with
  | .UnknownCommand m =>
    let entry : LogEntry :=
      { level := "debug", msg := "unknown command".toList, params := [("msg", .text m.RawMsg)] }
    (.ok (), { c with log := c.log ++ [entry] })
  | _ => (.ok (), c)

/-- The hook `defaultPrivmsgHandler` (events.go:153-173). -/
def defaultPrivmsgHandler : OnCommandHook := fun now c command =>
  match command with
  | .PrivmsgCommand m bound =>
    match PrivmsgCommand.IsDirect c m bound with
    | .error e => (.error e, c)
    | .ok direct =>
      match PrivmsgCommand.IsMention c m bound with
      | .error e => (.error e, c)
      | .ok mention =>
        let entry : LogEntry :=
          { level := "debug", msg := m.RawMsg,
            params := [("directMessage", .flag direct), ("mentionMessage", .flag mention)] }
        let c := { c with log := c.log ++ [entry] }
        match tenyksChatMessageEncoder.Encode now m with
        | .error e => (.error e, c)
        | .ok msg =>
          (.ok (), { c with delivered := c.delivered ++ c.chatMessageHandlers.map fun h => (h, msg) })
  | _ => (.ok (), c)

/-- The list `OnCommand` that `New` installs (connection.go:398-403). -/
def defaultOnCommand : List OnCommandHook :=
  [defaultJoinChannelStatusUpdater, defaultPrivmsgHandler, defaultUnknownHandler,
    defaultPingResponder]

/-- The list `OnReply` that `New` installs (connection.go:404-407). -/
def defaultOnReply : List OnReplyHook :=
  [defaultConnectionStatusUpdater, defaultChannelMemberUpdater]

/-- The loop `for _, hook := range c.OnCommand` of the dispatcher
(connection.go:365-367): the error a hook returns is dropped, a panic ends the run. -/
def runOnCommand (now : Nat) : List OnCommandHook → Connection → Command → Except Failure Connection
  | [], c, _ => .ok c
  | hook :: hooks, c, cmd =>
    match hook now c cmd with
    | (.error (.goPanic what), _) => .error (.goPanic what)
    | (_, c') => runOnCommand now hooks c' cmd

/-- The loop `for _, hook := range c.OnReply` of the dispatcher
(connection.go:369-371). -/
def runOnReply (now : Nat) : List OnReplyHook → Connection → MessageObject → Except Failure Connection
  | [], c, _ => .ok c
  | hook :: hooks, c, reply =>
    match hook now c reply with
    | (.error (.goPanic what), _) => .error (.goPanic what)
    | (_, c') => runOnReply now hooks c' reply

/-- One turn of `temporaryDispatcher` (connection.go:362-373) on a message object
taken from the incoming channel, with the hook lists of the connection. -/
def dispatch (now : Nat) (onCommand : List OnCommandHook) (onReply : List OnReplyHook)
    (c : Connection) (mo : MessageObject) : Except Failure Connection :=
  match mo.Message.MessageType with
  | .MessageTypeCommand =>
    match mo with
    | .command cmd => runOnCommand now onCommand c cmd
    | _ => .error (.goPanic "interface conversion: not a Command")
  | .MessageTypeReply => runOnReply now onReply c mo

/-- The receive loop and the dispatcher on one line (connection.go:306-314,
362-373): decode and classify it, then run the hooks; a line that fails to decode
goes to the error channel and leaves the connection as it is. -/
def handleLine (now : Nat) (onCommand : List OnCommandHook) (onReply : List OnReplyHook)
    (c : Connection) (raw : GoString) : Except Failure Connection :=
  match c.decodeAndMapMessage now raw with
  | .error (.goPanic what) => .error (.goPanic what)
  | .error (.goError _) => .ok c
  | .ok mo => dispatch now onCommand onReply c mo

/-- An `OnDisconnectHook`. -/
abbrev OnDisconnectHook := Connection → Effect

/-- The hook `cleanupChannels` (events.go:143-151): every key of the channel map
gets a new channel of its name. -/
def cleanupChannels : OnDisconnectHook := fun c =>
  (.ok (), { c with
    channels := c.channels.keys.foldl (fun m k => m.store k (NewChannel k)) c.channels })

/-- The list `OnDisconnect` that `New` installs (connection.go:395-397). -/
def defaultOnDisconnect : List OnDisconnectHook := [cleanupChannels]

/-! ## connection.go, continued -/

/-- The loop over `c.OnDisconnect` in `Close` (connection.go:165-169): the first
error a hook returns ends the loop and is returned. -/
def runOnDisconnect : List OnDisconnectHook → Connection → Effect
  | [], c => (.ok (), c)
  | hook :: hooks, c =>
    match hook c with
    | (.error e, c') => (.error e, c')
    | (.ok (), c') => runOnDisconnect hooks c'

/-- Connection.Close (connection.go:153-173), with the hooks of the connection.  On
a connection marked connected it closes the socket (a nil socket panics), clears
it, closes the two channels, marks the connection disconnected and runs the hooks.
Cancelling the context acts on the goroutines only and is not represented. -/
def Connection.Close (onDisconnect : List OnDisconnectHook) (c : Connection) : Effect :=
  if c.Status.Connected then
    if c.conn = false then (.error (.goPanic "nil pointer dereference"), c)
    else
      runOnDisconnect onDisconnect
        { c with conn := false, closed := true,
                 Status := { c.Status with Connected := false } }
  else (.ok (), c)

/-- Connection.RegisterMessageHandler (connection.go:97-99). -/
def Connection.RegisterMessageHandler (c : Connection) (h : Nat) : Connection :=
  { c with chatMessageHandlers := c.chatMessageHandlers ++ [h] }

/-- The control message of package `message` (control.go). -/
structure ControlMessage where
  OID : GoString := []
  Kind : GoString := []
  Content : GoString := []
  Timestamp : Nat := 0
  deriving DecidableEq, Repr

/-- A value of the interface `message.Message`: one of its two implementations. -/
inductive TenyksMessage where
  | chat (m : ChatMessage)
  | control (m : ControlMessage)
  deriving DecidableEq, Repr

/-- The decoder `tenyksChatMessageDecoder.Decode` (messageencoding.go:75-90). -/
def tenyksChatMessageDecoder.Decode (msg : TenyksMessage) : Except Failure Command :=
  match msg with
  | .chat theirs => .ok (NewPrivmsgCommand (pathSplit theirs.DestinationPath).2 theirs.Content)
  | _ => .error (.goError "unexpected message type")

/-- Connection.SendAsync (connection.go:192-200); `none` when the call does not
return, as `EnqueueCommand` does not. -/
def Connection.SendAsync (c : Connection) (msg : TenyksMessage) : Option Effect :=
  match tenyksChatMessageDecoder.Decode msg with
  | .error (.goError e) =>
    some (.error (.goError ("failed to send message; decoding failed: " ++ e)), c)
  | .error p => some (.error p, c)
  | .ok cmd => c.EnqueueCommand cmd

/-- The configuration of a connection (connection.go:30-41); the logger is the
list `log` of the connection. -/
structure Config where
  Name : GoString := []
  Server : GoString := []
  Password : GoString := []
  User : GoString := []
  RealName : GoString := []
  UseTLS : Bool := false
  Nicks : List GoString := []
  Channels : List GoString := []
  Commands : List GoString := []
  deriving DecidableEq, Repr

/-- New (connection.go:378-426).  The hook lists it installs are `defaultOnCommand`,
`defaultOnReply` and `defaultOnDisconnect`. -/
def New (now : Nat) (conf : Config) : Except Failure Connection :=
  match SplitHostPort conf.Server with
  | .error e => .error e
  | .ok _ =>
    .ok { Name := conf.Name
          CommandFactory :=
            GoMap.store GoMap.empty .CommandTypePrivmsg mentionAndDirectPrivmsgCommand
          Status := { StartedAt := now }
          server := conf.Server
          useTLS := conf.UseTLS
          channels := conf.Channels.foldl (fun m ch => m.store ch (NewChannel ch)) GoMap.empty
          nicks := conf.Nicks
          user := conf.User
          realName := conf.RealName
          password := conf.Password }

/-- A value of type `float64`: a finite number, given by the rational number it
stands for, an infinity with its sign, or not a number.  The sign of a zero is not
represented. -/
inductive Float64 where
  | finite (q : ℚ)
  | inf (negative : Bool)
  | NaN
  deriving DecidableEq

/-- The magnitude from which a rounded number is no finite `float64`: two to the
power 1024. -/
def Float64.overflow : ℚ := 2 ^ 1024

/-- The nearest integer of a rational number, the even one of two that are equally
near. -/
def roundHalfEven (q : ℚ) : Int :=
  if q - (Int.floor q : ℚ) < 1 / 2 then Int.floor q
  else if 1 / 2 < q - (Int.floor q : ℚ) then Int.floor q + 1
  else if Int.floor q % 2 = 0 then Int.floor q
  else Int.floor q + 1

/-- The binary exponent at which a `float64` holds a number: the exponent of the
greatest power of two not above its magnitude, and -1022 for the magnitudes below
two to the power -1022 (the subnormal numbers). -/
def Float64.exponent (q : ℚ) : Int := max (Int.log 2 |q|) (-1022)

/-- A rational number rounded to a significand of 53 bits at its exponent, to the
nearest such number and to the one with an even significand of two that are equally
near (IEEE 754 binary64, round to nearest even). -/
def Float64.round (q : ℚ) : ℚ :=
  (roundHalfEven (q / (2 : ℚ) ^ (Float64.exponent q - 52)) : ℚ) *
    (2 : ℚ) ^ (Float64.exponent q - 52)

/-- The `float64` of a computed number: the number rounded, and an infinity when
the rounded number reaches the overflow magnitude. -/
def Float64.ofRat (q : ℚ) : Float64 :=
  if Float64.overflow ≤ Float64.round q then .inf false
  else if Float64.round q ≤ -Float64.overflow then .inf true
  else .finite (Float64.round q)

/-- The product of two `float64` values: the rounded product of two finite values;
zero times an infinity is not a number. -/
def Float64.mul : Float64 → Float64 → Float64
  | .finite a, .finite b => Float64.ofRat (a * b)
  | .finite a, .inf s => if a = 0 then .NaN else .inf (xor s (decide (a < 0)))
  | .inf s, .finite b => if b = 0 then .NaN else .inf (xor s (decide (b < 0)))
  | .inf s, .inf t => .inf (xor s t)
  | .NaN, _ => .NaN
  | _, .NaN => .NaN

/-- The comparison `x < y` of two `float64` values: false when either is not a
number. -/
def Float64.lt : Float64 → Float64 → Bool
  | .finite a, .finite b => decide (a < b)
  | .finite _, .inf negative => !negative
  | .inf negative, .finite _ => negative
  | .inf s, .inf t => s && !t
  | .NaN, _ => false
  | _, .NaN => false

/-- Go `math.Pow(x, y)` for `y` the `float64` of a natural number: 1 for the
exponent 0, whatever the base; not a number for a base that is not a number; an
infinity for an infinite base, negative for the negative one and an odd exponent;
and for a finite base the power rounded to a `float64`.  The standard library
computes the power by repeated squaring, which is exact where every intermediate
product is a `float64`, as for the powers of two. -/
def Float64.Pow (x : Float64) (y : Nat) : Float64 :=
  if y = 0 then .finite 1
  else
    match x with
    | .NaN => .NaN
    | .inf negative => .inf (negative && decide (y % 2 = 1))
    | .finite q => Float64.ofRat (q ^ y)

/-- Go `time.Duration(d)` for a `float64`: the fraction is dropped; for a value that
no `int64` represents, an infinity or what is not a number, the result is left to
the implementation and is `indefinite` here (on amd64 it is the least `int64`). -/
def Float64.toDuration (indefinite : Int) : Float64 → Int
  | .finite q =>
    if -(2 : ℚ) ^ 63 - 1 < q ∧ q < (2 : ℚ) ^ 63 then Tenyks.toDuration q else indefinite
  | _ => indefinite

/-- The type `backoff` (connection.go:428-434): a `float64`, two durations, which
are `int64` numbers of nanoseconds, and a counter of type `uint64`. -/
structure backoff where
  factor : Float64 := .finite 0
  min : Int := 0
  max : Int := 0
  n : Nat := 0

/-- The method `backoff.next` (connection.go:436-452), in the arithmetic of
`float64`: the conversions `float64(b.min)`, `float64(b.n)` and `float64(b.max)`
round, the product rounds, and the counter is a `uint64`.  The returned duration
and the backoff after the call. -/
def backoff.next (indefinite : Int) (b : backoff) : Int × backoff :=
  let factor : Float64 := if Float64.lt b.factor (.finite 1) then .finite 2 else b.factor
  let d : Float64 :=
    Float64.mul (Float64.ofRat (b.min : ℚ))
      (Float64.Pow factor (Int.toNat (Int.floor (Float64.round (b.n : ℚ)))))
  if Float64.lt (Float64.ofRat (b.max : ℚ)) d then
    (Float64.toDuration indefinite (Float64.ofRat (b.max : ℚ)), b)
  else (Float64.toDuration indefinite d, { b with n := (b.n + 1) % 2 ^ 64 })

/-- The backoff after `k` calls of `next`. -/
def backoff.after (indefinite : Int) (b : backoff) : Nat → backoff
  | 0 => b
  | k + 1 => (backoff.next indefinite (backoff.after indefinite b k)).2

/-! ## events.go, continued -/

/-- An `OnConnectHook`. -/
abbrev OnConnectHook := Connection → Effect

/-- The hook `defaultLoginFunc` (events.go:12-31).  The commands go to the outgoing
channel as they are, without `Validate`; `c.nicks[0]` panics on an empty list of
nicks, after PASS and USER were sent. -/
def defaultLoginFunc : OnConnectHook := fun c =>
  let c := if c.password ≠ [] then { c with out := c.out ++ [NewPassCommand c.password] } else c
  let c := { c with out := c.out ++ [NewUserCommand c.user 0 c.realName] }
  match index c.nicks 0 with
  | .error e => (.error e, c)
  | .ok nick =>
    (.ok (), { c with out := c.out ++ [NewNickCommand nick],
                      Status := { c.Status with CurrentNick := nick } })

/-- The hook `defaultJoinFunc` (events.go:33-44): one JOIN for the keys of the
channel map, in the order `range` visits them. -/
def defaultJoinFunc : OnConnectHook := fun c =>
  if c.channels.keys.length > 0 then
    (.ok (), { c with out := c.out ++ [NewJoinCommand c.channels.keys] })
  else (.ok (), c)

/-- The list `OnConnect` that `New` installs (connection.go:391-394). -/
def defaultOnConnect : List OnConnectHook := [defaultLoginFunc, defaultJoinFunc]

/-- An error value as `defaultErrorHandlerFunc` tells them apart: the value `io.EOF`
itself, or any other error. -/
inductive ErrorValue where
  | EOF
  | other (msg : String)
  deriving DecidableEq, Repr

/-- An `OnErrorHook`. -/
abbrev OnErrorHook := Connection → ErrorValue → Effect

/-- The hook `defaultErrorHandlerFunc` (events.go:126-132), with the disconnect
hooks of the connection, which `Close` runs. -/
def defaultErrorHandlerFunc (onDisconnect : List OnDisconnectHook) : OnErrorHook := fun c err =>
  match err with
  | .EOF => c.Close onDisconnect
  | .other _ => (.ok (), c)

/-! ## connection.go, continued -/

/-- The loop over `c.OnConnect` in `Dial` (connection.go:143-147): the first error
a hook returns ends `Dial` and is returned. -/
def runOnConnect : List OnConnectHook → Connection → Effect
  | [], c => (.ok (), c)
  | hook :: hooks, c =>
    match hook c with
    | (.error e, c') => (.error e, c')
    | (.ok (), c') => runOnConnect hooks c'

/-- The loop of `Dial` (connection.go:107-148).  `dials` lists the outcomes of the
successive calls of `DialContext`, `true` for a socket and `false` for an error;
the result is `none` when the loop goes on to a call that `dials` does not list.
A new socket comes with new channels, so with an empty outgoing queue.  The retry
delay is computed in `float64`; `indefinite` is what the implementation makes of a
conversion to a duration that has no value. -/
def dialLoop (indefinite : Int) (onConnect : List OnConnectHook) :
    List Bool → backoff → Connection → Option Effect
  | [], _, c => if c.conn then some (.ok (), c) else none
  | ok :: dials, b, c =>
    if c.conn then some (.ok (), c)
    else if ok = false then
      let entry : LogEntry :=
        { level := "error", msg := "connection failed".toList,
          params := [("connection", .text c.Name),
            ("retry", .duration (b.next indefinite).1)] }
      dialLoop indefinite onConnect dials (b.next indefinite).2
        { c with log := c.log ++ [entry] }
    else
      match runOnConnect onConnect { c with conn := true, out := [] } with
      | (.error e, c') => some (.error e, c')
      | (.ok (), c') => dialLoop indefinite onConnect dials b c'

/-- Connection.Dial (connection.go:101-151), with the connect hooks of the
connection and the outcomes of the calls of `DialContext`.  Five minutes are
300000000000 nanoseconds. -/
def Connection.Dial (indefinite : Int) (onConnect : List OnConnectHook) (dials : List Bool)
    (c : Connection) : Option Effect :=
  dialLoop indefinite onConnect dials { max := 300000000000 } c

/-- What the send loop has done: the bytes written to the socket, the errors sent
on its error channel and the calls made to the logger. -/
structure SendLoopState where
  written : GoString := []
  errs : List Failure := []
  log : List LogEntry := []

/-- The send loop of `startSendLoop` (connection.go:245-284) on the commands taken
from the outgoing channel, oldest first, with writes and flushes that succeed. -/
def startSendLoop : List Command → SendLoopState → Except Failure SendLoopState
  | [], s => .ok s
  | cmd :: queue, s =>
    match cmd.Validate with
    | .error (.goPanic what) => .error (.goPanic what)
    | .error e => startSendLoop queue { s with errs := s.errs ++ [e] }
    | .ok () =>
      match cmd.Encode with
      | (.error (.goPanic what), _) => .error (.goPanic what)
      | (.error e, _) => startSendLoop queue { s with errs := s.errs ++ [e] }
      | (.ok msg, cmd') =>
        let entry : LogEntry :=
          { level := "debug", msg := cmd'.Message.RawMsg,
            params := [("direction", .text "|--->|".toList)] }
        startSendLoop queue { s with log := s.log ++ [entry], written := s.written ++ msg }

/-! ## registry.go -/

/-- The type `AdapterType`, an `int`. -/
abbrev AdapterType := Int

/-- A value of the interface `Adapter`, by what its methods `GetType` and
`GetName` return and by its identity. -/
structure Adapter where
  GetType : AdapterType
  GetName : GoString
  id : Nat
  deriving DecidableEq, Repr

/-- The type `registry` (registry.go:10-13); `none` is the nil map of the zero
value. -/
structure registry where
  adapters : Option (GoMap AdapterType (GoMap GoString Adapter)) := none

/-- NewRegistry (registry.go:38-42). -/
def NewRegistry : registry := { adapters := some GoMap.empty }

/-- The method `registry.RegisterAdapter` (registry.go:15-28). -/
def registry.RegisterAdapter (r : registry) (a : Adapter) : registry :=
  let adapters : GoMap AdapterType (GoMap GoString Adapter) :=
    match r.adapters with
    | none => GoMap.empty
    | some m => m
  let byName : GoMap GoString Adapter :=
    match adapters.lookup a.GetType with
    | none => GoMap.empty
    | some m => m
  { adapters := some (adapters.store a.GetType (byName.store a.GetName a)) }

/-- The method `registry.GetAdaptersFor` (registry.go:30-36). -/
def registry.GetAdaptersFor (r : registry) (t : AdapterType) : GoMap GoString Adapter :=
  match r.adapters with
  | none => GoMap.empty
  | some m =>
    match m.lookup t with
    | none => GoMap.empty
    | some byName => byName

/-! ## Theorems -/

/-! ### Strings -/

theorem Index_cons_two (a b c : Char) (s : GoString) :
    Index (c :: s) [a, b] =
      if c = a ∧ s.head? = some b then some 0 else (Index s [a, b]).map (· + 1) := by
  rw [Index]
  cases s with
  | nil => simp [List.isPrefixOf]
  | cons d s =>
    simp only [List.isPrefixOf, List.head?_cons, Option.some.injEq, Bool.and_true,
      Bool.and_eq_true, beq_iff_eq]
    by_cases h1 : a = c <;> by_cases h2 : b = d <;> simp [h1, h2, eq_comm]

/-- The first occurrence of a two-letter separator with distinct letters, in a
string that has it right after a part without it. -/
theorem Index_append_sep (a b : Char) (hab : a ≠ b) (left right : GoString)
    (h : Index left [a, b] = none) :
    Index (left ++ [a, b] ++ right) [a, b] = some left.length := by
  induction left with
  | nil => simp [Index, List.isPrefixOf]
  | cons c l ih =>
    rw [Index_cons_two] at h
    have hcons : (c :: l) ++ [a, b] ++ right = c :: (l ++ [a, b] ++ right) := by simp
    rw [hcons, Index_cons_two]
    split_ifs at h with h1
    have h2 : Index l [a, b] = none := by
      cases hI : Index l [a, b] with
      | none => rfl
      | some i => rw [hI] at h; simp at h
    have h3 : ¬ (c = a ∧ (l ++ [a, b] ++ right).head? = some b) := by
      rintro ⟨hc, hh⟩
      cases l with
      | nil => simp at hh; exact hab hh
      | cons d l' => simp at hh; exact h1 ⟨hc, by simp [hh]⟩
    rw [if_neg h3, ih h2]
    simp

theorem SplitN_two_none (s sep : GoString) (h : Index s sep = none) : SplitN s sep 2 = [s] := by
  simp [SplitN, h]

theorem SplitN_two_append_sep (a b : Char) (hab : a ≠ b) (left right : GoString)
    (h : Index left [a, b] = none) :
    SplitN (left ++ [a, b] ++ right) [a, b] 2 = [left, right] := by
  simp only [SplitN, Index_append_sep a b hab left right h]
  simp [List.append_assoc, List.take_append_eq_append_take]

/-- A string without white space. -/
theorem fieldsLoop_append_token (tok : GoString) (htok : ∀ c ∈ tok, isSpace c = false)
    (cur rest : GoString) :
    fieldsLoop cur (tok ++ rest) = fieldsLoop (cur ++ tok) rest := by
  induction tok generalizing cur with
  | nil => simp
  | cons c t ih =>
    have hc : isSpace c = false := htok c (List.mem_cons_self _ _)
    have ht : ∀ d ∈ t, isSpace d = false := fun d hd => htok d (List.mem_cons_of_mem _ hd)
    rw [List.cons_append, fieldsLoop, if_neg (by simp [hc]), ih ht]
    simp

theorem Fields_token_space (tok : GoString) (hne : tok ≠ [])
    (htok : ∀ c ∈ tok, isSpace c = false) (rest : GoString) :
    Fields (tok ++ ' ' :: rest) = tok :: Fields rest := by
  unfold Fields
  rw [fieldsLoop_append_token tok htok]
  have hsp : isSpace ' ' = true := by decide
  simp [fieldsLoop, hsp, hne]

theorem Fields_token (tok : GoString) (hne : tok ≠ [])
    (htok : ∀ c ∈ tok, isSpace c = false) :
    Fields tok = [tok] := by
  unfold Fields
  have := fieldsLoop_append_token tok htok [] []
  simp only [List.append_nil, List.nil_append] at this
  rw [this]
  simp [fieldsLoop, hne]

/-- A token: a non-empty string without white space. -/
theorem Fields_Join (toks : List GoString)
    (h : ∀ t ∈ toks, t ≠ [] ∧ ∀ c ∈ t, isSpace c = false) :
    Fields (Join toks " ".toList) = toks := by
  induction toks with
  | nil => rfl
  | cons t ts ih =>
    have ht := h t (List.mem_cons_self _ _)
    have hts : ∀ u ∈ ts, u ≠ [] ∧ ∀ c ∈ u, isSpace c = false :=
      fun u hu => h u (List.mem_cons_of_mem _ hu)
    cases ts with
    | nil => simpa [Join] using Fields_token t ht.1 ht.2
    | cons u us =>
      have : Join (t :: u :: us) " ".toList = t ++ ' ' :: Join (u :: us) " ".toList := by
        simp [Join]
      rw [this, Fields_token_space t ht.1 ht.2, ih hts]

theorem fieldsLoop_tokens (s : GoString) :
    ∀ cur : GoString, (∀ c ∈ cur, isSpace c = false) →
      ∀ t ∈ fieldsLoop cur s, t ≠ [] ∧ ∀ c ∈ t, isSpace c = false := by
  induction s with
  | nil =>
    intro cur hcur t ht
    by_cases hc : cur = []
    · simp [fieldsLoop, hc] at ht
    · simp only [fieldsLoop, hc, if_false, List.mem_singleton] at ht
      subst ht
      exact ⟨hc, hcur⟩
  | cons c s ih =>
    intro cur hcur t ht
    by_cases hsp : isSpace c = true
    · by_cases hc : cur = []
      · simp only [fieldsLoop, hsp, hc, if_true] at ht
        exact ih [] (by simp) t ht
      · simp only [fieldsLoop, hsp, hc, if_true, if_false, List.mem_cons] at ht
        rcases ht with rfl | ht
        · exact ⟨hc, hcur⟩
        · exact ih [] (by simp) t ht
    · have hsp' : isSpace c = false := by simpa using hsp
      simp only [fieldsLoop, hsp', Bool.false_eq_true, if_false] at ht
      refine ih (cur ++ [c]) ?_ t ht
      intro d hd
      rcases List.mem_append.mp hd with hd | hd
      · exact hcur d hd
      · simp at hd; subst hd; exact hsp'

/-- Every field that `strings.Fields` returns is a token. -/
theorem Fields_tokens (s : GoString) :
    ∀ t ∈ Fields s, t ≠ [] ∧ ∀ c ∈ t, isSpace c = false :=
  fieldsLoop_tokens s [] (by simp)

theorem Join_cons_cons (a b : GoString) (rest : List GoString) (sep : GoString) :
    Join (a :: b :: rest) sep = a ++ sep ++ Join (b :: rest) sep := rfl

theorem Join_append_singleton (toks : List GoString) (hne : toks ≠ []) (x sep : GoString) :
    Join (toks ++ [x]) sep = Join toks sep ++ sep ++ x := by
  induction toks with
  | nil => exact absurd rfl hne
  | cons t ts ih =>
    cases ts with
    | nil => simp [Join]
    | cons u us =>
      have := ih (by simp)
      simp only [List.cons_append] at this ⊢
      rw [Join_cons_cons, this, Join_cons_cons]
      simp [List.append_assoc]

theorem Join_head (t : GoString) (ts : List GoString) (sep : GoString) (hne : t ≠ []) :
    (Join (t :: ts) sep).head? = t.head? := by
  cases t with
  | nil => exact absurd rfl hne
  | cons c t' => cases ts <;> simp [Join]

theorem Index_token_append (a b : Char) (tok rest : GoString) (htok : ∀ c ∈ tok, c ≠ a)
    (h : Index rest [a, b] = none) : Index (tok ++ rest) [a, b] = none := by
  induction tok with
  | nil => simpa using h
  | cons c t ih =>
    have hc : c ≠ a := htok c (List.mem_cons_self _ _)
    rw [List.cons_append, Index_cons_two, if_neg (fun hh => hc hh.1),
      ih (fun d hd => htok d (List.mem_cons_of_mem _ hd))]
    rfl

theorem Index_sep_cons (a b : Char) (rest : GoString) (hhead : rest.head? ≠ some b)
    (h : Index rest [a, b] = none) : Index (a :: rest) [a, b] = none := by
  rw [Index_cons_two, if_neg (fun hh => hhead hh.2), h]
  rfl

/-- Joining tokens by single spaces makes no `" :"` when no token after the first
starts with a colon. -/
theorem Index_Join_tokens (toks : List GoString)
    (hsp : ∀ t ∈ toks, ∀ c ∈ t, c ≠ ' ')
    (hcolon : ∀ t ∈ toks.tail, t ≠ [] ∧ t.head? ≠ some ':') :
    Index (Join toks " ".toList) " :".toList = none := by
  induction toks with
  | nil => rfl
  | cons t ts ih =>
    cases ts with
    | nil =>
      have := Index_token_append ' ' ':' t [] (hsp t (List.mem_cons_self _ _)) rfl
      simpa [Join] using this
    | cons u us =>
      have hu := hcolon u (by simp)
      have ih' := ih (fun v hv => hsp v (List.mem_cons_of_mem _ hv))
        (fun v hv => hcolon v (by simp at hv ⊢; exact Or.inr hv))
      have hrest : Index (' ' :: Join (u :: us) " ".toList) [' ', ':'] = none :=
        Index_sep_cons ' ' ':' _ (by rw [Join_head u us _ hu.1]; exact hu.2) ih'
      have := Index_token_append ' ' ':' t _ (hsp t (List.mem_cons_self _ _)) hrest
      simpa [Join] using this

/-- The message that `parseParams` returns for a command, parameters and trailing
text. -/
theorem parseParams_of_parts (msg : Message) (raw part0 : GoString) (rest : List GoString)
    (cmd : GoString) (params : List GoString)
    (hsplit : SplitN raw " :".toList 2 = part0 :: rest) (hf : Fields part0 = cmd :: params) :
    parseParams msg raw =
      .ok { msg with
        Trail := (if rest.length = 1 then rest.getD 0 [] else msg.Trail)
        Command := cmd
        MessageType := classify cmd
        Params := (if params = [] then msg.Params else params)
        Parsed := true } := by
  unfold parseParams
  simp only [hsplit, index, List.get?, hf, bind, Except.bind, pure, Except.pure]
  cases params <;> cases rest <;> simp

theorem parseParams_split (msg : Message) (left right cmd : GoString) (params : List GoString)
    (h : Index left " :".toList = none) (hf : Fields left = cmd :: params) :
    parseParams msg (left ++ " :".toList ++ right) =
      .ok { msg with
        Trail := right
        Command := cmd
        MessageType := classify cmd
        Params := (if params = [] then msg.Params else params)
        Parsed := true } := by
  have hs : SplitN (left ++ " :".toList ++ right) " :".toList 2 = [left, right] :=
    SplitN_two_append_sep ' ' ':' (by decide) left right h
  rw [parseParams_of_parts msg _ left [right] cmd params hs hf]
  simp

theorem parseParams_nosplit (msg : Message) (raw cmd : GoString) (params : List GoString)
    (h : Index raw " :".toList = none) (hf : Fields raw = cmd :: params) :
    parseParams msg raw =
      .ok { msg with
        Command := cmd
        MessageType := classify cmd
        Params := (if params = [] then msg.Params else params)
        Parsed := true } := by
  have hs := SplitN_two_none raw " :".toList h
  rw [parseParams_of_parts msg _ raw [] cmd params hs hf]
  simp

theorem ParseMessage_of_stages (now : Nat) (raw rest1 rest : GoString)
    (tags : Option TagsSection) (pfx : Option PrefixSection)
    (htags : parseTagsSection (TrimSuffix raw "\r\n".toList) = .ok (tags, rest1))
    (hpfx : parsePrefixSection rest1 = .ok (pfx, rest)) :
    ParseMessage now raw =
      parseParams { CreatedAt := now, RawMsg := TrimSuffix raw "\r\n".toList,
                    TagsSection := tags, PrefixSection := pfx } rest := by
  unfold ParseMessage
  simp only [htags, hpfx, bind, Except.bind]

theorem TrimSuffix_append (s suffix : GoString) : TrimSuffix (s ++ suffix) suffix = s := by
  have h : HasSuffix (s ++ suffix) suffix = true := by
    simp [HasSuffix, List.isSuffixOf_iff_suffix]
  simp [TrimSuffix, h]

theorem parseTagsSection_plain (c : Char) (s : GoString) (h : c ≠ '@') :
    parseTagsSection (c :: s) = .ok (none, c :: s) := by
  simp [parseTagsSection, index, h, bind, Except.bind, pure, Except.pure]

theorem parsePrefixSection_plain (c : Char) (s : GoString) (h : c ≠ ':') :
    parsePrefixSection (c :: s) = .ok (none, c :: s) := by
  simp [parsePrefixSection, index, h, bind, Except.bind, pure, Except.pure]

/-- A line that starts with neither `@` nor `:` has no tag block and no prefix. -/
theorem ParseMessage_plain (now : Nat) (c : Char) (s : GoString) (h1 : c ≠ '@') (h2 : c ≠ ':') :
    ParseMessage now (c :: s ++ "\r\n".toList) =
      parseParams { CreatedAt := now, RawMsg := c :: s } (c :: s) := by
  have ht : TrimSuffix (c :: s ++ "\r\n".toList) "\r\n".toList = c :: s :=
    TrimSuffix_append (c :: s) _
  rw [ParseMessage_of_stages now _ (c :: s) (c :: s) none none
    (by rw [ht]; exact parseTagsSection_plain c s h1) (parsePrefixSection_plain c s h2), ht]

/-- What an accepted line leaves in `Command` and `Params`: the fields of some
string, in order. -/
theorem ParseMessage_ok_fields (now : Nat) (raw : GoString) (m : Message)
    (h : ParseMessage now raw = .ok m) : ∃ s, Fields s = m.Command :: m.Params := by
  unfold ParseMessage at h
  simp only [bind, Except.bind] at h
  split at h
  · cases h
  · rename_i v1 _
    split at h
    · cases h
    · rename_i v2 _
      unfold parseParams at h
      simp only [bind, Except.bind, pure, Except.pure] at h
      split at h
      · cases h
      · rename_i part0 _
        split at h
        · cases h
        · rename_i command hcmd
          refine ⟨part0, ?_⟩
          cases hF : Fields part0 with
          | nil => simp [hF, index] at hcmd
          | cons cmd ps =>
            simp only [hF, index, List.get?, Except.ok.injEq] at hcmd
            subst hcmd
            simp only [hF] at h
            cases h
            cases ps <;> simp

theorem not_space_of_isSpace_false (t : GoString) (h : ∀ c ∈ t, isSpace c = false) :
    ∀ c ∈ t, c ≠ ' ' := by
  intro c hc heq
  have := h c hc
  rw [heq] at this
  exact absurd this (by decide)

/-- Parsing the wire form of a command, parameters and trailing text gives them
back, when they are tokens, the command starts with neither `@` nor `:` and no
parameter starts with `:`. -/
theorem ParseMessage_wire (now : Nat) (cmd : GoString) (params : List GoString) (trail : GoString)
    (htok : ∀ t ∈ cmd :: params, t ≠ [] ∧ ∀ c ∈ t, isSpace c = false)
    (hcmd : cmd.head? ≠ some '@' ∧ cmd.head? ≠ some ':')
    (hparams : ∀ p ∈ params, p.head? ≠ some ':') :
    ∃ m, ParseMessage now
          (cmd ++ " ".toList ++
            Join (if trail ≠ [] then params ++ [":".toList ++ trail] else params) " ".toList ++
            "\r\n".toList) = .ok m ∧
      m.Command = cmd ∧ m.Params = params ∧ m.Trail = trail ∧
      m.TagsSection = none ∧ m.PrefixSection = none := by
  have hcmdtok := htok cmd (List.mem_cons_self _ _)
  have hptok : ∀ t ∈ params, t ≠ [] ∧ ∀ c ∈ t, isSpace c = false :=
    fun t ht => htok t (List.mem_cons_of_mem _ ht)
  have hsp : ∀ t ∈ cmd :: params, ∀ c ∈ t, c ≠ ' ' :=
    fun t ht => not_space_of_isSpace_false t (htok t ht).2
  have hcolon : ∀ t ∈ (cmd :: params).tail, t ≠ [] ∧ t.head? ≠ some ':' :=
    fun t ht => ⟨(hptok t ht).1, hparams t ht⟩
  obtain ⟨c, s, hcs⟩ : ∃ c s, cmd = c :: s := by
    cases cmd with
    | nil => exact absurd rfl hcmdtok.1
    | cons c s => exact ⟨c, s, rfl⟩
  have hc1 : c ≠ '@' := by
    intro h; apply hcmd.1; simp [hcs, h]
  have hc2 : c ≠ ':' := by
    intro h; apply hcmd.2; simp [hcs, h]
  by_cases htrail : trail = []
  · -- no trailing text: the line is the command, a space, the parameters
    have hline : cmd ++ " ".toList ++
        Join (if trail ≠ [] then params ++ [":".toList ++ trail] else params) " ".toList ++
        "\r\n".toList = c :: (s ++ ' ' :: Join params " ".toList) ++ "\r\n".toList := by
      simp [htrail, hcs]
    have hbody : c :: (s ++ ' ' :: Join params " ".toList) = cmd ++ ' ' :: Join params " ".toList := by
      simp [hcs]
    have hidx : Index (cmd ++ ' ' :: Join params " ".toList) " :".toList = none := by
      apply Index_token_append ' ' ':' cmd _ (hsp cmd (List.mem_cons_self _ _))
      apply Index_sep_cons
      · cases params with
        | nil => simp [Join]
        | cons p ps =>
          rw [Join_head p ps _ (hptok p (List.mem_cons_self _ _)).1]
          exact hparams p (List.mem_cons_self _ _)
      · exact Index_Join_tokens params
          (fun t ht => hsp t (List.mem_cons_of_mem _ ht))
          (fun t ht => ⟨(hptok t (List.mem_of_mem_tail ht)).1, hparams t (List.mem_of_mem_tail ht)⟩)
    have hfields : Fields (cmd ++ ' ' :: Join params " ".toList) = cmd :: params := by
      rw [Fields_token_space cmd hcmdtok.1 hcmdtok.2, Fields_Join params hptok]
    rw [hline, ParseMessage_plain now c _ hc1 hc2, hbody,
      parseParams_nosplit _ _ cmd params hidx hfields]
    refine ⟨_, rfl, rfl, ?_, ?_, rfl, rfl⟩
    · cases params <;> simp
    · simp [htrail]
  · -- trailing text: the line is the joined tokens, `" :"`, the text
    have hjoin : cmd ++ " ".toList ++ Join (params ++ [":".toList ++ trail]) " ".toList =
        Join (cmd :: params) " ".toList ++ " :".toList ++ trail := by
      have h1 : cmd ++ " ".toList ++ Join (params ++ [":".toList ++ trail]) " ".toList =
          Join ((cmd :: params) ++ [":".toList ++ trail]) " ".toList := by
        cases params <;> simp [Join]
      rw [h1, Join_append_singleton (cmd :: params) (by simp)]
      simp
    obtain ⟨s', hs'⟩ : ∃ s', Join (cmd :: params) " ".toList ++ " :".toList ++ trail = c :: s' := by
      cases params <;> simp [hcs, Join]
    have hline : cmd ++ " ".toList ++
        Join (if trail ≠ [] then params ++ [":".toList ++ trail] else params) " ".toList ++
        "\r\n".toList = c :: s' ++ "\r\n".toList := by
      rw [if_pos htrail, hjoin, hs']
    rw [hline, ParseMessage_plain now c _ hc1 hc2, ← hs',
      parseParams_split _ _ trail cmd params (Index_Join_tokens _ hsp hcolon)
        (Fields_Join _ htok)]
    refine ⟨_, rfl, rfl, ?_, rfl, rfl, rfl⟩
    cases params <;> simp

theorem HasSuffix_crlf_append (front : GoString) (a : Char) (t : GoString)
    (ha1 : a ≠ '\r') (ha2 : a ≠ '\n') :
    HasSuffix (front ++ a :: t) "\r\n".toList = HasSuffix t "\r\n".toList := by
  have hrev : (front ++ a :: t).reverse = t.reverse ++ a :: front.reverse := by simp
  have hsuf : ("\r\n".toList).reverse = ['\n', '\r'] := rfl
  unfold HasSuffix List.isSuffixOf
  rw [hrev, hsuf]
  rcases t.reverse with _ | ⟨x, _ | ⟨y, r⟩⟩
  · simp [List.isPrefixOf, Ne.symm ha2]
  · simp [List.isPrefixOf, Ne.symm ha1]
  · simp [List.isPrefixOf]

theorem TrimSuffix_of_not_HasSuffix (s suffix : GoString) (h : HasSuffix s suffix = false) :
    TrimSuffix s suffix = s := by
  simp [TrimSuffix, h]

theorem Index_single_none (a : Char) (s : GoString) (h : a ∉ s) : Index s [a] = none := by
  induction s with
  | nil => rfl
  | cons c s ih =>
    have hc : a ≠ c := fun hh => h (hh ▸ List.mem_cons_self _ _)
    have hs : a ∉ s := fun hh => h (List.mem_cons_of_mem _ hh)
    rw [Index]
    simp [List.isPrefixOf, hc, ih hs]

theorem Index_single_append (a : Char) (s rest : GoString) (h : a ∉ s) :
    Index (s ++ a :: rest) [a] = some s.length := by
  induction s with
  | nil => simp [Index, List.isPrefixOf]
  | cons c s ih =>
    have hc : a ≠ c := fun hh => h (hh ▸ List.mem_cons_self _ _)
    have hs : a ∉ s := fun hh => h (List.mem_cons_of_mem _ hh)
    rw [List.cons_append, Index]
    simp [List.isPrefixOf, hc, ih hs]

/-- Splitting at a one-letter separator what `Join` made with it gives the pieces
back, when no piece holds the separator and the limit allows them all. -/
theorem SplitN_Join_single (a : Char) (ns : List GoString) (hne : ns ≠ [])
    (h : ∀ n ∈ ns, a ∉ n) :
    ∀ k, ns.length ≤ k → SplitN (Join ns [a]) [a] k = ns := by
  induction ns with
  | nil => exact absurd rfl hne
  | cons n rest ih =>
    intro k hk
    have hn : a ∉ n := h n (List.mem_cons_self _ _)
    cases rest with
    | nil =>
      rcases k with _ | _ | k
      · simp at hk
      · simp [SplitN, Join]
      · simp [SplitN, Join, Index_single_none a n hn]
    | cons n' rest' =>
      rcases k with _ | _ | k
      · simp at hk
      · simp at hk
      · have hrest := ih (by simp) (fun m hm => h m (List.mem_cons_of_mem _ hm)) (k + 1)
          (by simp at hk ⊢; omega)
        have hJ : Join (n :: n' :: rest') [a] = n ++ a :: Join (n' :: rest') [a] := by
          simp [Join]
        rw [hJ, SplitN, Index_single_append a n _ hn]
        simp only [List.length_singleton]
        rw [List.take_left, List.drop_append, List.drop_one, List.tail_cons, hrest]

theorem length_le_length_Join (ns : List GoString) (sep : GoString) (hsep : sep ≠ []) :
    ns.length ≤ (Join ns sep).length + 1 := by
  induction ns with
  | nil => simp
  | cons n rest ih =>
    cases rest with
    | nil => simp [Join]
    | cons n' rest' =>
      have hs : 0 < sep.length := List.length_pos.mpr hsep
      simp only [Join_cons_cons, List.length_append, List.length_cons] at ih ⊢
      omega

theorem Split_Join_single (a : Char) (ns : List GoString) (hne : ns ≠ [])
    (h : ∀ n ∈ ns, a ∉ n) : Split (Join ns [a]) [a] = ns :=
  SplitN_Join_single a ns hne h _ (length_le_length_Join ns [a] (by simp))

/-! ### Maps -/

theorem GoMap.lookup_store_self {κ β : Type} [DecidableEq κ] (m : GoMap κ β) (k : κ) (v : β) :
    (m.store k v).lookup k = some v := by
  induction m with
  | nil => simp [GoMap.store, GoMap.lookup]
  | cons e m ih =>
    obtain ⟨k', v'⟩ := e
    by_cases h : k' = k
    · simp [GoMap.store, GoMap.lookup, h]
    · simp [GoMap.store, GoMap.lookup, h, ih]

theorem GoMap.lookup_store_ne {κ β : Type} [DecidableEq κ] (m : GoMap κ β) (k k₀ : κ) (v : β)
    (hne : k ≠ k₀) : (m.store k v).lookup k₀ = m.lookup k₀ := by
  induction m with
  | nil => simp [GoMap.store, GoMap.lookup, hne]
  | cons e m ih =>
    obtain ⟨k', v'⟩ := e
    by_cases h : k' = k
    · subst h
      simp [GoMap.store, GoMap.lookup, hne]
    · by_cases h' : k' = k₀
      · subst h'
        simp [GoMap.store, GoMap.lookup, h]
      · simp [GoMap.store, GoMap.lookup, h, h', ih]

theorem GoMap.mem_keys_store {κ β : Type} [DecidableEq κ] (m : GoMap κ β) (k k₀ : κ) (v : β) :
    k₀ ∈ (m.store k v).keys ↔ k₀ = k ∨ k₀ ∈ m.keys := by
  induction m with
  | nil => simp [GoMap.store, GoMap.keys]
  | cons e m ih =>
    obtain ⟨k', v'⟩ := e
    by_cases h : k' = k
    · subst h
      simp [GoMap.store, GoMap.keys]
    · simp only [GoMap.keys] at ih
      simp only [GoMap.store, h, if_false, GoMap.keys, List.map_cons, List.mem_cons, ih]
      tauto

theorem mergeNames_cons (m : GoMap GoString Nick) (n : GoString) (ns : List GoString) :
    mergeNames m (n :: ns) = mergeNames (m.store n { Name := n }) ns := rfl

theorem mem_keys_mergeNames (ns : List GoString) :
    ∀ (m : GoMap GoString Nick) (k : GoString),
      k ∈ (mergeNames m ns).keys ↔ k ∈ m.keys ∨ k ∈ ns := by
  induction ns with
  | nil => intro m k; simp [mergeNames]
  | cons n ns ih =>
    intro m k
    rw [mergeNames_cons, ih, GoMap.mem_keys_store]
    simp only [List.mem_cons]
    tauto

theorem lookup_mergeNames_of_not_mem (ns : List GoString) :
    ∀ (m : GoMap GoString Nick) (k : GoString), k ∉ ns →
      (mergeNames m ns).lookup k = m.lookup k := by
  induction ns with
  | nil => intro m k _; rfl
  | cons n ns ih =>
    intro m k hk
    have h1 : n ≠ k := fun h => hk (h ▸ List.mem_cons_self _ _)
    have h2 : k ∉ ns := fun h => hk (List.mem_cons_of_mem _ h)
    rw [mergeNames_cons, ih _ _ h2, GoMap.lookup_store_ne _ _ _ _ h1]

theorem lookup_mergeNames_of_mem (ns : List GoString) :
    ∀ (m : GoMap GoString Nick) (k : GoString), k ∈ ns →
      (mergeNames m ns).lookup k = some { Name := k } := by
  induction ns with
  | nil => intro m k hk; simp at hk
  | cons n ns ih =>
    intro m k hk
    rw [mergeNames_cons]
    by_cases hmem : k ∈ ns
    · exact ih _ _ hmem
    · have hkn : k = n := by
        rcases List.mem_cons.mp hk with h | h
        · exact h
        · exact absurd h hmem
      subst hkn
      rw [lookup_mergeNames_of_not_mem ns _ _ hmem, GoMap.lookup_store_self]

theorem ParseMessage_ping (now : Nat) (tok : GoString)
    (h : HasSuffix tok "\r\n".toList = false) :
    ParseMessage now ("PING :".toList ++ tok) =
      .ok { CreatedAt := now, RawMsg := "PING :".toList ++ tok, Command := "PING".toList,
            MessageType := .MessageTypeCommand, Trail := tok, Parsed := true } := by
  have hsuf : HasSuffix ("PING :".toList ++ tok) "\r\n".toList = false := by
    have := HasSuffix_crlf_append "PING ".toList ':' tok (by decide) (by decide)
    rw [← h, ← this]
    rfl
  have htrim := TrimSuffix_of_not_HasSuffix _ _ hsuf
  have hstage := ParseMessage_of_stages now ("PING :".toList ++ tok) ("PING :".toList ++ tok)
    ("PING :".toList ++ tok) none none
    (by rw [htrim]; exact parseTagsSection_plain 'P' ("ING :".toList ++ tok) (by decide))
    (parsePrefixSection_plain 'P' ("ING :".toList ++ tok) (by decide))
  have hsplit := parseParams_split
    { CreatedAt := now, RawMsg := "PING :".toList ++ tok } "PING".toList tok "PING".toList []
    rfl rfl
  rw [hstage, htrim]
  show parseParams _ ("PING".toList ++ " :".toList ++ tok) = _
  rw [hsplit]
  rfl

theorem parsePrefixSection_server (rest : GoString) :
    parsePrefixSection (":s ".toList ++ rest) = .ok (some { RawPrefix := "s".toList }, rest) := by
  show parsePrefixSection (':' :: 's' :: ' ' :: rest) = _
  simp [parsePrefixSection, index, Index, List.isPrefixOf, slice, sliceFrom, bind, Except.bind,
    pure, Except.pure]

/-- Decoding a line from server `s`: tokens, then `" :"` and the trailing text. -/
theorem ParseMessage_server_line (now : Nat) (cmd : GoString) (params : List GoString)
    (trail : GoString)
    (htok : ∀ t ∈ cmd :: params, t ≠ [] ∧ ∀ c ∈ t, isSpace c = false)
    (hparams : ∀ p ∈ params, p.head? ≠ some ':')
    (hsuf : HasSuffix (":s ".toList ++ (Join (cmd :: params) " ".toList ++ " :".toList ++ trail))
      "\r\n".toList = false) :
    ParseMessage now (":s ".toList ++ (Join (cmd :: params) " ".toList ++ " :".toList ++ trail)) =
      .ok { PrefixSection := some { RawPrefix := "s".toList }
            Command := cmd
            MessageType := classify cmd
            Params := params
            Trail := trail
            CreatedAt := now
            RawMsg := ":s ".toList ++ (Join (cmd :: params) " ".toList ++ " :".toList ++ trail)
            Parsed := true } := by
  have htrim := TrimSuffix_of_not_HasSuffix _ _ hsuf
  have hstage := ParseMessage_of_stages now _ _ _ none _
    (by rw [htrim]; exact parseTagsSection_plain ':' (_ ++ _) (by decide))
    (parsePrefixSection_server (Join (cmd :: params) " ".toList ++ " :".toList ++ trail))
  have hsp : ∀ t ∈ cmd :: params, ∀ c ∈ t, c ≠ ' ' :=
    fun t ht => not_space_of_isSpace_false t (htok t ht).2
  have hcolon : ∀ t ∈ (cmd :: params).tail, t ≠ [] ∧ t.head? ≠ some ':' :=
    fun t ht => ⟨(htok t (List.mem_cons_of_mem _ ht)).1, hparams t ht⟩
  rw [hstage, htrim, parseParams_split _ _ trail cmd params (Index_Join_tokens _ hsp hcolon)
    (Fields_Join _ htok)]
  cases params <;> simp

theorem Join_getLast (ns : List GoString) (hne : ns ≠ []) (sep : GoString) :
    ∃ front, Join ns sep = front ++ ns.getLast hne ∧ (front = [] ∨ ∃ f, front = f ++ sep) := by
  have hdl := List.dropLast_append_getLast hne
  by_cases hd : ns.dropLast = []
  · refine ⟨[], ?_, Or.inl rfl⟩
    rw [hd] at hdl
    have hns : ns = [ns.getLast hne] := by simpa using hdl.symm
    conv_lhs => rw [hns]
    simp [Join]
  · refine ⟨Join ns.dropLast sep ++ sep, ?_, Or.inr ⟨_, rfl⟩⟩
    conv_lhs => rw [← hdl]
    exact Join_append_singleton _ hd _ _

theorem HasSuffix_crlf_Join (front : GoString) (ns : List GoString) (hne : ns ≠ [])
    (hlast : HasSuffix (ns.getLast hne) "\r\n".toList = false) :
    HasSuffix (front ++ " :".toList ++ Join ns " ".toList) "\r\n".toList = false := by
  obtain ⟨fr, hJ, hfr⟩ := Join_getLast ns hne " ".toList
  rw [hJ, ← hlast]
  rcases hfr with rfl | ⟨f, rfl⟩
  · have := HasSuffix_crlf_append (front ++ " ".toList) ':' (ns.getLast hne) (by decide) (by decide)
    rw [← this]
    congr 1
    simp
  · have := HasSuffix_crlf_append (front ++ " :".toList ++ f) ' ' (ns.getLast hne)
      (by decide) (by decide)
    rw [← this]
    congr 1
    simp

theorem TrimSuffix_cases (s suffix : GoString) :
    TrimSuffix s suffix = s ∨ s = TrimSuffix s suffix ++ suffix := by
  by_cases h : HasSuffix s suffix = true
  · right
    have hsuf : suffix <:+ s := by simpa [HasSuffix, List.isSuffixOf_iff_suffix] using h
    obtain ⟨x, hx⟩ := hsuf
    subst hx
    rw [TrimSuffix_append]
  · left
    simp [TrimSuffix, h]

/-- What is left of a line that starts with `c` (not a carriage return) and holds
no space, once the final CRLF is cut. -/
theorem TrimSuffix_crlf_head (raw : GoString) (c : Char) (hc : c ≠ '\r')
    (h1 : raw.head? = some c) (h2 : ' ' ∉ raw) :
    ∃ s, TrimSuffix raw "\r\n".toList = c :: s ∧ ' ' ∉ c :: s := by
  rcases TrimSuffix_cases raw "\r\n".toList with h | h
  · rw [h]
    cases raw with
    | nil => simp at h1
    | cons d s =>
      simp only [List.head?_cons, Option.some.injEq] at h1
      subst h1
      exact ⟨s, rfl, h2⟩
  · generalize TrimSuffix raw "\r\n".toList = t at h
    subst h
    cases t with
    | nil =>
      simp only [List.nil_append] at h1
      exact absurd (Option.some.inj h1).symm hc
    | cons d s =>
      simp only [List.cons_append, List.head?_cons, Option.some.injEq] at h1
      subst h1
      refine ⟨s, rfl, fun hmem => h2 ?_⟩
      exact List.mem_append_left _ hmem

theorem ParseMessage_of_tags_error (now : Nat) (raw : GoString) (e : Failure)
    (h : parseTagsSection (TrimSuffix raw "\r\n".toList) = .error e) :
    ParseMessage now raw = .error e := by
  unfold ParseMessage
  simp only [h, bind, Except.bind]

theorem ParseMessage_of_prefix_error (now : Nat) (raw rest : GoString)
    (tags : Option TagsSection) (e : Failure)
    (htags : parseTagsSection (TrimSuffix raw "\r\n".toList) = .ok (tags, rest))
    (h : parsePrefixSection rest = .error e) :
    ParseMessage now raw = .error e := by
  unfold ParseMessage
  simp only [htags, h, bind, Except.bind]

theorem parseTagsSection_at_without_space (s : GoString) (h : ' ' ∉ '@' :: s) :
    parseTagsSection ('@' :: s) =
      .error (.goError "failed to parse message: invalid message format") := by
  have hidx : Index ('@' :: s) [' '] = none := Index_single_none ' ' _ h
  simp [parseTagsSection, index, hidx, bind, Except.bind, throw, throwThe, MonadExceptOf.throw]

theorem parsePrefixSection_colon_without_space (s : GoString) (h : ' ' ∉ ':' :: s) :
    parsePrefixSection (':' :: s) =
      .error (.goError "failed to parse message: invalid prefix") := by
  have hidx : Index (':' :: s) [' '] = none := Index_single_none ' ' _ h
  simp [parsePrefixSection, index, hidx, bind, Except.bind, throw, throwThe, MonadExceptOf.throw]

/-- A line that starts with `@` and holds no space is refused with an error. -/
theorem ParseMessage_at_without_space (now : Nat) (raw : GoString)
    (h1 : raw.head? = some '@') (h2 : ' ' ∉ raw) :
    ParseMessage now raw =
      .error (.goError "failed to parse message: invalid message format") := by
  obtain ⟨s, hs, hsp⟩ := TrimSuffix_crlf_head raw '@' (by decide) h1 h2
  exact ParseMessage_of_tags_error now raw _ (by rw [hs]; exact parseTagsSection_at_without_space s hsp)

/-- After a tag block that parses, a remainder that starts with `:` and holds no
space is refused with an error. -/
theorem ParseMessage_tagged_colon_without_space (now : Nat) (raw rest : GoString)
    (tags : Option TagsSection)
    (htags : parseTagsSection (TrimSuffix raw "\r\n".toList) = .ok (tags, rest))
    (h1 : rest.head? = some ':') (h2 : ' ' ∉ rest) :
    ParseMessage now raw = .error (.goError "failed to parse message: invalid prefix") := by
  cases rest with
  | nil => simp at h1
  | cons d s =>
    simp only [List.head?_cons, Option.some.injEq] at h1
    subst h1
    exact ParseMessage_of_prefix_error now raw _ tags _ htags
      (parsePrefixSection_colon_without_space s h2)

/-- A line that starts with `:` and holds no space is refused with an error. -/
theorem ParseMessage_colon_without_space (now : Nat) (raw : GoString)
    (h1 : raw.head? = some ':') (h2 : ' ' ∉ raw) :
    ParseMessage now raw = .error (.goError "failed to parse message: invalid prefix") := by
  obtain ⟨s, hs, hsp⟩ := TrimSuffix_crlf_head raw ':' (by decide) h1 h2
  exact ParseMessage_tagged_colon_without_space now raw (':' :: s) none
    (by rw [hs]; exact parseTagsSection_plain ':' s (by decide)) rfl hsp

theorem parseDigits_some_digits (s : GoString) :
    ∀ acc v, parseDigits s acc = some v → ∀ c ∈ s, 48 ≤ c.toNat ∧ c.toNat ≤ 57 := by
  induction s with
  | nil => intro _ _ _ c hc; simp at hc
  | cons d s ih =>
    intro acc v h c hc
    rw [parseDigits] at h
    split_ifs at h with hd
    rcases List.mem_cons.mp hc with rfl | hc'
    · exact hd
    · exact ih _ _ h c hc'

theorem parseDigits_two (b c : Char) (hb : 48 ≤ b.toNat ∧ b.toNat ≤ 57)
    (hc : 48 ≤ c.toNat ∧ c.toNat ≤ 57) :
    parseDigits [b, c] 0 = some ((b.toNat - 48) * 10 + (c.toNat - 48)) := by
  simp [parseDigits, hb, hc]

theorem parseDigits_three (a b c : Char) (ha : 48 ≤ a.toNat ∧ a.toNat ≤ 57)
    (hb : 48 ≤ b.toNat ∧ b.toNat ≤ 57) (hc : 48 ≤ c.toNat ∧ c.toNat ≤ 57) :
    parseDigits [a, b, c] 0 =
      some (((a.toNat - 48) * 10 + (b.toNat - 48)) * 10 + (c.toNat - 48)) := by
  simp [parseDigits, ha, hb, hc]

theorem runeLen_pos (c : Char) : 1 ≤ runeLen c := by
  unfold runeLen
  split_ifs <;> omega

theorem runeLen_of_ascii (c : Char) (h : c.toNat < 128) : runeLen c = 1 := by
  simp [runeLen, h]

theorem toNat_lt_of_runeLen (c : Char) (h : runeLen c = 1) : c.toNat < 128 := by
  unfold runeLen at h
  split_ifs at h with h1 <;> first | exact h1 | omega

theorem length_le_goLen (s : GoString) : s.length ≤ goLen s := by
  induction s with
  | nil => simp [goLen]
  | cons c s ih =>
    have := runeLen_pos c
    simp only [goLen, List.map_cons, List.sum_cons, List.length_cons] at ih ⊢
    omega

theorem goLen_of_ascii (s : GoString) (h : ∀ c ∈ s, c.toNat < 128) : goLen s = s.length := by
  induction s with
  | nil => simp [goLen]
  | cons c s ih =>
    have h1 := runeLen_of_ascii c (h c (List.mem_cons_self _ _))
    have h2 := ih (fun d hd => h d (List.mem_cons_of_mem _ hd))
    simp only [goLen, List.map_cons, List.sum_cons, List.length_cons] at h2 ⊢
    omega

/-- What `strconv.Atoi` accepts: a sign and digits, or digits. -/
theorem Atoi_some_cases (s : GoString) (v : Int) (h : Atoi s = some v) :
    (∃ t, (s = '-' :: t ∨ s = '+' :: t) ∧ t ≠ [] ∧ ∀ c ∈ t, 48 ≤ c.toNat ∧ c.toNat ≤ 57) ∨
    (s ≠ [] ∧ ∀ c ∈ s, 48 ≤ c.toNat ∧ c.toNat ≤ 57) := by
  unfold Atoi at h
  split at h
  · rename_i t
    by_cases hne : t = []
    · simp [hne] at h
    · cases hp : parseDigits t 0 with
      | none => simp [hne, hp] at h
      | some w => exact Or.inl ⟨t, Or.inl rfl, hne, parseDigits_some_digits t 0 w hp⟩
  · rename_i t
    by_cases hne : t = []
    · simp [hne] at h
    · cases hp : parseDigits t 0 with
      | none => simp [hne, hp] at h
      | some w => exact Or.inl ⟨t, Or.inr rfl, hne, parseDigits_some_digits t 0 w hp⟩
  · by_cases hne : s = []
    · simp [hne] at h
    · cases hp : parseDigits s 0 with
      | none => simp [hne, hp] at h
      | some w => exact Or.inr ⟨hne, parseDigits_some_digits s 0 w hp⟩

theorem Atoi_sign_two (a b c : Char) (ha : a = '+' ∨ a = '-')
    (hb : 48 ≤ b.toNat ∧ b.toNat ≤ 57) (hc : 48 ≤ c.toNat ∧ c.toNat ≤ 57) :
    (Atoi [a, b, c]).isSome = true := by
  have hv : (b.toNat - 48) * 10 + (c.toNat - 48) < 9223372036854775808 := by omega
  rcases ha with rfl | rfl
  · simp [Atoi, parseDigits_two b c hb hc, hv]
  · simp [Atoi, parseDigits_two b c hb hc, le_of_lt hv]

theorem Atoi_three_digits (a b c : Char) (ha : 48 ≤ a.toNat ∧ a.toNat ≤ 57)
    (hb : 48 ≤ b.toNat ∧ b.toNat ≤ 57) (hc : 48 ≤ c.toNat ∧ c.toNat ≤ 57) :
    (Atoi [a, b, c]).isSome = true := by
  have hv : ((a.toNat - 48) * 10 + (b.toNat - 48)) * 10 + (c.toNat - 48) <
      9223372036854775808 := by omega
  unfold Atoi
  split
  · rename_i t heq
    have : a = '-' := by injection heq
    subst this
    exact absurd ha.1 (by decide)
  · rename_i t heq
    have : a = '+' := by injection heq
    subst this
    exact absurd ha.1 (by decide)
  · simp [parseDigits_three a b c ha hb hc, hv]

/-- The classification of the code: a Reply exactly for three ASCII digits, or a
sign followed by two ASCII digits. -/
theorem classify_reply_iff (cmd : GoString) :
    classify cmd = .MessageTypeReply ↔
      ∃ a b c, cmd = [a, b, c] ∧
        ((48 ≤ a.toNat ∧ a.toNat ≤ 57) ∨ a = '+' ∨ a = '-') ∧
        (48 ≤ b.toNat ∧ b.toNat ≤ 57) ∧ (48 ≤ c.toNat ∧ c.toNat ≤ 57) := by
  constructor
  · intro h
    unfold classify at h
    split_ifs at h with hlen
    cases hA : Atoi cmd with
    | none => simp [hA] at h
    | some v =>
      have hascii : ∀ x ∈ cmd, x.toNat < 128 := by
        rcases Atoi_some_cases cmd v hA with ⟨t, hs, -, ht⟩ | ⟨-, hd⟩
        · intro x hx
          rcases hs with rfl | rfl
          · rcases List.mem_cons.mp hx with rfl | hx'
            · decide
            · have := ht x hx'; omega
          · rcases List.mem_cons.mp hx with rfl | hx'
            · decide
            · have := ht x hx'; omega
        · intro x hx
          have := hd x hx; omega
      have hl : cmd.length = 3 := by rw [← goLen_of_ascii cmd hascii]; exact hlen
      obtain ⟨a, b, c, rfl⟩ : ∃ a b c, cmd = [a, b, c] := by
        match cmd, hl with
        | [a, b, c], _ => exact ⟨a, b, c, rfl⟩
      refine ⟨a, b, c, rfl, ?_⟩
      rcases Atoi_some_cases _ v hA with ⟨t, hs, -, ht⟩ | ⟨-, hd⟩
      · rcases hs with hs | hs
        · injection hs with h1 h2
          subst h2
          exact ⟨Or.inr (Or.inr h1), ht b (by simp), ht c (by simp)⟩
        · injection hs with h1 h2
          subst h2
          exact ⟨Or.inr (Or.inl h1), ht b (by simp), ht c (by simp)⟩
      · exact ⟨Or.inl (hd a (by simp)), hd b (by simp), hd c (by simp)⟩
  · rintro ⟨a, b, c, rfl, ha, hb, hc⟩
    have hascii : ∀ x ∈ [a, b, c], x.toNat < 128 := by
      intro x hx
      simp only [List.mem_cons, List.mem_singleton, List.not_mem_nil, or_false] at hx
      rcases hx with rfl | rfl | rfl
      · rcases ha with ha | rfl | rfl
        · omega
        · decide
        · decide
      · omega
      · omega
    have hlen : goLen [a, b, c] = 3 := goLen_of_ascii _ hascii
    have hsome : (Atoi [a, b, c]).isSome = true := by
      rcases ha with ha | ha | ha
      · exact Atoi_three_digits a b c ha hb hc
      · exact Atoi_sign_two a b c (Or.inl ha) hb hc
      · exact Atoi_sign_two a b c (Or.inr ha) hb hc
    obtain ⟨v, hv⟩ := Option.isSome_iff_exists.mp hsome
    simp [classify, hlen, hv]

theorem GoMap.keys_store_of_mem {κ β : Type} [DecidableEq κ] (m : GoMap κ β) (k : κ) (v : β)
    (h : k ∈ m.keys) : (m.store k v).keys = m.keys := by
  induction m with
  | nil => simp [GoMap.keys] at h
  | cons e m ih =>
    obtain ⟨k', v'⟩ := e
    by_cases hk : k' = k
    · subst hk
      simp [GoMap.store, GoMap.keys]
    · have hmem : k ∈ GoMap.keys m := by
        simp only [GoMap.keys, List.map_cons, List.mem_cons] at h
        rcases h with h | h
        · exact absurd h.symm hk
        · exact h
      have := ih hmem
      simp only [GoMap.keys] at this
      simp [GoMap.store, GoMap.keys, hk, this]

theorem GoMap.mem_keys_of_lookup {κ β : Type} [DecidableEq κ] (m : GoMap κ β) (k : κ) (v : β)
    (h : m.lookup k = some v) : k ∈ m.keys := by
  induction m with
  | nil => simp [GoMap.lookup] at h
  | cons e m ih =>
    obtain ⟨k', v'⟩ := e
    by_cases hk : k' = k
    · subst hk
      simp [GoMap.keys]
    · simp only [GoMap.lookup, hk, if_false] at h
      have := ih h
      simp only [GoMap.keys] at this
      simp [GoMap.keys, this]

theorem GoMap.keys_foldl_store {κ β : Type} [DecidableEq κ] (f : κ → β) (ks : List κ) :
    ∀ m : GoMap κ β, (∀ k ∈ ks, k ∈ m.keys) →
      (ks.foldl (fun acc x => acc.store x (f x)) m).keys = m.keys := by
  induction ks with
  | nil => intro m _; rfl
  | cons x ks ih =>
    intro m h
    have hx := GoMap.keys_store_of_mem m x (f x) (h x (List.mem_cons_self _ _))
    rw [List.foldl_cons, ih, hx]
    intro k hk
    rw [hx]
    exact h k (List.mem_cons_of_mem _ hk)

theorem GoMap.lookup_foldl_store_of_not_mem {κ β : Type} [DecidableEq κ] (f : κ → β)
    (ks : List κ) :
    ∀ (m : GoMap κ β) (k : κ), k ∉ ks →
      (ks.foldl (fun acc x => acc.store x (f x)) m).lookup k = m.lookup k := by
  induction ks with
  | nil => intro m k _; rfl
  | cons x ks ih =>
    intro m k hk
    have h1 : x ≠ k := fun h => hk (h ▸ List.mem_cons_self _ _)
    have h2 : k ∉ ks := fun h => hk (List.mem_cons_of_mem _ h)
    rw [List.foldl_cons, ih _ _ h2, GoMap.lookup_store_ne _ _ _ _ h1]

theorem GoMap.lookup_foldl_store_of_mem {κ β : Type} [DecidableEq κ] (f : κ → β)
    (ks : List κ) :
    ∀ (m : GoMap κ β) (k : κ), k ∈ ks →
      (ks.foldl (fun acc x => acc.store x (f x)) m).lookup k = some (f k) := by
  induction ks with
  | nil => intro m k hk; simp at hk
  | cons x ks ih =>
    intro m k hk
    rw [List.foldl_cons]
    by_cases hmem : k ∈ ks
    · exact ih _ _ hmem
    · have hkx : k = x := by
        rcases List.mem_cons.mp hk with h | h
        · exact h
        · exact absurd h hmem
      subst hkx
      rw [GoMap.lookup_foldl_store_of_not_mem f ks _ _ hmem, GoMap.lookup_store_self]

/-- What `cleanupChannels` leaves in the channel map. -/
theorem cleanupChannels_channels (c : Connection) :
    (cleanupChannels c).2.channels.keys = c.channels.keys ∧
    (∀ k ∈ c.channels.keys, (cleanupChannels c).2.channels.lookup k = some (NewChannel k)) ∧
    (∀ k ch, (cleanupChannels c).2.channels.lookup k = some ch →
      ch.Status.Status = .ChannelStatusParted ∧ ch.Status.Nicks = GoMap.empty ∧ ch.Name = k) := by
  have hkeys : (cleanupChannels c).2.channels.keys = c.channels.keys :=
    GoMap.keys_foldl_store NewChannel c.channels.keys c.channels (fun k hk => hk)
  have hlook : ∀ k ∈ c.channels.keys,
      (cleanupChannels c).2.channels.lookup k = some (NewChannel k) :=
    fun k hk => GoMap.lookup_foldl_store_of_mem NewChannel c.channels.keys c.channels k hk
  refine ⟨hkeys, hlook, ?_⟩
  intro k ch h
  have hk : k ∈ c.channels.keys := hkeys ▸ GoMap.mem_keys_of_lookup _ k ch h
  rw [hlook k hk] at h
  cases h
  exact ⟨rfl, rfl, rfl⟩

theorem Close_connected (c : Connection) (h1 : c.Status.Connected = true) (h2 : c.conn = true) :
    c.Close defaultOnDisconnect =
      (.ok (), { (cleanupChannels c).2 with
        conn := false, closed := true, Status := { c.Status with Connected := false } }) := by
  simp [Connection.Close, h1, h2, defaultOnDisconnect, runOnDisconnect, cleanupChannels]

theorem Index_some_bound (s sub : GoString) :
    ∀ i, Index s sub = some i → i + sub.length ≤ s.length := by
  induction s with
  | nil =>
    intro i h
    rw [Index] at h
    split_ifs at h with hs
    cases h
    simp [hs]
  | cons c s ih =>
    intro i h
    rw [Index] at h
    split_ifs at h with hp
    · cases h
      have := (List.isPrefixOf_iff_prefix.mp hp).length_le
      simpa using this
    · cases hI : Index s sub with
      | none => simp [hI] at h
      | some j =>
        simp only [hI, Option.map_some', Option.some.injEq] at h
        have := ih j hI
        simp only [List.length_cons]
        omega

/-- The prefix block on a prefix without a space, in which `@` does not come before
`!`: it succeeds and leaves what follows the space. -/
theorem parsePrefixSection_of_prefix (p rest : GoString) (hsp : ' ' ∉ p)
    (hord : ∀ i j, Index p "!".toList = some i → Index p "@".toList = some j → i < j) :
    ∃ pfx, parsePrefixSection (':' :: (p ++ ' ' :: rest)) = .ok (some pfx, rest) ∧
      pfx.RawPrefix = p := by
  have hidx : Index (':' :: (p ++ ' ' :: rest)) [' '] = some (p.length + 1) := by
    have := Index_single_append ' ' (':' :: p) rest (by
      intro h
      rcases List.mem_cons.mp h with h | h
      · exact absurd h (by decide)
      · exact hsp h)
    simpa using this
  have hraw : slice (':' :: (p ++ ' ' :: rest)) 1 (p.length + 1) = .ok p := by
    simp [slice, List.take_append_eq_append_take]
  have hrest : sliceFrom (':' :: (p ++ ' ' :: rest)) (p.length + 1 + 1) = .ok rest := by
    simp only [sliceFrom, slice, List.length_cons, List.length_append]
    rw [if_pos (by omega), List.take_of_length_le (by simp)]
    simp
  cases hi : Index p ['!'] with
  | none =>
    refine ⟨{ RawPrefix := p }, ?_, rfl⟩
    simp [parsePrefixSection, index, hidx, hraw, hrest, hi, bind, Except.bind, pure, Except.pure]
  | some i =>
    cases hj : Index p ['@'] with
    | none =>
      refine ⟨{ RawPrefix := p }, ?_, rfl⟩
      simp [parsePrefixSection, index, hidx, hraw, hrest, hi, hj, bind, Except.bind, pure,
        Except.pure]
    | some j =>
      have hij : i < j := hord i j hi hj
      have hjb := Index_some_bound p ['@'] j hj
      simp only [List.length_singleton] at hjb
      have h1 : sliceTo p i = .ok (p.take i) := by
        simp [sliceTo, slice]; omega
      have h2 : slice p (i + 1) j = .ok ((p.take j).drop (i + 1)) := by
        simp [slice]; omega
      have h3 : sliceFrom p (j + 1) = .ok (p.drop (j + 1)) := by
        simp [sliceFrom, slice]; omega
      refine ⟨{ Nick := p.take i, Ident := (p.take j).drop (i + 1), Host := p.drop (j + 1),
                RawPrefix := p }, ?_, rfl⟩
      simp [parsePrefixSection, index, hidx, hraw, hrest, hi, hj, h1, h2, h3, bind, Except.bind,
        pure, Except.pure]

/-- Decoding a line with a prefix: tokens, then `" :"` and the trailing text. -/
theorem ParseMessage_prefixed_line (now : Nat) (p cmd : GoString) (params : List GoString)
    (trail : GoString) (hsp : ' ' ∉ p)
    (hord : ∀ i j, Index p "!".toList = some i → Index p "@".toList = some j → i < j)
    (htok : ∀ t ∈ cmd :: params, t ≠ [] ∧ ∀ c ∈ t, isSpace c = false)
    (hparams : ∀ q ∈ params, q.head? ≠ some ':')
    (hsuf : HasSuffix (':' :: (p ++ ' ' :: (Join (cmd :: params) " ".toList ++ " :".toList ++ trail)))
      "\r\n".toList = false) :
    ∃ m, ParseMessage now
        (':' :: (p ++ ' ' :: (Join (cmd :: params) " ".toList ++ " :".toList ++ trail))) = .ok m ∧
      m.Command = cmd ∧ m.Params = params ∧ m.Trail = trail ∧ m.MessageType = classify cmd := by
  have htrim := TrimSuffix_of_not_HasSuffix _ _ hsuf
  obtain ⟨pfx, hpfx, -⟩ := parsePrefixSection_of_prefix p
    (Join (cmd :: params) " ".toList ++ " :".toList ++ trail) hsp hord
  have hstage := ParseMessage_of_stages now _ _ _ none _
    (by rw [htrim]; exact parseTagsSection_plain ':' _ (by decide)) hpfx
  have hsp' : ∀ t ∈ cmd :: params, ∀ c ∈ t, c ≠ ' ' :=
    fun t ht => not_space_of_isSpace_false t (htok t ht).2
  have hcolon : ∀ t ∈ (cmd :: params).tail, t ≠ [] ∧ t.head? ≠ some ':' :=
    fun t ht => ⟨(htok t (List.mem_cons_of_mem _ ht)).1, hparams t ht⟩
  rw [hstage, htrim, parseParams_split _ _ trail cmd params (Index_Join_tokens _ hsp' hcolon)
    (Fields_Join _ htok)]
  refine ⟨_, rfl, rfl, ?_, rfl, rfl⟩
  cases params <;> simp

theorem toDuration_intCast (k : Int) : toDuration (k : ℚ) = k := by
  unfold toDuration
  split_ifs <;> simp

/-- The type of an accepted message is the classification of its command. -/
theorem ParseMessage_ok_classify (now : Nat) (raw : GoString) (m : Message)
    (h : ParseMessage now raw = .ok m) : m.MessageType = classify m.Command := by
  unfold ParseMessage at h
  simp only [bind, Except.bind] at h
  split at h
  · cases h
  · split at h
    · cases h
    · unfold parseParams at h
      simp only [bind, Except.bind, pure, Except.pure] at h
      split at h
      · cases h
      · split at h
        · cases h
        · cases h
          rfl

theorem DefaultCommandFactory_Message (ct : CommandType) (fn : Message → Command)
    (h : DefaultCommandFactory ct = some fn) (msg : Message) : (fn msg).Message = msg := by
  cases ct <;> simp only [DefaultCommandFactory, Option.some.injEq] at h <;>
    first
    | (subst h; rfl)
    | cases h

theorem DefaultReplyFactory_Message (rt : ReplyType) (fn : Message → MessageObject)
    (h : DefaultReplyFactory rt = some fn) (msg : Message) : (fn msg).Message = msg := by
  cases rt <;> simp only [DefaultReplyFactory, Option.some.injEq] at h <;>
    first
    | (subst h; rfl)
    | cases h

theorem New_CommandFactory (now : Nat) (conf : Config) (c : Connection)
    (h : New now conf = .ok c) :
    c.CommandFactory =
      GoMap.store GoMap.empty .CommandTypePrivmsg mentionAndDirectPrivmsgCommand ∧
    c.ReplyFactory = GoMap.empty := by
  unfold New at h
  split at h
  · cases h
  · cases h
    exact ⟨rfl, rfl⟩

/-- Where `Index` finds the substring, the substring is. -/
theorem Index_some_spec (s sub : GoString) :
    ∀ i, Index s sub = some i → s = s.take i ++ sub ++ s.drop (i + sub.length) := by
  induction s with
  | nil =>
    intro i h
    rw [Index] at h
    split_ifs at h with hs
    cases h
    simp [hs]
  | cons c s ih =>
    intro i h
    rw [Index] at h
    split_ifs at h with hp
    · cases h
      obtain ⟨t, ht⟩ := List.isPrefixOf_iff_prefix.mp hp
      rw [← ht]
      simp
    · cases hI : Index s sub with
      | none => rw [hI] at h; cases h
      | some j =>
        rw [hI] at h
        cases h
        have := ih j hI
        simp only [List.take_succ_cons, List.cons_append, List.cons.injEq, true_and]
        rw [show j + 1 + sub.length = (j + sub.length) + 1 by omega, List.drop_succ_cons]
        exact this

theorem SplitN_succ_ne_nil (s sep : GoString) (n : Nat) : SplitN s sep (n + 1) ≠ [] := by
  cases n with
  | zero => simp [SplitN]
  | succ n =>
    rw [SplitN]
    split <;> simp

theorem Split_of_Index_none (s sep : GoString) (h : Index s sep = none) :
    Split s sep = [s] := by
  unfold Split
  cases s.length with
  | zero => rfl
  | succ n =>
    rw [SplitN, h]

theorem Split_of_Index_some (s sep : GoString) (i : Nat) (hsep : sep ≠ [])
    (h : Index s sep = some i) :
    ∃ rest, rest ≠ [] ∧ Split s sep = s.take i :: rest := by
  have hb := Index_some_bound s sep i h
  have hl : 0 < sep.length := List.length_pos.mpr hsep
  unfold Split
  obtain ⟨n, hn⟩ : ∃ n, s.length = n + 1 := ⟨s.length - 1, by omega⟩
  rw [hn, SplitN, h]
  exact ⟨_, SplitN_succ_ne_nil _ _ _, rfl⟩

/-- The object decoded from an accepted PRIVMSG line on a connection whose factory
for PRIVMSG is the connection-aware one. -/
theorem decodeAndMapMessage_privmsg_bound (now : Nat) (c : Connection) (raw : GoString)
    (msg : Message)
    (hfac : c.CommandFactory.lookup .CommandTypePrivmsg = some mentionAndDirectPrivmsgCommand)
    (h : ParseMessage now raw = .ok msg) (hcmd : msg.Command = "PRIVMSG".toList) :
    c.decodeAndMapMessage now raw = .ok (.command (.PrivmsgCommand msg true)) := by
  have ht : msg.MessageType = .MessageTypeCommand := by
    rw [ParseMessage_ok_classify now raw msg h, hcmd]; decide
  have hm : CommandTypeMapping msg.Command = some .CommandTypePrivmsg := by rw [hcmd]; decide
  simp only [Connection.decodeAndMapMessage, RawMessageDecoder.Decode, h, ht, if_true, hm, hfac]
  rfl

/-- The mention test of a connection-aware PRIVMSG on a connected connection: the
text before the first `": "` of the trailing text is the current nick. -/
theorem IsMention_bound_connected (c : Connection) (m : Message)
    (hconn : c.Status.Connected = true) :
    ∃ b, PrivmsgCommand.IsMention c m true = .ok b ∧
      (b = true ↔
        ∃ i, Index m.Trail ": ".toList = some i ∧ m.Trail.take i = c.Status.CurrentNick) := by
  cases hI : Index m.Trail ": ".toList with
  | none =>
    refine ⟨false, ?_, by simp⟩
    have hs := Split_of_Index_none _ _ hI
    simp only [PrivmsgCommand.IsMention, hconn, hs]
    simp
  | some i =>
    obtain ⟨rest, hrest, hsplit⟩ := Split_of_Index_some m.Trail ": ".toList i (by decide) hI
    refine ⟨decide (m.Trail.take i = c.Status.CurrentNick), ?_, by simp⟩
    have hlen : ¬ (List.take i m.Trail :: rest).length < 2 := by
      cases rest with
      | nil => exact absurd rfl hrest
      | cons r rs => simp
    simp only [PrivmsgCommand.IsMention, hconn, hsplit, if_neg hlen]
    simp [index, bind, Except.bind, pure, Except.pure]

/-- The chat message that the encoder builds has both flags unset. -/
theorem tenyksChatMessageEncoder_Encode_flags (now : Nat) (m : Message) :
    ∃ msg, tenyksChatMessageEncoder.Encode now m = .ok msg ∧ msg.Content = m.Trail ∧
      msg.Direct = false ∧ msg.Mention = false :=
  ⟨_, rfl, rfl, rfl, rfl⟩

/-- Handlers are kept in the order of their registration. -/
theorem RegisterMessageHandler_foldl (hs : List Nat) (c : Connection) :
    (hs.foldl Connection.RegisterMessageHandler c).chatMessageHandlers =
      c.chatMessageHandlers ++ hs := by
  induction hs generalizing c with
  | nil => simp
  | cons h hs ih =>
    rw [List.foldl_cons, ih]
    simp [Connection.RegisterMessageHandler]

/-- The default PRIVMSG hook on a PRIVMSG whose direct test does not fail (the
command is not connection-aware, or the connection is not connected, or the message
has a parameter): it returns nil and calls every registered handler once, in the
order of the list, each with one chat message whose Content is the trailing text;
on a command of another type it does nothing. -/
theorem defaultPrivmsgHandler_fans_out (now : Nat) (c : Connection) :
    (∀ m bound, (bound = true → c.Status.Connected = true → m.Params ≠ []) →
      ∃ msg, msg.Content = m.Trail ∧
        (defaultPrivmsgHandler now c (.PrivmsgCommand m bound)).1 = .ok () ∧
        (defaultPrivmsgHandler now c (.PrivmsgCommand m bound)).2.delivered =
          c.delivered ++ c.chatMessageHandlers.map fun h => (h, msg)) ∧
    (∀ cmd, (∀ m bound, cmd ≠ .PrivmsgCommand m bound) →
      defaultPrivmsgHandler now c cmd = (.ok (), c)) := by
  constructor
  · intro m bound hok
    have hd : ∃ d, PrivmsgCommand.IsDirect c m bound = .ok d := by
      unfold PrivmsgCommand.IsDirect
      by_cases hb : bound = false
      · exact ⟨false, by simp [hb]⟩
      · by_cases hc : c.Status.Connected = false
        · exact ⟨false, by simp [hb, hc]⟩
        · have hb' : bound = true := by simpa using hb
          have hc' : c.Status.Connected = true := by simpa using hc
          cases hp : m.Params with
          | nil => exact absurd hp (hok hb' hc')
          | cons t r =>
            exact ⟨decide (t = c.Status.CurrentNick), by
              simp [hb', hc', index, bind, Except.bind, pure, Except.pure]⟩
    have hm : ∃ d, PrivmsgCommand.IsMention c m bound = .ok d := by
      by_cases hb : bound = false
      · exact ⟨false, by simp [PrivmsgCommand.IsMention, hb]⟩
      · by_cases hc : c.Status.Connected = false
        · exact ⟨false, by simp [PrivmsgCommand.IsMention, hb, hc]⟩
        · have hb' : bound = true := by simpa using hb
          have hc' : c.Status.Connected = true := by simpa using hc
          subst hb'
          obtain ⟨b, hb2, -⟩ := IsMention_bound_connected c m hc'
          exact ⟨b, hb2⟩
    obtain ⟨d, hd⟩ := hd
    obtain ⟨e, hm⟩ := hm
    refine ⟨{ DestinationPath := "/".toList, OriginPath := "/".toList, Content := m.Trail,
              Timestamp := now }, rfl, ?_, ?_⟩
    · simp only [defaultPrivmsgHandler, hd, hm, tenyksChatMessageEncoder.Encode]
    · simp only [defaultPrivmsgHandler, hd, hm, tenyksChatMessageEncoder.Encode]
  · intro cmd hcmd
    cases cmd with
    | PrivmsgCommand m bound => exact absurd rfl (hcmd m bound)
    | _ => rfl

theorem LastIndexByte_none (c : Char) (s : GoString) (h : c ∉ s) : LastIndexByte s c = none := by
  induction s with
  | nil => rfl
  | cons x s ih =>
    have hx : x ≠ c := fun hh => h (hh ▸ List.mem_cons_self _ _)
    have hs : c ∉ s := fun hh => h (List.mem_cons_of_mem _ hh)
    simp [LastIndexByte, ih hs, hx]

theorem LastIndexByte_append (c : Char) (left right : GoString) (h : c ∉ right) :
    LastIndexByte (left ++ c :: right) c = some left.length := by
  induction left with
  | nil => simp [LastIndexByte, LastIndexByte_none c right h]
  | cons x l ih => simp [LastIndexByte, ih]

/-- What `path.Split` gives as the file part: what follows the last slash, the whole
path when it has no slash. -/
theorem pathSplit_snd :
    (∀ dir file : GoString, '/' ∉ file → (pathSplit (dir ++ '/' :: file)).2 = file) ∧
    (∀ d : GoString, '/' ∉ d → (pathSplit d).2 = d) := by
  constructor
  · intro dir file h
    simp [pathSplit, LastIndexByte_append '/' dir file h]
  · intro d h
    simp [pathSplit, LastIndexByte_none '/' d h]

/-- One registration, seen through `GetAdaptersFor`. -/
theorem registry.lookup_RegisterAdapter (r : registry) (a : Adapter) (t : AdapterType)
    (n : GoString) :
    ((r.RegisterAdapter a).GetAdaptersFor t).lookup n =
      if a.GetType = t ∧ a.GetName = n then some a else (r.GetAdaptersFor t).lookup n := by
  by_cases ht : a.GetType = t
  · subst ht
    simp only [registry.RegisterAdapter, registry.GetAdaptersFor, GoMap.lookup_store_self,
      true_and]
    by_cases hn : a.GetName = n
    · subst hn
      rw [if_pos rfl, GoMap.lookup_store_self]
    · rw [if_neg hn, GoMap.lookup_store_ne _ _ _ _ hn]
      cases r.adapters with
      | none => rfl
      | some m => rfl
  · rw [if_neg (fun h => ht h.1)]
    simp only [registry.RegisterAdapter, registry.GetAdaptersFor,
      GoMap.lookup_store_ne _ _ _ _ ht]
    cases r.adapters with
    | none => rfl
    | some m => rfl

/-- Registering an adapter of another type leaves the mapping of a type as it is. -/
theorem registry.GetAdaptersFor_RegisterAdapter_ne (r : registry) (a : Adapter)
    (t : AdapterType) (ht : a.GetType ≠ t) :
    (r.RegisterAdapter a).GetAdaptersFor t = r.GetAdaptersFor t := by
  simp only [registry.RegisterAdapter, registry.GetAdaptersFor,
    GoMap.lookup_store_ne _ _ _ _ ht]
  cases r.adapters with
  | none => rfl
  | some m => rfl

theorem registry.lookup_foldl_RegisterAdapter (as : List Adapter) (t : AdapterType)
    (n : GoString) :
    ∀ r : registry, ((as.foldl registry.RegisterAdapter r).GetAdaptersFor t).lookup n =
      match as.reverse.find? fun a => decide (a.GetType = t ∧ a.GetName = n) with
      | some a => some a
      | none => (r.GetAdaptersFor t).lookup n := by
  induction as with
  | nil => intro r; rfl
  | cons a as ih =>
    intro r
    rw [List.foldl_cons, ih, List.reverse_cons, List.find?_append]
    cases hf : as.reverse.find? fun a => decide (a.GetType = t ∧ a.GetName = n) with
    | some b => rfl
    | none =>
      rw [registry.lookup_RegisterAdapter]
      by_cases hp : a.GetType = t ∧ a.GetName = n
      · simp [hp]
      · simp [hp]

theorem registry.GetAdaptersFor_foldl_of_no_type (as : List Adapter) (t : AdapterType)
    (h : ∀ a ∈ as, a.GetType ≠ t) :
    ∀ r : registry, (as.foldl registry.RegisterAdapter r).GetAdaptersFor t =
      r.GetAdaptersFor t := by
  induction as with
  | nil => intro r; rfl
  | cons a as ih =>
    intro r
    rw [List.foldl_cons, ih (fun b hb => h b (List.mem_cons_of_mem _ hb)),
      registry.GetAdaptersFor_RegisterAdapter_ne r a t (h a (List.mem_cons_self _ _))]

/-- What `defaultJoinChannelStatusUpdater` does, by cases. -/
theorem defaultJoinChannelStatusUpdater_cases (now : Nat) (c : Connection) (cmd : Command) :
    (∃ m p ch rest chan, cmd = .JoinCommand m ∧ m.PrefixSection = some p ∧
        p.Nick = c.Status.CurrentNick ∧ m.Params = ch :: rest ∧
        c.channels.lookup ch = some chan ∧
        defaultJoinChannelStatusUpdater now c cmd =
          (.ok (), { c with channels := (c.channels.store ch
            { chan with Status := { chan.Status with Status := .ChannelStatusJoined } }) })) ∨
    (∃ m p, cmd = .JoinCommand m ∧ m.PrefixSection = some p ∧
        p.Nick = c.Status.CurrentNick ∧ m.Params = [] ∧
        defaultJoinChannelStatusUpdater now c cmd =
          (.error (.goPanic "index out of range"), c)) ∨
    ((∀ m p ch, cmd = .JoinCommand m → m.PrefixSection = some p →
        p.Nick = c.Status.CurrentNick → m.Params.head? = some ch →
        c.channels.lookup ch = none) ∧
      defaultJoinChannelStatusUpdater now c cmd = (.ok (), c)) := by
  cases cmd with
  | JoinCommand m =>
    cases hp : m.PrefixSection with
    | none =>
      refine Or.inr (Or.inr ⟨?_, ?_⟩)
      · intro m' p ch h1 h2
        cases h1
        rw [hp] at h2
        cases h2
      · simp [defaultJoinChannelStatusUpdater, hp]
    | some p =>
      by_cases hn : p.Nick = c.Status.CurrentNick
      · cases hpar : m.Params with
        | nil =>
          refine Or.inr (Or.inl ⟨m, p, rfl, hp, hn, hpar, ?_⟩)
          simp [defaultJoinChannelStatusUpdater, hp, hn, hpar, index]
        | cons ch rest =>
          cases hl : c.channels.lookup ch with
          | none =>
            refine Or.inr (Or.inr ⟨?_, ?_⟩)
            · intro m' p' ch' h1 _ _ h4
              cases h1
              rw [hpar] at h4
              simp only [List.head?_cons, Option.some.injEq] at h4
              rw [← h4]
              exact hl
            · simp [defaultJoinChannelStatusUpdater, hp, hn, hpar, index, hl]
          | some chan =>
            refine Or.inl ⟨m, p, ch, rest, chan, rfl, hp, hn, hpar, hl, ?_⟩
            simp [defaultJoinChannelStatusUpdater, hp, hn, hpar, index, hl]
      · refine Or.inr (Or.inr ⟨?_, ?_⟩)
        · intro m' p' ch h1 h2 h3
          cases h1
          rw [hp] at h2
          cases h2
          exact absurd h3 hn
        · simp [defaultJoinChannelStatusUpdater, hp, hn]
  | _ =>
    refine Or.inr (Or.inr ⟨?_, rfl⟩)
    intro m p ch h1
    cases h1

/-- The three command hooks after the join updater leave the channel map and the
status record as they are. -/
theorem defaultPrivmsgHandler_frame (now : Nat) (c : Connection) (cmd : Command) :
    (defaultPrivmsgHandler now c cmd).2.channels = c.channels ∧
    (defaultPrivmsgHandler now c cmd).2.Status = c.Status := by
  cases cmd with
  | PrivmsgCommand m bound =>
    simp only [defaultPrivmsgHandler, tenyksChatMessageEncoder.Encode]
    split
    · exact ⟨rfl, rfl⟩
    · split
      · exact ⟨rfl, rfl⟩
      · exact ⟨rfl, rfl⟩
  | _ => exact ⟨rfl, rfl⟩

theorem defaultUnknownHandler_frame (now : Nat) (c : Connection) (cmd : Command) :
    (defaultUnknownHandler now c cmd).2.channels = c.channels ∧
    (defaultUnknownHandler now c cmd).2.Status = c.Status := by
  cases cmd <;> exact ⟨rfl, rfl⟩

theorem defaultPingResponder_frame (now : Nat) (c : Connection) (cmd : Command) :
    (defaultPingResponder now c cmd).2.channels = c.channels ∧
    (defaultPingResponder now c cmd).2.Status = c.Status := by
  cases cmd <;> exact ⟨rfl, rfl⟩

/-- A run of command hooks that leave the channel map and the status record as they
are leaves them as they are. -/
theorem runOnCommand_frame (now : Nat) (hooks : List OnCommandHook)
    (hframe : ∀ hook ∈ hooks, ∀ c cmd,
      (hook now c cmd).2.channels = c.channels ∧ (hook now c cmd).2.Status = c.Status) :
    ∀ (c c' : Connection) (cmd : Command), runOnCommand now hooks c cmd = .ok c' →
      c'.channels = c.channels ∧ c'.Status = c.Status := by
  induction hooks with
  | nil =>
    intro c c' cmd h
    simp only [runOnCommand, Except.ok.injEq] at h
    subst h
    exact ⟨rfl, rfl⟩
  | cons hook hooks ih =>
    intro c c' cmd h
    have hf := hframe hook (List.mem_cons_self _ _) c cmd
    rw [runOnCommand] at h
    split at h
    · cases h
    · next r c1 hne heq =>
      have h2 : (hook now c cmd).2 = c1 := by rw [heq]
      obtain ⟨h3, h4⟩ := ih (fun hk hmem => hframe hk (List.mem_cons_of_mem _ hmem)) c1 c' cmd h
      rw [h3, h4, ← h2]
      exact hf

/-- The channel map and the status record after the default command hooks are
those after the join updater, which did not panic. -/
theorem runOnCommand_default (now : Nat) (c c' : Connection) (cmd : Command)
    (h : runOnCommand now defaultOnCommand c cmd = .ok c') :
    (∀ what, (defaultJoinChannelStatusUpdater now c cmd).1 ≠ .error (.goPanic what)) ∧
    c'.channels = (defaultJoinChannelStatusUpdater now c cmd).2.channels ∧
    c'.Status = (defaultJoinChannelStatusUpdater now c cmd).2.Status := by
  rw [defaultOnCommand, runOnCommand] at h
  split at h
  · cases h
  · next r c1 hne heq =>
    have hrest := runOnCommand_frame now
      [defaultPrivmsgHandler, defaultUnknownHandler, defaultPingResponder]
      (by
        intro hook hmem c₀ cmd₀
        simp only [List.mem_cons, List.mem_singleton, List.not_mem_nil, or_false] at hmem
        rcases hmem with rfl | rfl | rfl
        · exact defaultPrivmsgHandler_frame now c₀ cmd₀
        · exact defaultUnknownHandler_frame now c₀ cmd₀
        · exact defaultPingResponder_frame now c₀ cmd₀)
      c1 c' cmd h
    rw [heq]
    refine ⟨?_, hrest.1, hrest.2⟩
    intro what hw
    exact hne what hw

/-- What `defaultChannelMemberUpdater` does to the channel map, by cases. -/
theorem defaultChannelMemberUpdater_cases (now : Nat) (c : Connection) (mo : MessageObject) :
    (∃ m ch chan, mo = .NamesReply m ∧ NamesReply.Channel m = .ok ch ∧
        c.channels.lookup ch = some chan ∧
        defaultChannelMemberUpdater now c mo =
          (.ok (), { c with channels := (c.channels.store ch
            { chan with Status := { chan.Status with
                Nicks := mergeNames chan.Status.Nicks (NamesReply.Names m) } }) })) ∨
    ((∀ m ch, mo = .NamesReply m → NamesReply.Channel m = .ok ch →
        c.channels.lookup ch = none) ∧
      (defaultChannelMemberUpdater now c mo).2.channels = c.channels ∧
      (defaultChannelMemberUpdater now c mo).2.Status = c.Status) := by
  cases mo with
  | NamesReply m =>
    cases hch : NamesReply.Channel m with
    | error e =>
      refine Or.inr ⟨?_, ?_, ?_⟩
      · intro m' ch h1 h2
        cases h1
        rw [hch] at h2
        cases h2
      · simp [defaultChannelMemberUpdater, hch]
      · simp [defaultChannelMemberUpdater, hch]
    | ok ch =>
      cases hl : c.channels.lookup ch with
      | none =>
        refine Or.inr ⟨?_, ?_, ?_⟩
        · intro m' ch' h1 h2
          cases h1
          rw [hch] at h2
          cases h2
          exact hl
        · simp [defaultChannelMemberUpdater, hch, hl]
        · simp [defaultChannelMemberUpdater, hch, hl]
      | some chan =>
        refine Or.inl ⟨m, ch, chan, rfl, hch, hl, ?_⟩
        simp [defaultChannelMemberUpdater, hch, hl]
  | EndOfNamesReply m =>
    refine Or.inr ⟨(fun m' ch h1 => by cases h1), ?_, ?_⟩
    · simp only [defaultChannelMemberUpdater]
      split <;> rfl
    · simp only [defaultChannelMemberUpdater]
      split <;> rfl
  | command cmd => exact Or.inr ⟨(fun m' ch h1 => by cases h1), rfl, rfl⟩
  | WelcomeReply m => exact Or.inr ⟨(fun m' ch h1 => by cases h1), rfl, rfl⟩
  | ErrNickInUseReply m => exact Or.inr ⟨(fun m' ch h1 => by cases h1), rfl, rfl⟩

theorem defaultConnectionStatusUpdater_frame (now : Nat) (c : Connection) (mo : MessageObject) :
    (∀ what, (defaultConnectionStatusUpdater now c mo).1 ≠ .error (.goPanic what)) ∧
    (defaultConnectionStatusUpdater now c mo).2.channels = c.channels ∧
    (defaultConnectionStatusUpdater now c mo).2.Status.CurrentNick = c.Status.CurrentNick := by
  cases mo <;> exact ⟨(fun _ h => by cases h), rfl, rfl⟩

/-- The channel map after the default reply hooks is the one the member updater
makes of the map before them. -/
theorem runOnReply_default (now : Nat) (c c' : Connection) (mo : MessageObject)
    (h : runOnReply now defaultOnReply c mo = .ok c') :
    c'.channels = (defaultChannelMemberUpdater now c mo).2.channels := by
  have hframe := defaultConnectionStatusUpdater_frame now c mo
  rw [defaultOnReply, runOnReply] at h
  split at h
  · cases h
  · next r c1 hne heq =>
    have h1 : c1.channels = c.channels := by
      have : (defaultConnectionStatusUpdater now c mo).2 = c1 := by rw [heq]
      rw [← this]; exact hframe.2.1
    rw [runOnReply] at h
    split at h
    · cases h
    · next r2 c2 hne2 heq2 =>
      simp only [runOnReply, Except.ok.injEq] at h
      subst h
      have h2 : (defaultChannelMemberUpdater now c1 mo).2 = c2 := by rw [heq2]
      rw [← h2]
      rcases defaultChannelMemberUpdater_cases now c1 mo with
        ⟨m, ch, chan, hmo, hch, hl, hr⟩ | ⟨hnone, hr, -⟩
      · rw [hr]
        rw [h1] at hl
        rcases defaultChannelMemberUpdater_cases now c mo with
          ⟨m', ch', chan', hmo', hch', hl', hr'⟩ | ⟨hnone', -, -⟩
        · rw [hr']
          rw [hmo] at hmo'
          cases hmo'
          rw [hch] at hch'
          cases hch'
          rw [hl] at hl'
          cases hl'
          simp only [h1]
        · rw [hnone' m ch hmo hch] at hl
          cases hl
      · rw [hr, h1]
        rcases defaultChannelMemberUpdater_cases now c mo with
          ⟨m', ch', chan', hmo', hch', hl', hr'⟩ | ⟨-, hr', -⟩
        · rw [← h1, hnone m' ch' hmo' hch'] at hl'
          cases hl'
        · rw [hr']

theorem runOnCommand_cons_ok (now : Nat) (hook : OnCommandHook) (hooks : List OnCommandHook)
    (c : Connection) (cmd : Command) (h : (hook now c cmd).1 = .ok ()) :
    runOnCommand now (hook :: hooks) c cmd = runOnCommand now hooks (hook now c cmd).2 cmd := by
  rw [runOnCommand]
  split
  · next what c1 heq =>
    rw [heq] at h
    cases h
  · next r c1 hne heq =>
    rw [heq]

/-- The status of every channel after the join updater. -/
theorem defaultJoinChannelStatusUpdater_status (now : Nat) (c : Connection) (cmd : Command) :
    (defaultJoinChannelStatusUpdater now c cmd).2.channels.keys = c.channels.keys ∧
    (defaultJoinChannelStatusUpdater now c cmd).2.Status = c.Status ∧
    ((∀ what, (defaultJoinChannelStatusUpdater now c cmd).1 ≠ .error (.goPanic what)) →
      ∀ ch chan', (defaultJoinChannelStatusUpdater now c cmd).2.channels.lookup ch = some chan' →
        (chan'.Status.Status = .ChannelStatusJoined ↔
          (∃ chan, c.channels.lookup ch = some chan ∧
            chan.Status.Status = .ChannelStatusJoined) ∨
          (∃ m p, cmd = .JoinCommand m ∧ m.PrefixSection = some p ∧
            p.Nick = c.Status.CurrentNick ∧ m.Params.head? = some ch))) := by
  rcases defaultJoinChannelStatusUpdater_cases now c cmd with
    ⟨m, p, ch₀, rest, chan₀, hcmd, hp, hn, hpar, hl, hr⟩ | ⟨m, p, hcmd, hp, hn, hpar, hr⟩ |
    ⟨hnone, hr⟩
  · rw [hr]
    refine ⟨GoMap.keys_store_of_mem _ _ _ (GoMap.mem_keys_of_lookup _ _ _ hl), rfl, ?_⟩
    intro _ ch chan' hl'
    by_cases hch : ch₀ = ch
    · subst hch
      simp only [GoMap.lookup_store_self, Option.some.injEq] at hl'
      subst hl'
      simp only [true_iff]
      exact Or.inr ⟨m, p, hcmd, hp, hn, by rw [hpar]; rfl⟩
    · simp only [GoMap.lookup_store_ne _ _ _ _ hch] at hl'
      constructor
      · intro hj
        exact Or.inl ⟨chan', hl', hj⟩
      · rintro (⟨chan, hc1, hc2⟩ | ⟨m', p', hcmd', -, -, hhead⟩)
        · rw [hl'] at hc1
          cases hc1
          exact hc2
        · rw [hcmd] at hcmd'
          cases hcmd'
          rw [hpar] at hhead
          simp only [List.head?_cons, Option.some.injEq] at hhead
          exact absurd hhead hch
  · rw [hr]
    refine ⟨rfl, rfl, ?_⟩
    intro hnp
    exact absurd rfl (hnp "index out of range")
  · rw [hr]
    refine ⟨rfl, rfl, ?_⟩
    intro _ ch chan' hl'
    constructor
    · intro hj
      exact Or.inl ⟨chan', hl', hj⟩
    · rintro (⟨chan, hc1, hc2⟩ | ⟨m', p', hcmd', hp', hn', hhead⟩)
      · rw [hl'] at hc1
        cases hc1
        exact hc2
      · have := hnone m' p' ch hcmd' hp' hn' hhead
        rw [this] at hl'
        cases hl'

/-- The member updater changes the status of no channel and keeps the key set. -/
theorem defaultChannelMemberUpdater_status (now : Nat) (c : Connection) (mo : MessageObject) :
    (defaultChannelMemberUpdater now c mo).2.channels.keys = c.channels.keys ∧
    ∀ ch, ((defaultChannelMemberUpdater now c mo).2.channels.lookup ch).map
        (fun x => x.Status.Status) =
      (c.channels.lookup ch).map fun x => x.Status.Status := by
  rcases defaultChannelMemberUpdater_cases now c mo with
    ⟨m, ch₀, chan₀, hmo, hch, hl, hr⟩ | ⟨-, hr, -⟩
  · rw [hr]
    refine ⟨GoMap.keys_store_of_mem _ _ _ (GoMap.mem_keys_of_lookup _ _ _ hl), ?_⟩
    intro ch
    by_cases hc : ch₀ = ch
    · subst hc
      simp only [GoMap.lookup_store_self, hl, Option.map_some']
    · simp only [GoMap.lookup_store_ne _ _ _ _ hc]
  · rw [hr]
    exact ⟨rfl, fun _ => rfl⟩

/-- The channel map that `New` builds holds a new channel for every configured
name and nothing else. -/
theorem New_channels (now : Nat) (conf : Config) (c : Connection) (h : New now conf = .ok c) :
    (∀ k, k ∈ conf.Channels → c.channels.lookup k = some (NewChannel k)) ∧
    (∀ k, k ∉ conf.Channels → c.channels.lookup k = none) ∧
    c.out = [] ∧ c.password = conf.Password ∧ c.user = conf.User ∧
    c.realName = conf.RealName ∧ c.nicks = conf.Nicks ∧ c.conn = false ∧
    c.Status.Connected = false := by
  unfold New at h
  split at h
  · cases h
  · cases h
    refine ⟨?_, ?_, rfl, rfl, rfl, rfl, rfl, rfl, rfl⟩
    · intro k hk
      exact GoMap.lookup_foldl_store_of_mem NewChannel conf.Channels GoMap.empty k hk
    · intro k hk
      exact GoMap.lookup_foldl_store_of_not_mem NewChannel conf.Channels GoMap.empty k hk

/-- Where the invariant "a channel that is not joined has no members" holds and
where it is kept: it holds on the connection that `New` builds and after
`cleanupChannels`; the default command hooks keep it; the default reply hooks keep
it on every reply but a names reply for a tracked channel that is not joined. -/
theorem unjoined_channels_without_members (now : Nat) (c : Connection) :
    (∀ conf, New now conf = .ok c →
      ∀ k chan, c.channels.lookup k = some chan → chan.Status.Nicks = GoMap.empty) ∧
    (∀ k chan, (cleanupChannels c).2.channels.lookup k = some chan →
      chan.Status.Nicks = GoMap.empty) ∧
    ((∀ k chan, c.channels.lookup k = some chan →
        chan.Status.Status ≠ .ChannelStatusJoined → chan.Status.Nicks = GoMap.empty) →
      (∀ cmd c', runOnCommand now defaultOnCommand c cmd = .ok c' →
        ∀ k chan, c'.channels.lookup k = some chan →
          chan.Status.Status ≠ .ChannelStatusJoined → chan.Status.Nicks = GoMap.empty) ∧
      (∀ mo c', runOnReply now defaultOnReply c mo = .ok c' →
        (∀ m ch chan, mo = .NamesReply m → NamesReply.Channel m = .ok ch →
          c.channels.lookup ch = some chan → chan.Status.Status = .ChannelStatusJoined) →
        ∀ k chan, c'.channels.lookup k = some chan →
          chan.Status.Status ≠ .ChannelStatusJoined → chan.Status.Nicks = GoMap.empty)) := by
  refine ⟨?_, ?_, ?_⟩
  · intro conf hnew k chan hl
    obtain ⟨h1, h2, -⟩ := New_channels now conf c hnew
    by_cases hk : k ∈ conf.Channels
    · rw [h1 k hk] at hl
      cases hl
      rfl
    · rw [h2 k hk] at hl
      cases hl
  · intro k chan hl
    exact ((cleanupChannels_channels c).2.2 k chan hl).2.1
  · intro hinv
    constructor
    · intro cmd c' h k chan hl hs
      obtain ⟨-, hch, -⟩ := runOnCommand_default now c c' cmd h
      rw [hch] at hl
      rcases defaultJoinChannelStatusUpdater_cases now c cmd with
        ⟨m, p, ch₀, rest, chan₀, -, -, -, -, hl₀, hr⟩ | ⟨m, p, -, -, -, -, hr⟩ | ⟨-, hr⟩
      · rw [hr] at hl
        by_cases hc : ch₀ = k
        · subst hc
          simp only [GoMap.lookup_store_self, Option.some.injEq] at hl
          subst hl
          exact absurd rfl hs
        · simp only [GoMap.lookup_store_ne _ _ _ _ hc] at hl
          exact hinv k chan hl hs
      · rw [hr] at hl
        exact hinv k chan hl hs
      · rw [hr] at hl
        exact hinv k chan hl hs
    · intro mo c' h hjoined k chan hl hs
      rw [runOnReply_default now c c' mo h] at hl
      rcases defaultChannelMemberUpdater_cases now c mo with
        ⟨m, ch₀, chan₀, hmo, hch, hl₀, hr⟩ | ⟨-, hr, -⟩
      · rw [hr] at hl
        by_cases hc : ch₀ = k
        · subst hc
          simp only [GoMap.lookup_store_self, Option.some.injEq] at hl
          subst hl
          exact absurd (hjoined m ch₀ chan₀ hmo hch hl₀) hs
        · simp only [GoMap.lookup_store_ne _ _ _ _ hc] at hl
          exact hinv k chan hl hs
      · rw [hr] at hl
        exact hinv k chan hl hs

/-- Hooks that leave the socket alone, run one after the other, leave it alone. -/
theorem foldl_hooks_conn (hooks : List OnConnectHook)
    (hkeep : ∀ hook ∈ hooks, ∀ s, (hook s).2.conn = s.conn) :
    ∀ s : Connection, (hooks.foldl (fun s hook => (hook s).2) s).conn = s.conn := by
  induction hooks with
  | nil => intro s; rfl
  | cons hook hooks ih =>
    intro s
    rw [List.foldl_cons, ih (fun k hk => hkeep k (List.mem_cons_of_mem _ hk)),
      hkeep hook (List.mem_cons_self _ _)]

/-- The loop over the connect hooks when every hook returns nil: each hook runs
once, in list order, on the state its predecessor left. -/
theorem runOnConnect_all_ok (hooks : List OnConnectHook) :
    ∀ s : Connection,
      (∀ pre hook post, hooks = pre ++ hook :: post →
        (hook (pre.foldl (fun s hook => (hook s).2) s)).1 = .ok ()) →
      runOnConnect hooks s = (.ok (), hooks.foldl (fun s hook => (hook s).2) s) := by
  induction hooks with
  | nil => intro s _; rfl
  | cons hook hooks ih =>
    intro s hall
    have h0 : (hook s).1 = .ok () := hall [] hook hooks rfl
    rw [runOnConnect]
    split
    · next e c' heq =>
      rw [heq] at h0
      cases h0
    · next c' heq =>
      have h2 : (hook s).2 = c' := by rw [heq]
      rw [List.foldl_cons, h2]
      refine ih c' ?_
      intro pre k post hsplit
      have := hall (hook :: pre) k post (by rw [hsplit]; rfl)
      rw [List.foldl_cons, h2] at this
      exact this

/-- The loop over the connect hooks when a hook returns an error after hooks that
returned nil: the loop ends with that error on the state that hook left. -/
theorem runOnConnect_first_error (pre : List OnConnectHook) (hook : OnConnectHook)
    (post : List OnConnectHook) (e : Failure) :
    ∀ s : Connection,
      (∀ pre' hook' post', pre = pre' ++ hook' :: post' →
        (hook' (pre'.foldl (fun s hook => (hook s).2) s)).1 = .ok ()) →
      (hook (pre.foldl (fun s hook => (hook s).2) s)).1 = .error e →
      runOnConnect (pre ++ hook :: post) s =
        (.error e, (pre ++ [hook]).foldl (fun s hook => (hook s).2) s) := by
  induction pre with
  | nil =>
    intro s _ herr
    simp only [List.nil_append, List.foldl_nil] at herr ⊢
    rw [runOnConnect]
    split
    · next e' c' heq =>
      rw [heq] at herr
      cases herr
      simp [heq]
    · next c' heq =>
      rw [heq] at herr
      cases herr
  | cons k pre ih =>
    intro s hall herr
    have h0 : (k s).1 = .ok () := hall [] k pre rfl
    rw [List.cons_append, runOnConnect]
    split
    · next e' c' heq =>
      rw [heq] at h0
      cases h0
    · next c' heq =>
      have h2 : (k s).2 = c' := by rw [heq]
      rw [List.cons_append, List.foldl_cons, h2]
      rw [List.foldl_cons, h2] at herr
      refine ih c' ?_ herr
      intro pre' hook' post' hsplit
      have := hall (k :: pre') hook' post' (by rw [hsplit]; rfl)
      rw [List.foldl_cons, h2] at this
      exact this

/-- The loop of `Dial` on a connection that holds a socket ends with nil. -/
theorem dialLoop_of_conn (indefinite : Int) (hooks : List OnConnectHook) (dials : List Bool)
    (b : backoff) (c : Connection) (h : c.conn = true) :
    dialLoop indefinite hooks dials b c = some (.ok (), c) := by
  cases dials with
  | nil => simp [dialLoop, h]
  | cons d ds => simp [dialLoop, h]

/-- The loop of `Dial` at a call of `DialContext` that gives a socket. -/
theorem dialLoop_socket (indefinite : Int) (hooks : List OnConnectHook) (dials : List Bool)
    (b : backoff) (c : Connection) (h : c.conn = false) :
    dialLoop indefinite hooks (true :: dials) b c =
      match runOnConnect hooks { c with conn := true, out := [] } with
      | (.error e, c') => some (.error e, c')
      | (.ok (), c') => dialLoop indefinite hooks dials b c' := by
  simp [dialLoop, h]

/-- The default connect hooks leave the socket alone. -/
theorem defaultOnConnect_conn :
    ∀ hook ∈ defaultOnConnect, ∀ s : Connection, (hook s).2.conn = s.conn := by
  intro hook hmem s
  simp only [defaultOnConnect, List.mem_cons, List.mem_singleton, List.not_mem_nil,
    or_false] at hmem
  rcases hmem with rfl | rfl
  · simp only [defaultLoginFunc]
    split <;> split <;> rfl
  · simp only [defaultJoinFunc]
    split <;> rfl

/-- The tag that `parseTag` makes of a segment whose split at `=` has one or two
parts, the first of them not empty. -/
theorem parseTag_of_parts (seg : GoString) (c : Char) (k : GoString) (vs : List GoString)
    (hparts : Split seg "=".toList = (c :: k) :: vs) (hlen : vs.length ≤ 1) :
    parseTag seg =
      if c = '+' then
        match Index k "/".toList with
        | some i => .ok { Key := k.drop (i + 1), Value := vs.headD [], Vendor := k.take i }
        | none => .ok { Key := k, Value := vs.headD [], Vendor := [] }
      else .ok { Key := c :: k, Value := vs.headD [], Vendor := [] } := by
  have hval : (if ((c :: k) :: vs).length > 1 then ((c :: k) :: vs).getD 1 [] else []) =
      vs.headD [] := by
    cases vs with
    | nil => rfl
    | cons v vs => simp
  have hgt : ¬ ((c :: k) :: vs).length > 2 := by
    simp only [List.length_cons]
    omega
  unfold parseTag
  simp only [hparts, hval, if_neg hgt, index, List.get?_cons_zero, bind, Except.bind, pure,
    Except.pure]
  by_cases hc : c = '+'
  · simp only [hc, if_true, sliceFrom, slice, List.length_cons, List.take_succ_cons,
      List.drop_succ_cons, List.drop_zero, List.take_length]
    rw [if_pos (by omega)]
    simp only [List.tail_cons, List.take_length]
    cases hI : Index k "/".toList with
    | none => rfl
    | some i =>
      have hb := Index_some_bound k "/".toList i hI
      have hb' : i + 1 ≤ k.length := hb
      simp only [sliceTo, slice]
      rw [if_pos (by omega), if_pos (by omega)]
      simp
  · simp only [hc, if_false]

/-- The split at `=` of a segment made of a key and at most one value, neither
holding `=`. -/
theorem Split_tag_segment (key : GoString) (value : Option GoString) (hk : '=' ∉ key)
    (hv : ∀ v, value = some v → '=' ∉ v) :
    Split (key ++ (value.map (List.cons '=')).getD []) "=".toList = key :: value.toList := by
  cases value with
  | none =>
    simp only [Option.map_none', Option.getD_none, List.append_nil, Option.toList]
    exact Split_of_Index_none key "=".toList (Index_single_none '=' key hk)
  | some v =>
    have h := Split_Join_single '=' [key, v] (by simp) (by
      intro n hn
      simp only [List.mem_cons, List.mem_singleton, List.not_mem_nil, or_false] at hn
      rcases hn with rfl | rfl
      · exact hk
      · exact hv _ rfl)
    simp only [Option.map_some', Option.getD_some, Option.toList]
    have hj : Join [key, v] ['='] = key ++ '=' :: v := by simp [Join]
    rw [hj] at h
    exact h

/-- The tag of a segment made of a key that is not empty and of at most one value,
neither holding `=`: the value is the tag's Value; a key without a leading `+` is
the tag's Key, with an empty Vendor; after a leading `+` the rest of the key is
split at its first `/` into Vendor and Key, and is the Key when it has no `/`. -/
theorem parseTag_of_key_value (key : GoString) (value : Option GoString) (hne : key ≠ [])
    (hk : '=' ∉ key) (hv : ∀ v, value = some v → '=' ∉ v) :
    ∃ tag, parseTag (key ++ (value.map (List.cons '=')).getD []) = .ok tag ∧
      tag.Value = value.getD [] ∧
      (key.head? ≠ some '+' → tag.Key = key ∧ tag.Vendor = []) ∧
      (∀ k, key = '+' :: k → '/' ∉ k → tag.Key = k ∧ tag.Vendor = []) ∧
      (∀ vendor name, key = '+' :: (vendor ++ '/' :: name) → '/' ∉ vendor →
        tag.Key = name ∧ tag.Vendor = vendor) := by
  obtain ⟨c, k, rfl⟩ : ∃ c k, key = c :: k := by
    cases key with
    | nil => exact absurd rfl hne
    | cons c k => exact ⟨c, k, rfl⟩
  have hparts := Split_tag_segment (c :: k) value hk hv
  have hlen : value.toList.length ≤ 1 := by cases value <;> simp
  have hval : value.toList.headD [] = value.getD [] := by cases value <;> rfl
  rw [parseTag_of_parts _ c k value.toList hparts hlen, hval]
  by_cases hc : c = '+'
  · subst hc
    rw [if_pos rfl]
    cases hI : Index k "/".toList with
    | none =>
      refine ⟨_, rfl, rfl, ?_, ?_, ?_⟩
      · intro h; exact absurd rfl h
      · intro k' hk' _
        cases hk'
        exact ⟨rfl, rfl⟩
      · intro vendor name hkey hvend
        cases hkey
        rw [show "/".toList = ['/'] from rfl, Index_single_append '/' vendor name hvend] at hI
        cases hI
    | some i =>
      refine ⟨_, rfl, rfl, ?_, ?_, ?_⟩
      · intro h; exact absurd rfl h
      · intro k' hk' hno
        cases hk'
        rw [show "/".toList = ['/'] from rfl, Index_single_none '/' k hno] at hI
        cases hI
      · intro vendor name hkey hvend
        cases hkey
        rw [show "/".toList = ['/'] from rfl, Index_single_append '/' vendor name hvend] at hI
        cases hI
        simp
  · rw [if_neg hc]
    refine ⟨_, rfl, rfl, ?_, ?_, ?_⟩
    · intro _; exact ⟨rfl, rfl⟩
    · intro k' hk'
      cases hk'
      exact absurd rfl hc
    · intro vendor name hkey
      cases hkey
      exact absurd rfl hc

/-- Cutting the final CRLF of a line reaches only what follows a space in it. -/
theorem TrimSuffix_crlf_after_space (front rest : GoString) :
    TrimSuffix (front ++ ' ' :: rest) "\r\n".toList =
      front ++ ' ' :: TrimSuffix rest "\r\n".toList := by
  have hs := HasSuffix_crlf_append front ' ' rest (by decide) (by decide)
  by_cases h : HasSuffix rest "\r\n".toList = true
  · have hsuf : "\r\n".toList <:+ rest := by
      simpa [HasSuffix, List.isSuffixOf_iff_suffix] using h
    obtain ⟨r, hr⟩ := hsuf
    subst hr
    rw [TrimSuffix_append]
    have : front ++ ' ' :: (r ++ "\r\n".toList) = (front ++ ' ' :: r) ++ "\r\n".toList := by
      simp
    rw [this, TrimSuffix_append]
  · have h' : HasSuffix rest "\r\n".toList = false := by simpa using h
    rw [TrimSuffix_of_not_HasSuffix _ _ h', TrimSuffix_of_not_HasSuffix _ _ (by rw [hs]; exact h')]

/-- The message that `parseParams` returns keeps the sections, the time stamp and
the raw line of the message it was given. -/
theorem parseParams_ok_sections (msg m : Message) (raw : GoString)
    (h : parseParams msg raw = .ok m) :
    m.TagsSection = msg.TagsSection ∧ m.PrefixSection = msg.PrefixSection ∧
    m.RawMsg = msg.RawMsg ∧ m.CreatedAt = msg.CreatedAt ∧ m.Parsed = true := by
  unfold parseParams at h
  simp only [bind, Except.bind, pure, Except.pure] at h
  split at h
  · cases h
  · split at h
    · cases h
    · cases h
      exact ⟨rfl, rfl, rfl, rfl, rfl⟩

/-- The sections of an accepted line are those of the two stages. -/
theorem ParseMessage_ok_sections (now : Nat) (raw : GoString) (m : Message)
    (h : ParseMessage now raw = .ok m) :
    ∃ rest1 rest, parseTagsSection (TrimSuffix raw "\r\n".toList) = .ok (m.TagsSection, rest1) ∧
      parsePrefixSection rest1 = .ok (m.PrefixSection, rest) ∧
      m.RawMsg = TrimSuffix raw "\r\n".toList := by
  cases ht : parseTagsSection (TrimSuffix raw "\r\n".toList) with
  | error e =>
    rw [ParseMessage_of_tags_error now raw e ht] at h
    cases h
  | ok r1 =>
    obtain ⟨tags, rest1⟩ := r1
    cases hp : parsePrefixSection rest1 with
    | error e =>
      rw [ParseMessage_of_prefix_error now raw rest1 tags e ht hp] at h
      cases h
    | ok r2 =>
      obtain ⟨pfx, rest⟩ := r2
      rw [ParseMessage_of_stages now raw rest1 rest tags pfx ht hp] at h
      obtain ⟨h1, h2, h3, -, -⟩ := parseParams_ok_sections _ m rest h
      refine ⟨rest1, rest, ?_, ?_, h3⟩
      · rw [h1]
      · rw [h2, hp]

/-- The tag loop returns the tags of the segments, one for each and in order, when
every segment makes a tag. -/
theorem mapM_parseTag (segs : List GoString) (tags : List Tag)
    (h : List.Forall₂ (fun seg tag => parseTag seg = .ok tag) segs tags) :
    segs.mapM parseTag = .ok tags := by
  induction h with
  | nil => rfl
  | cons h1 _ ih =>
    rw [List.mapM_cons, h1, ih]
    rfl

/-- The tag stage on a line that starts with `@`, a block without a space and a
space: the raw tags are the block, the rest is what follows the space. -/
theorem parseTagsSection_block (block rest : GoString) (hsp : ' ' ∉ block)
    (tags : List Tag) (htags : (Split block ";".toList).mapM parseTag = .ok tags) :
    parseTagsSection ('@' :: (block ++ ' ' :: rest)) =
      .ok (some { Tags := tags, RawTags := block }, rest) := by
  have hI : Index ('@' :: (block ++ ' ' :: rest)) " ".toList = some (block.length + 1) := by
    have := Index_single_append ' ' ('@' :: block) rest (by
      intro hm
      rcases List.mem_cons.mp hm with h | h
      · exact absurd h (by decide)
      · exact hsp h)
    simpa using this
  unfold parseTagsSection
  simp only [index, List.get?_cons_zero, bind, Except.bind, pure, Except.pure, if_true, hI]
  have h1 : slice ('@' :: (block ++ ' ' :: rest)) 1 (block.length + 1) = .ok block := by
    simp only [slice, List.length_cons, List.length_append]
    rw [if_pos (by omega)]
    simp
  have h2 : sliceFrom ('@' :: (block ++ ' ' :: rest)) (block.length + 1 + 1) = .ok rest := by
    simp only [sliceFrom, slice, List.length_cons, List.length_append]
    rw [if_pos (by omega), List.take_of_length_le (by simp)]
    simp
  simp only [h1, h2, htags]

/-- A code point of a joined string is one of the separator or of a piece. -/
theorem mem_Join (x : Char) (sep : GoString) (l : List GoString) (h : x ∈ Join l sep) :
    x ∈ sep ∨ ∃ s ∈ l, x ∈ s := by
  induction l with
  | nil => simp [Join] at h
  | cons a l ih =>
    cases l with
    | nil =>
      simp only [Join] at h
      exact Or.inr ⟨a, List.mem_cons_self _ _, h⟩
    | cons b rest =>
      rw [Join_cons_cons] at h
      rcases List.mem_append.mp h with h | h
      · rcases List.mem_append.mp h with h | h
        · exact Or.inr ⟨a, List.mem_cons_self _ _, h⟩
        · exact Or.inl h
      · rcases ih h with h | ⟨s, hs, hx⟩
        · exact Or.inl h
        · exact Or.inr ⟨s, List.mem_cons_of_mem _ hs, hx⟩

/-- The tags of a list of segments, each made of a key that is not empty and of at
most one value, neither holding `=`. -/
theorem parseTag_segments (segs : List (GoString × Option GoString))
    (hkey : ∀ kv ∈ segs, kv.1 ≠ [] ∧ '=' ∉ kv.1)
    (hval : ∀ kv ∈ segs, ∀ v, kv.2 = some v → '=' ∉ v) :
    ∃ tags, List.Forall₂ (fun kv tag =>
        parseTag (kv.1 ++ (kv.2.map (List.cons '=')).getD []) = .ok tag ∧
        tag.Value = kv.2.getD [] ∧
        (kv.1.head? ≠ some '+' → tag.Key = kv.1 ∧ tag.Vendor = []) ∧
        (∀ k, kv.1 = '+' :: k → '/' ∉ k → tag.Key = k ∧ tag.Vendor = []) ∧
        (∀ vendor name, kv.1 = '+' :: (vendor ++ '/' :: name) → '/' ∉ vendor →
          tag.Key = name ∧ tag.Vendor = vendor)) segs tags := by
  induction segs with
  | nil => exact ⟨[], List.Forall₂.nil⟩
  | cons kv segs ih =>
    obtain ⟨tags, htags⟩ := ih (fun x hx => hkey x (List.mem_cons_of_mem _ hx))
      (fun x hx => hval x (List.mem_cons_of_mem _ hx))
    obtain ⟨tag, htag⟩ := parseTag_of_key_value kv.1 kv.2
      (hkey kv (List.mem_cons_self _ _)).1 (hkey kv (List.mem_cons_self _ _)).2
      (hval kv (List.mem_cons_self _ _))
    exact ⟨tag :: tags, List.Forall₂.cons htag htags⟩

/-- The prefix stage on `:`, a prefix without a space, a space and a rest, by the
places of the first `!` and the first `@` of the prefix: with `!` before `@` the
prefix is cut there into Nick, Ident and Host; without one of them only RawPrefix
is set; with `@` before `!` the stage panics. -/
theorem parsePrefixSection_cases (p rest : GoString) (hsp : ' ' ∉ p) :
    (∀ i j, Index p "!".toList = some i → Index p "@".toList = some j → i < j →
      parsePrefixSection (':' :: (p ++ ' ' :: rest)) =
        .ok (some { Nick := p.take i, Ident := (p.take j).drop (i + 1),
                    Host := p.drop (j + 1), RawPrefix := p }, rest)) ∧
    (Index p "!".toList = none ∨ Index p "@".toList = none →
      parsePrefixSection (':' :: (p ++ ' ' :: rest)) = .ok (some { RawPrefix := p }, rest)) ∧
    (∀ i j, Index p "!".toList = some i → Index p "@".toList = some j → j < i →
      parsePrefixSection (':' :: (p ++ ' ' :: rest)) =
        .error (.goPanic "slice bounds out of range")) := by
  have hidx : Index (':' :: (p ++ ' ' :: rest)) [' '] = some (p.length + 1) := by
    have := Index_single_append ' ' (':' :: p) rest (by
      intro h
      rcases List.mem_cons.mp h with h | h
      · exact absurd h (by decide)
      · exact hsp h)
    simpa using this
  have hraw : slice (':' :: (p ++ ' ' :: rest)) 1 (p.length + 1) = .ok p := by
    simp [slice, List.take_append_eq_append_take]
  have hrest : sliceFrom (':' :: (p ++ ' ' :: rest)) (p.length + 1 + 1) = .ok rest := by
    simp only [sliceFrom, slice, List.length_cons, List.length_append]
    rw [if_pos (by omega), List.take_of_length_le (by simp)]
    simp
  have hb : "!".toList = ['!'] := rfl
  have ha : "@".toList = ['@'] := rfl
  rw [hb, ha]
  refine ⟨?_, ?_, ?_⟩
  · intro i j hi hj hij
    have hjb := Index_some_bound p ['@'] j hj
    simp only [List.length_singleton] at hjb
    have h1 : sliceTo p i = .ok (p.take i) := by
      simp [sliceTo, slice]; omega
    have h2 : slice p (i + 1) j = .ok ((p.take j).drop (i + 1)) := by
      simp [slice]; omega
    have h3 : sliceFrom p (j + 1) = .ok (p.drop (j + 1)) := by
      simp [sliceFrom, slice]; omega
    simp [parsePrefixSection, index, hidx, hraw, hrest, hi, hj, h1, h2, h3, bind, Except.bind,
      pure, Except.pure]
  · rintro (hi | hj)
    · simp [parsePrefixSection, index, hidx, hraw, hrest, hi, bind, Except.bind, pure,
        Except.pure]
    · cases hi : Index p ['!'] with
      | none =>
        simp [parsePrefixSection, index, hidx, hraw, hrest, hi, bind, Except.bind, pure,
          Except.pure]
      | some i =>
        simp [parsePrefixSection, index, hidx, hraw, hrest, hi, hj, bind, Except.bind, pure,
          Except.pure]
  · intro i j hi hj hji
    have hib := Index_some_bound p ['!'] i hi
    simp only [List.length_singleton] at hib
    have h1 : sliceTo p i = .ok (p.take i) := by
      simp [sliceTo, slice]; omega
    have h2 : slice p (i + 1) j = .error (.goPanic "slice bounds out of range") := by
      simp [slice]; omega
    simp [parsePrefixSection, index, hidx, hraw, hrest, hi, hj, h1, h2, bind, Except.bind,
      pure, Except.pure]

/-- The prefix stage on a prefix of the form nick, `!`, ident, `@`, host, with no
`!` and no `@` in the nick and no `@` in the ident. -/
theorem parsePrefixSection_user (nick ident host rest : GoString)
    (h1 : '!' ∉ nick) (h2 : '@' ∉ nick) (h3 : '@' ∉ ident)
    (hsp : ' ' ∉ nick ++ '!' :: (ident ++ '@' :: host)) :
    parsePrefixSection (':' :: ((nick ++ '!' :: (ident ++ '@' :: host)) ++ ' ' :: rest)) =
      .ok (some { Nick := nick, Ident := ident, Host := host,
                  RawPrefix := nick ++ '!' :: (ident ++ '@' :: host) }, rest) := by
  have hp : nick ++ '!' :: (ident ++ '@' :: host) = (nick ++ '!' :: ident) ++ '@' :: host := by
    simp
  have hi : Index (nick ++ '!' :: (ident ++ '@' :: host)) "!".toList = some nick.length :=
    Index_single_append '!' nick _ h1
  have hj : Index (nick ++ '!' :: (ident ++ '@' :: host)) "@".toList =
      some (nick ++ '!' :: ident).length := by
    rw [hp]
    exact Index_single_append '@' (nick ++ '!' :: ident) host (by
      intro hm
      rcases List.mem_append.mp hm with h | h
      · exact h2 h
      · rcases List.mem_cons.mp h with h | h
        · exact absurd h (by decide)
        · exact h3 h)
  rw [(parsePrefixSection_cases _ rest hsp).1 _ _ hi hj (by simp)]
  have e1 : (nick ++ '!' :: (ident ++ '@' :: host)).take nick.length = nick := by simp
  have e2 : ((nick ++ '!' :: (ident ++ '@' :: host)).take (nick ++ '!' :: ident).length).drop
      (nick.length + 1) = ident := by
    rw [hp, List.take_left' rfl]
    simp
  have e3 : (nick ++ '!' :: (ident ++ '@' :: host)).drop ((nick ++ '!' :: ident).length + 1) =
      host := by
    rw [hp, List.drop_append]
    rfl
  rw [e1, e2, e3]

theorem GoMap.keys_store_of_not_mem {κ β : Type} [DecidableEq κ] (m : GoMap κ β) (k : κ) (v : β)
    (h : k ∉ m.keys) : (m.store k v).keys = m.keys ++ [k] := by
  induction m with
  | nil => rfl
  | cons e m ih =>
    obtain ⟨k', v'⟩ := e
    have hk : k' ≠ k := fun hh => h (by rw [hh]; exact List.mem_cons_self _ _)
    have hm : k ∉ GoMap.keys m := fun hh => h (List.mem_cons_of_mem _ hh)
    have := ih hm
    simp only [GoMap.keys] at this ⊢
    simp [GoMap.store, hk, this]

/-- Storing keeps the keys of a map distinct. -/
theorem GoMap.nodup_keys_store {κ β : Type} [DecidableEq κ] (m : GoMap κ β) (k : κ) (v : β)
    (h : m.keys.Nodup) : (m.store k v).keys.Nodup := by
  by_cases hk : k ∈ m.keys
  · rw [GoMap.keys_store_of_mem m k v hk]
    exact h
  · rw [GoMap.keys_store_of_not_mem m k v hk]
    exact List.Nodup.append h (List.nodup_singleton k) (by
      intro x hx hx'
      rw [List.mem_singleton.mp hx'] at hx
      exact hk hx)

/-- The keys of a map built by storing a value for every element of a list are
distinct and are, beside the keys it had, the elements of the list. -/
theorem GoMap.keys_foldl_store_nodup {κ β : Type} [DecidableEq κ] (f : κ → β) (ks : List κ) :
    ∀ m : GoMap κ β, m.keys.Nodup →
      (ks.foldl (fun acc x => acc.store x (f x)) m).keys.Nodup ∧
      ∀ k, k ∈ (ks.foldl (fun acc x => acc.store x (f x)) m).keys ↔ k ∈ m.keys ∨ k ∈ ks := by
  induction ks with
  | nil => intro m h; exact ⟨h, fun k => by simp⟩
  | cons x ks ih =>
    intro m h
    obtain ⟨h1, h2⟩ := ih (m.store x (f x)) (GoMap.nodup_keys_store m x (f x) h)
    refine ⟨h1, ?_⟩
    intro k
    rw [List.foldl_cons, h2 k, GoMap.mem_keys_store]
    simp only [List.mem_cons]
    tauto

/-- The connection that `New` returns. -/
theorem New_ok_eq (now : Nat) (conf : Config) (c : Connection) (h : New now conf = .ok c) :
    c = { Name := conf.Name
          CommandFactory :=
            GoMap.store GoMap.empty .CommandTypePrivmsg mentionAndDirectPrivmsgCommand
          Status := { StartedAt := now }
          server := conf.Server
          useTLS := conf.UseTLS
          channels := conf.Channels.foldl (fun m ch => m.store ch (NewChannel ch)) GoMap.empty
          nicks := conf.Nicks
          user := conf.User
          realName := conf.RealName
          password := conf.Password } := by
  unfold New at h
  split at h
  · cases h
  · cases h
    rfl

/-- The login hook on a connection with a nick: PASS if a password is set, USER and
NICK are appended to the queue and the nick becomes the current nick. -/
theorem defaultLoginFunc_of_nicks (c : Connection) (nick : GoString) (rest : List GoString)
    (h : c.nicks = nick :: rest) :
    defaultLoginFunc c =
      (.ok (), { c with
        out := c.out ++ (if c.password ≠ [] then [NewPassCommand c.password] else []) ++
          [NewUserCommand c.user 0 c.realName, NewNickCommand nick],
        Status := { c.Status with CurrentNick := nick } }) := by
  by_cases hp : c.password = []
  · simp [defaultLoginFunc, hp, h, index]
  · simp [defaultLoginFunc, hp, h, index]

/-- The join hook: one JOIN for the keys of the channel map, if it has any. -/
theorem defaultJoinFunc_eq (c : Connection) :
    defaultJoinFunc c =
      (.ok (), { c with
        out := c.out ++
          (if c.channels.keys.length > 0 then [NewJoinCommand c.channels.keys] else []) }) := by
  by_cases hl : c.channels.keys.length > 0
  · simp [defaultJoinFunc, hl]
  · simp only [defaultJoinFunc, hl, if_false, List.append_nil]

/-- An index either gives an element or panics. -/
theorem index_cases {α : Type} (xs : List α) (i : Nat) :
    (∃ x, index xs i = .ok x) ∨ index xs i = .error (.goPanic "index out of range") := by
  unfold index
  cases xs.get? i with
  | none => exact Or.inr rfl
  | some x => exact Or.inl ⟨x, rfl⟩

/-- An accepted line leaves the flag `Parsed` set. -/
theorem ParseMessage_ok_Parsed (now : Nat) (raw : GoString) (m : Message)
    (h : ParseMessage now raw = .ok m) : m.Parsed = true := by
  cases ht : parseTagsSection (TrimSuffix raw "\r\n".toList) with
  | error e =>
    rw [ParseMessage_of_tags_error now raw e ht] at h
    cases h
  | ok r1 =>
    obtain ⟨tags, rest1⟩ := r1
    cases hp : parsePrefixSection rest1 with
    | error e =>
      rw [ParseMessage_of_prefix_error now raw rest1 tags e ht hp] at h
      cases h
    | ok r2 =>
      obtain ⟨pfx, rest⟩ := r2
      rw [ParseMessage_of_stages now raw rest1 rest tags pfx ht hp] at h
      exact (parseParams_ok_sections _ m rest h).2.2.2.2

/-- A whole number is its own nearest integer. -/
theorem roundHalfEven_intCast (z : Int) : roundHalfEven (z : ℚ) = z := by
  unfold roundHalfEven
  rw [Int.floor_intCast, sub_self, if_pos (by norm_num)]

/-- The exponent of a number between two consecutive powers of two. -/
theorem Float64.exponent_eq (q : ℚ) (e : Int) (he : -1022 ≤ e) (hlo : (2 : ℚ) ^ e ≤ |q|)
    (hhi : |q| < (2 : ℚ) ^ (e + 1)) : Float64.exponent q = e := by
  have hpos : (0 : ℚ) < |q| := lt_of_lt_of_le (by positivity) hlo
  have h1 : e ≤ Int.log 2 |q| := (Int.zpow_le_iff_le_log (by norm_num) hpos).mp (by exact_mod_cast hlo)
  have h2 : Int.log 2 |q| < e + 1 := (Int.lt_zpow_iff_log_lt (by norm_num) hpos).mp (by exact_mod_cast hhi)
  unfold Float64.exponent
  omega

/-- A number that is a whole multiple of the power of two at its exponent less 52
is its own rounding. -/
theorem Float64.round_of_significand (q : ℚ) (z : Int)
    (h : q = (z : ℚ) * (2 : ℚ) ^ (Float64.exponent q - 52)) : Float64.round q = q := by
  have hne : (2 : ℚ) ^ (Float64.exponent q - 52) ≠ 0 := by positivity
  have hdiv : q / (2 : ℚ) ^ (Float64.exponent q - 52) = (z : ℚ) := by
    rw [div_eq_iff hne]; exact h
  unfold Float64.round
  rw [hdiv, roundHalfEven_intCast]
  exact h.symm

theorem Float64.round_zero : Float64.round 0 = 0 :=
  Float64.round_of_significand 0 0 (by simp)

/-- The rounding of a number between two consecutive powers of two. -/
theorem Float64.round_eq (q : ℚ) (e : Int) (he : -1022 ≤ e) (hlo : (2 : ℚ) ^ e ≤ |q|)
    (hhi : |q| < (2 : ℚ) ^ (e + 1)) :
    Float64.round q =
      (roundHalfEven (q / (2 : ℚ) ^ (e - 52)) : ℚ) * (2 : ℚ) ^ (e - 52) := by
  unfold Float64.round
  rw [Float64.exponent_eq q e he hlo hhi]

/-- A power of two with a natural exponent is its own rounding. -/
theorem Float64.round_two_pow (n : Nat) : Float64.round ((2 : ℚ) ^ n) = (2 : ℚ) ^ n := by
  have hexp : Float64.exponent ((2 : ℚ) ^ n) = (n : Int) := by
    apply Float64.exponent_eq _ _ (by omega)
    · rw [abs_of_pos (by positivity), zpow_natCast]
    · rw [abs_of_pos (by positivity)]
      have : ((n : Int) + 1) = ((n + 1 : Nat) : Int) := by push_cast; ring
      rw [this, zpow_natCast]
      exact pow_lt_pow_right₀ (by norm_num) (by omega)
  apply Float64.round_of_significand _ (2 ^ 52)
  rw [hexp]
  have hc : (((2 ^ 52 : Int)) : ℚ) = (2 : ℚ) ^ (52 : Int) := by norm_num
  rw [hc, ← zpow_add₀ (by norm_num : (2 : ℚ) ≠ 0)]
  have : (52 : Int) + ((n : Int) - 52) = (n : Int) := by ring
  rw [this, zpow_natCast]

/-- A whole number below two to the power 53 in magnitude is its own rounding. -/
theorem Float64.round_intCast (i : Int) (h : |i| < 2 ^ 53) :
    Float64.round (i : ℚ) = (i : ℚ) := by
  by_cases h0 : i = 0
  · rw [h0, Int.cast_zero, Float64.round_zero]
  have habs : (1 : ℚ) ≤ |(i : ℚ)| := by
    have : (1 : Int) ≤ |i| := Int.one_le_abs h0
    exact_mod_cast this
  have hpos : (0 : ℚ) < |(i : ℚ)| := by linarith
  have hlt : |(i : ℚ)| < (2 : ℚ) ^ (53 : Int) := by
    have : |(i : ℚ)| < ((2 ^ 53 : Int) : ℚ) := by exact_mod_cast h
    rw [zpow_ofNat]
    exact_mod_cast this
  have hlog0 : 0 ≤ Int.log 2 |(i : ℚ)| :=
    (Int.zpow_le_iff_le_log (by norm_num) hpos).mp (by simpa using habs)
  have hlog53 : Int.log 2 |(i : ℚ)| < 53 :=
    (Int.lt_zpow_iff_log_lt (by norm_num) hpos).mp (by exact_mod_cast hlt)
  have hexp : Float64.exponent (i : ℚ) = Int.log 2 |(i : ℚ)| := by
    unfold Float64.exponent
    omega
  obtain ⟨k, hk⟩ : ∃ k : Nat, (k : Int) = 52 - Int.log 2 |(i : ℚ)| :=
    ⟨(52 - Int.log 2 |(i : ℚ)|).toNat, by omega⟩
  apply Float64.round_of_significand _ (i * 2 ^ k)
  rw [hexp]
  have hk' : Int.log 2 |(i : ℚ)| - 52 = -(k : Int) := by omega
  rw [hk', zpow_neg, zpow_natCast]
  push_cast
  rw [mul_assoc, mul_inv_cancel₀ (by positivity), mul_one]

theorem Float64.round_natCast (n : Nat) (h : n < 2 ^ 53) :
    Float64.round (n : ℚ) = (n : ℚ) := by
  have := Float64.round_intCast (n : Int) (by rw [abs_of_nonneg (by positivity)]; exact_mod_cast h)
  simpa using this

theorem Float64.overflow_pos : (0 : ℚ) < Float64.overflow := by
  unfold Float64.overflow
  positivity

/-- The `float64` of a number that is its own rounding and below the overflow
magnitude. -/
theorem Float64.ofRat_of_round (q : ℚ) (hr : Float64.round q = q)
    (hlo : -Float64.overflow < q) (hhi : q < Float64.overflow) :
    Float64.ofRat q = .finite q := by
  unfold Float64.ofRat
  rw [hr, if_neg (not_le.mpr hhi), if_neg (not_le.mpr hlo)]

theorem Float64.two_pow_53_lt_overflow : ((2 : ℚ) ^ 53) < Float64.overflow := by
  unfold Float64.overflow
  exact pow_lt_pow_right₀ (by norm_num) (by norm_num)

/-- The `float64` of a whole number below two to the power 53 in magnitude. -/
theorem Float64.ofRat_intCast (i : Int) (h : |i| < 2 ^ 53) :
    Float64.ofRat (i : ℚ) = .finite (i : ℚ) := by
  have h53 := Float64.two_pow_53_lt_overflow
  have habs : |(i : ℚ)| < (2 : ℚ) ^ 53 := by
    have : |(i : ℚ)| < ((2 ^ 53 : Int) : ℚ) := by exact_mod_cast h
    exact_mod_cast this
  have := abs_lt.mp habs
  exact Float64.ofRat_of_round _ (Float64.round_intCast i h) (by linarith) (by linarith)

theorem Float64.ofRat_zero : Float64.ofRat 0 = .finite 0 := by
  have := Float64.ofRat_intCast 0 (by norm_num)
  simpa using this

/-- A power of two as a `float64`: finite below the exponent 1024, an infinity from
there on. -/
theorem Float64.ofRat_two_pow (n : Nat) :
    Float64.ofRat ((2 : ℚ) ^ n) = if n < 1024 then .finite ((2 : ℚ) ^ n) else .inf false := by
  split_ifs with h
  · apply Float64.ofRat_of_round _ (Float64.round_two_pow n)
    · have := Float64.overflow_pos
      have : (0 : ℚ) < 2 ^ n := by positivity
      linarith
    · unfold Float64.overflow
      exact pow_lt_pow_right₀ (by norm_num) h
  · unfold Float64.ofRat
    rw [Float64.round_two_pow, if_pos]
    unfold Float64.overflow
    exact pow_le_pow_right₀ (by norm_num) (not_lt.mp h)

/-- Go `math.Pow(2, float64(n))`: finite below the exponent 1024, an infinity from
there on. -/
theorem Float64.Pow_two (n : Nat) :
    Float64.Pow (.finite 2) n = if n < 1024 then .finite ((2 : ℚ) ^ n) else .inf false := by
  unfold Float64.Pow
  by_cases h0 : n = 0
  · rw [if_pos h0, h0]
    simp
  · rw [if_neg h0]
    exact Float64.ofRat_two_pow n

/-- The counter as the exponent that `math.Pow` receives: itself, below two to the
power 53. -/
theorem Float64.round_counter (n : Nat) (h : n < 2 ^ 53) :
    Int.toNat (Int.floor (Float64.round (n : ℚ))) = n := by
  rw [Float64.round_natCast n h]
  simp

/-- The method `next` on a backoff whose minimum is zero and whose factor is below 1:
the delay is zero while two to the power of the counter is finite, and the
conversion of what is not a number from there on; the counter goes up by one. -/
theorem backoff.next_of_min_zero (indefinite : Int) (b : backoff) (hmin : b.min = 0)
    (hf : Float64.lt b.factor (.finite 1) = true) (hmax : 0 ≤ b.max ∧ b.max < 2 ^ 53)
    (hn : b.n < 2 ^ 53) :
    b.next indefinite =
      (if b.n < 1024 then 0 else indefinite, { b with n := b.n + 1 }) := by
  have hmx : Float64.ofRat (b.max : ℚ) = .finite (b.max : ℚ) :=
    Float64.ofRat_intCast b.max (by rw [abs_of_nonneg hmax.1]; exact hmax.2)
  have hmod : (b.n + 1) % 2 ^ 64 = b.n + 1 := Nat.mod_eq_of_lt (by omega)
  unfold backoff.next
  simp only [hf, if_true, hmin, Int.cast_zero, Float64.ofRat_zero, hmx, hmod]
  rw [Float64.round_counter b.n hn, Float64.Pow_two]
  by_cases h : b.n < 1024
  · have h0 : Float64.mul (.finite 0) (.finite ((2 : ℚ) ^ b.n)) = .finite 0 := by
      simp only [Float64.mul, zero_mul]
      exact Float64.ofRat_zero
    have hgt : Float64.lt (.finite (b.max : ℚ)) (.finite 0) = false := by
      simp only [Float64.lt, decide_eq_false_iff_not, not_lt]
      exact_mod_cast hmax.1
    rw [if_pos h, if_pos h, h0, hgt]
    simp only [Bool.false_eq_true, if_false, Float64.toDuration]
    rw [if_pos (by norm_num)]
    simp [toDuration]
  · have h0 : Float64.mul (.finite 0) (.inf false) = .NaN := by
      simp [Float64.mul]
    rw [if_neg h, if_neg h, h0]
    simp [Float64.lt, Float64.toDuration]

theorem backoff.after_of_min_zero (indefinite : Int) (b : backoff) (hmin : b.min = 0)
    (hf : Float64.lt b.factor (.finite 1) = true) (hmax : 0 ≤ b.max ∧ b.max < 2 ^ 53)
    (k : Nat) (hk : b.n + k ≤ 2 ^ 53) :
    b.after indefinite k = { b with n := b.n + k } := by
  induction k with
  | zero => rfl
  | succ k ih =>
    rw [backoff.after, ih (by omega),
      backoff.next_of_min_zero indefinite { b with n := b.n + k } hmin hf hmax
        (by show b.n + k < 2 ^ 53; omega)]
    rfl

theorem backoff.after_next (indefinite : Int) (b : backoff) (k : Nat) :
    (b.next indefinite).2.after indefinite k = b.after indefinite (k + 1) := by
  induction k with
  | zero => rfl
  | succ k ih =>
    rw [backoff.after, ih]
    rfl

theorem Float64.Pow_zero (x : Float64) : Float64.Pow x 0 = .finite 1 := by
  unfold Float64.Pow
  rw [if_pos rfl]

theorem Float64.Pow_finite (q : ℚ) (y : Nat) (h : y ≠ 0) :
    Float64.Pow (.finite q) y = Float64.ofRat (q ^ y) := by
  unfold Float64.Pow
  rw [if_neg h]

theorem Float64.mul_finite (a b : ℚ) :
    Float64.mul (.finite a) (.finite b) = Float64.ofRat (a * b) := rfl

theorem Float64.lt_finite (a b : ℚ) :
    Float64.lt (.finite a) (.finite b) = decide (a < b) := rfl

theorem Float64.toDuration_finite (indefinite : Int) (q : ℚ)
    (h : -(2 : ℚ) ^ 63 - 1 < q ∧ q < (2 : ℚ) ^ 63) :
    Float64.toDuration indefinite (.finite q) = Tenyks.toDuration q := by
  show (if -(2 : ℚ) ^ 63 - 1 < q ∧ q < (2 : ℚ) ^ 63 then Tenyks.toDuration q else indefinite) =
    Tenyks.toDuration q
  rw [if_pos h]

theorem Float64.mul_zero_inf (s : Bool) : Float64.mul (.finite 0) (.inf s) = .NaN := by
  simp [Float64.mul]

theorem Float64.lt_NaN (x : Float64) : Float64.lt x .NaN = false := by
  cases x <;> rfl

theorem Float64.toDuration_NaN (indefinite : Int) :
    Float64.toDuration indefinite .NaN = indefinite := rfl

/-- The nearest integer, given the floor. -/
theorem roundHalfEven_of_floor (q : ℚ) (f : Int) (hf : Int.floor q = f) :
    roundHalfEven q =
      if q - (f : ℚ) < 1 / 2 then f
      else if 1 / 2 < q - (f : ℚ) then f + 1
      else if f % 2 = 0 then f
      else f + 1 := by
  unfold roundHalfEven
  rw [hf]

/-- The `float64` of two to the power 53, plus 3: it lies midway between two
`float64` values and goes to the one with the even significand, above it. -/
theorem Float64.ofRat_max_rounds_up :
    Float64.ofRat (9007199254740995 : ℚ) = .finite 9007199254740996 := by
  have hr : Float64.round (9007199254740995 : ℚ) = 9007199254740996 := by
    rw [Float64.round_eq _ 53 (by norm_num) (by rw [abs_of_pos (by norm_num)]; norm_num)
      (by rw [abs_of_pos (by norm_num)]; norm_num)]
    have hfl : Int.floor ((9007199254740995 : ℚ) / (2 : ℚ) ^ ((53 : Int) - 52)) =
        4503599627370497 := by
      rw [Int.floor_eq_iff]
      constructor <;> norm_num
    rw [roundHalfEven_of_floor _ _ hfl]
    norm_num
  unfold Float64.ofRat
  rw [hr, if_neg (by unfold Float64.overflow; norm_num),
    if_neg (by unfold Float64.overflow; norm_num)]

/-- The `float64` of a number whose rounding is known and below the overflow
magnitude. -/
theorem Float64.ofRat_of_round_eq (q r : ℚ) (hr : Float64.round q = r)
    (hlo : -Float64.overflow < r) (hhi : r < Float64.overflow) :
    Float64.ofRat q = .finite r := by
  unfold Float64.ofRat
  rw [hr, if_neg (not_le.mpr hhi), if_neg (not_le.mpr hlo)]

/-- Two to the power 53, plus 4, is a `float64`. -/
theorem Float64.ofRat_min_exact :
    Float64.ofRat (9007199254740996 : ℚ) = .finite 9007199254740996 := by
  apply Float64.ofRat_of_round_eq
  · rw [Float64.round_eq _ 53 (by norm_num) (by rw [abs_of_pos (by norm_num)]; norm_num)
      (by rw [abs_of_pos (by norm_num)]; norm_num)]
    have hfl : Int.floor ((9007199254740996 : ℚ) / (2 : ℚ) ^ ((53 : Int) - 52)) =
        4503599627370498 := by
      rw [Int.floor_eq_iff]
      constructor <;> norm_num
    rw [roundHalfEven_of_floor _ _ hfl]
    norm_num
  · unfold Float64.overflow; norm_num
  · unfold Float64.overflow; norm_num

/-- Two to the power 54, plus 8, is a `float64`. -/
theorem Float64.ofRat_min_doubled :
    Float64.ofRat (18014398509481992 : ℚ) = .finite 18014398509481992 := by
  apply Float64.ofRat_of_round_eq
  · rw [Float64.round_eq _ 54 (by norm_num) (by rw [abs_of_pos (by norm_num)]; norm_num)
      (by rw [abs_of_pos (by norm_num)]; norm_num)]
    have hfl : Int.floor ((18014398509481992 : ℚ) / (2 : ℚ) ^ ((54 : Int) - 52)) =
        4503599627370498 := by
      rw [Int.floor_eq_iff]
      constructor <;> norm_num
    rw [roundHalfEven_of_floor _ _ hfl]
    norm_num
  · unfold Float64.overflow; norm_num
  · unfold Float64.overflow; norm_num


/-- The first call of `next` on the backoff with min 9007199254740996 and max
9007199254740995: the maximum rounds up to the minimum as a `float64`, so the call
is not capped. -/
theorem backoff.next_above_rounded_max (indefinite : Int) :
    backoff.next indefinite { min := 9007199254740996, max := 9007199254740995 } =
      (9007199254740996, { min := 9007199254740996, max := 9007199254740995, n := 1 }) := by
  have hc0 := Float64.round_counter 0 (by norm_num)
  simp only [Nat.cast_zero] at hc0
  have hd : (9007199254740996 : ℚ) = ((9007199254740996 : Int) : ℚ) := by norm_num
  unfold backoff.next
  simp only [Int.cast_ofNat, Float64.ofRat_min_exact, Float64.ofRat_max_rounds_up,
    Nat.cast_zero, hc0, Float64.Pow_zero, Float64.mul_finite, mul_one, Float64.lt_finite,
    lt_self_iff_false, decide_False, Bool.false_eq_true, if_false]
  rw [Float64.toDuration_finite _ _ (by norm_num), hd, toDuration_intCast]
  rfl

/-- The capped call of `next` on the same backoff returns the rounded maximum. -/
theorem backoff.next_capped_above_max (indefinite : Int) :
    backoff.next indefinite { min := 9007199254740996, max := 9007199254740995, n := 1 } =
      (9007199254740996, { min := 9007199254740996, max := 9007199254740995, n := 1 }) := by
  have hc1 := Float64.round_counter 1 (by norm_num)
  simp only [Nat.cast_one] at hc1
  have hd : (9007199254740996 : ℚ) = ((9007199254740996 : Int) : ℚ) := by norm_num
  have hlt : Float64.lt (.finite 0) (.finite 1) = true := by
    rw [Float64.lt_finite]; norm_num
  have hpw : Float64.Pow (.finite 2) 1 = .finite 2 := by
    rw [Float64.Pow_two, if_pos (by norm_num), pow_one]
  have hm : (9007199254740996 : ℚ) * 2 = 18014398509481992 := by norm_num
  have hcmp : Float64.lt (.finite 9007199254740996) (.finite 18014398509481992) = true := by
    rw [Float64.lt_finite]; norm_num
  unfold backoff.next
  simp only [Int.cast_ofNat, Float64.ofRat_min_exact, Float64.ofRat_max_rounds_up,
    Nat.cast_one, hc1, hlt, if_true, hpw, Float64.mul_finite, hm, Float64.ofRat_min_doubled,
    hcmp]
  rw [Float64.toDuration_finite _ _ (by norm_num), hd, toDuration_intCast]

/-- The call of `next` at the counter 1 on the backoff with min 0, max 10 and the
factor two to the power 1023. -/
theorem backoff.next_zero_before_overflow (indefinite : Int) :
    backoff.next indefinite { factor := .finite (2 ^ 1023), max := 10, n := 1 } =
      (0, { factor := .finite (2 ^ 1023), max := 10, n := 2 }) := by
  have hc1 := Float64.round_counter 1 (by norm_num)
  simp only [Nat.cast_one] at hc1
  have hlt : Float64.lt (.finite (2 ^ 1023)) (.finite 1) = false := by
    rw [Float64.lt_finite]; norm_num
  have hpw : Float64.Pow (.finite (2 ^ 1023)) 1 = .finite (2 ^ 1023) := by
    rw [Float64.Pow_finite _ _ (by norm_num), pow_one, Float64.ofRat_two_pow,
      if_pos (by norm_num)]
  have h10 : Float64.ofRat (10 : ℚ) = .finite 10 := by
    have := Float64.ofRat_intCast 10 (by norm_num)
    simpa using this
  have hcmp : Float64.lt (.finite 10) (.finite 0) = false := by
    rw [Float64.lt_finite]; norm_num
  have hd : (0 : ℚ) = ((0 : Int) : ℚ) := by norm_num
  unfold backoff.next
  simp only [Int.cast_ofNat, Int.cast_zero, Float64.ofRat_zero, h10, Nat.cast_one, hc1, hlt,
    Bool.false_eq_true, if_false, hpw, Float64.mul_finite, zero_mul, hcmp]
  rw [Float64.toDuration_finite _ _ (by norm_num), hd, toDuration_intCast]
  rfl

/-- The call of `next` at the counter 2 on the same backoff: the power overflows
and the product is not a number. -/
theorem backoff.next_not_a_number (indefinite : Int) :
    backoff.next indefinite { factor := .finite (2 ^ 1023), max := 10, n := 2 } =
      (indefinite, { factor := .finite (2 ^ 1023), max := 10, n := 3 }) := by
  have hc2 := Float64.round_counter 2 (by norm_num)
  simp only [Nat.cast_ofNat] at hc2
  have hlt : Float64.lt (.finite (2 ^ 1023)) (.finite 1) = false := by
    rw [Float64.lt_finite]; norm_num
  have hpw : Float64.Pow (.finite (2 ^ 1023)) 2 = .inf false := by
    rw [Float64.Pow_finite _ _ (by norm_num), ← pow_mul, Float64.ofRat_two_pow,
      if_neg (by norm_num)]
  have h10 : Float64.ofRat (10 : ℚ) = .finite 10 := by
    have := Float64.ofRat_intCast 10 (by norm_num)
    simpa using this
  unfold backoff.next
  simp only [Int.cast_ofNat, Int.cast_zero, Float64.ofRat_zero, h10, Nat.cast_ofNat, hc2, hlt,
    Bool.false_eq_true, if_false, hpw, Float64.mul_zero_inf, Float64.lt_NaN,
    Float64.toDuration_NaN]
  rfl

/-- The loop of `Dial` over `k` failed dials in a row: one log entry for each, with
the delay that `next` gives after as many calls, and the backoff after `k` calls. -/
theorem dialLoop_failures (indefinite : Int) (hooks : List OnConnectHook) (dials : List Bool)
    (k : Nat) : ∀ (b : backoff) (c : Connection), c.conn = false →
    dialLoop indefinite hooks (List.replicate k false ++ dials) b c =
      dialLoop indefinite hooks dials (b.after indefinite k)
        { c with log := c.log ++ (List.range k).map fun i =>
            ({ level := "error", msg := "connection failed".toList,
               params := [("connection", .text c.Name),
                 ("retry", .duration ((b.after indefinite i).next indefinite).1)] }
              : LogEntry) } := by
  induction k with
  | zero =>
    intro b c _
    simp [backoff.after]
  | succ k ih =>
    intro b c hc
    rw [List.replicate_succ, List.cons_append, dialLoop, if_neg (by simp [hc]), if_pos rfl]
    have h := ih (b.next indefinite).2
      { c with log := c.log ++
        [({ level := "error", msg := "connection failed".toList,
            params := [("connection", .text c.Name),
              ("retry", .duration (b.next indefinite).1)] } : LogEntry)] } hc
    refine h.trans ?_
    rw [backoff.after_next, List.range_succ_eq_map, List.map_cons, List.map_map]
    simp only [List.append_assoc, List.singleton_append, backoff.after]
    congr 4
    apply List.map_congr_left
    intro i _
    simp only [Function.comp, backoff.after_next]

/-- The line as `ParseMessage` sees it: the parse depends on the line only through
what is left of it once one final CRLF is cut. -/
theorem ParseMessage_of_TrimSuffix (now : Nat) (raw raw' : GoString)
    (h : TrimSuffix raw "\r\n".toList = TrimSuffix raw' "\r\n".toList) :
    ParseMessage now raw = ParseMessage now raw' := by
  unfold ParseMessage
  simp only [h]

/-- The parse of a line that is `"PING :" ++ tok` once one final CRLF is cut. -/
theorem ParseMessage_ping_trimmed (now : Nat) (raw tok : GoString)
    (htrim : TrimSuffix raw "\r\n".toList = "PING :".toList ++ tok) :
    ParseMessage now raw =
      .ok { CreatedAt := now, RawMsg := "PING :".toList ++ tok, Command := "PING".toList,
            MessageType := .MessageTypeCommand, Trail := tok, Parsed := true } := by
  have hstage := ParseMessage_of_stages now raw ("PING :".toList ++ tok)
    ("PING :".toList ++ tok) none none
    (by rw [htrim]; exact parseTagsSection_plain 'P' ("ING :".toList ++ tok) (by decide))
    (parsePrefixSection_plain 'P' ("ING :".toList ++ tok) (by decide))
  have hsplit := parseParams_split
    { CreatedAt := now, RawMsg := "PING :".toList ++ tok } "PING".toList tok "PING".toList []
    rfl rfl
  rw [hstage, htrim]
  show parseParams _ ("PING".toList ++ " :".toList ++ tok) = _
  rw [hsplit]
  rfl

/-- Cutting one final CRLF from `"PING :" ++ tok` cuts it from `tok`. -/
theorem TrimSuffix_ping (tok : GoString) :
    TrimSuffix ("PING :".toList ++ tok) "\r\n".toList =
      "PING :".toList ++ TrimSuffix tok "\r\n".toList := by
  have hs : HasSuffix ("PING :".toList ++ tok) "\r\n".toList = HasSuffix tok "\r\n".toList :=
    HasSuffix_crlf_append "PING ".toList ':' tok (by decide) (by decide)
  by_cases h : HasSuffix tok "\r\n".toList = true
  · have hsuf : "\r\n".toList <:+ tok := by
      simpa [HasSuffix, List.isSuffixOf_iff_suffix] using h
    obtain ⟨x, hx⟩ := hsuf
    subst hx
    rw [TrimSuffix_append, ← List.append_assoc, TrimSuffix_append]
  · have h0 : HasSuffix tok "\r\n".toList = false := by simpa using h
    rw [TrimSuffix_of_not_HasSuffix _ _ h0, TrimSuffix_of_not_HasSuffix _ _ (hs.trans h0)]

/-- Decoding a line that, once one final CRLF is cut, is a line from server `s`:
tokens, then `" :"` and the trailing text. -/
theorem ParseMessage_server_line_trimmed (now : Nat) (raw cmd : GoString)
    (params : List GoString) (trail : GoString)
    (htok : ∀ t ∈ cmd :: params, t ≠ [] ∧ ∀ c ∈ t, isSpace c = false)
    (hparams : ∀ p ∈ params, p.head? ≠ some ':')
    (htrim : TrimSuffix raw "\r\n".toList =
      ":s ".toList ++ (Join (cmd :: params) " ".toList ++ " :".toList ++ trail)) :
    ParseMessage now raw =
      .ok { PrefixSection := some { RawPrefix := "s".toList }
            Command := cmd
            MessageType := classify cmd
            Params := params
            Trail := trail
            CreatedAt := now
            RawMsg := ":s ".toList ++ (Join (cmd :: params) " ".toList ++ " :".toList ++ trail)
            Parsed := true } := by
  have hstage := ParseMessage_of_stages now raw _ _ none _
    (by rw [htrim]; exact parseTagsSection_plain ':' (_ ++ _) (by decide))
    (parsePrefixSection_server (Join (cmd :: params) " ".toList ++ " :".toList ++ trail))
  have hsp : ∀ t ∈ cmd :: params, ∀ c ∈ t, c ≠ ' ' :=
    fun t ht => not_space_of_isSpace_false t (htok t ht).2
  have hcolon : ∀ t ∈ (cmd :: params).tail, t ≠ [] ∧ t.head? ≠ some ':' :=
    fun t ht => ⟨(htok t (List.mem_cons_of_mem _ ht)).1, hparams t ht⟩
  rw [hstage, htrim, parseParams_split _ _ trail cmd params (Index_Join_tokens _ hsp hcolon)
    (Fields_Join _ htok)]
  cases params <;> simp

/-- The names reply for the tracked channel `ch`, as any line that is the reply once
one final CRLF is cut: the default hooks merge the nicks into the member map. -/
theorem names_line_handled (now : Nat) (c : Connection) (ch : GoString) (chan : Channel)
    (ns : List GoString) (raw : GoString)
    (htracked : c.channels.lookup ch = some chan)
    (hch : ch ≠ [] ∧ (∀ x ∈ ch, isSpace x = false) ∧ ch.head? ≠ some ':')
    (hne : ns ≠ [])
    (hnick : ∀ n ∈ ns, n ≠ [] ∧ ' ' ∉ n)
    (hfac : c.ReplyFactory.lookup .ReplyTypeNames = none)
    (htrim : TrimSuffix raw "\r\n".toList =
      ":s 353 me = ".toList ++ ch ++ " :".toList ++ Join ns " ".toList) :
    handleLine now defaultOnCommand defaultOnReply c raw =
      .ok { c with channels := (c.channels.store ch
        { chan with Status :=
            { chan.Status with Nicks := mergeNames chan.Status.Nicks ns } }) } := by
  have hline₁ : ":s 353 me = ".toList ++ ch ++ " :".toList ++ Join ns " ".toList =
      ":s ".toList ++ (Join ("353".toList :: ["me".toList, "=".toList, ch]) " ".toList ++
        " :".toList ++ Join ns " ".toList) := rfl
  have htok₁ : ∀ t ∈ "353".toList :: ["me".toList, "=".toList, ch],
      t ≠ [] ∧ ∀ x ∈ t, isSpace x = false := by
    intro t ht
    simp only [List.mem_cons, List.mem_singleton, List.not_mem_nil, or_false] at ht
    rcases ht with rfl | rfl | rfl | rfl
    · exact ⟨by decide, by decide⟩
    · exact ⟨by decide, by decide⟩
    · exact ⟨by decide, by decide⟩
    · exact ⟨hch.1, hch.2.1⟩
  have hpar₁ : ∀ p ∈ ["me".toList, "=".toList, ch], p.head? ≠ some ':' := by
    intro p hp
    simp only [List.mem_cons, List.mem_singleton, List.not_mem_nil, or_false] at hp
    rcases hp with rfl | rfl | rfl
    · decide
    · decide
    · exact hch.2.2
  have hdec₁ := ParseMessage_server_line_trimmed now raw _ _ (Join ns " ".toList) htok₁ hpar₁
    (htrim.trans hline₁)
  have hnames : Split (Join ns [' ']) [' '] = ns :=
    Split_Join_single ' ' ns hne (fun n hn => (hnick n hn).2)
  have hc353 : classify "353".toList = .MessageTypeReply := by decide
  have hm353 : ReplyTypeMapping "353".toList = some .ReplyTypeNames := by decide
  simp only [handleLine, Connection.decodeAndMapMessage, RawMessageDecoder.Decode, hdec₁,
    hc353, hm353, hfac, DefaultReplyFactory, dispatch, MessageObject.Message,
    defaultOnReply, runOnReply, defaultConnectionStatusUpdater, defaultChannelMemberUpdater,
    NamesReply.Channel, NamesReply.Names, index]
  simp [htracked, hnames]

/-- The end-of-names reply for the tracked channel `ch`, as any line that is the
reply once one final CRLF is cut: the default hooks log the members and leave the
channels as they are. -/
theorem end_of_names_line_handled (now : Nat) (c : Connection) (ch : GoString)
    (chan : Channel) (raw : GoString)
    (htracked : c.channels.lookup ch = some chan)
    (hch : ch ≠ [] ∧ (∀ x ∈ ch, isSpace x = false) ∧ ch.head? ≠ some ':')
    (hfac : c.ReplyFactory.lookup .ReplyTypeEndOfNames = none)
    (htrim : TrimSuffix raw "\r\n".toList =
      ":s 366 me ".toList ++ ch ++ " :End of /NAMES list.".toList) :
    handleLine now defaultOnCommand defaultOnReply c raw =
      .ok { c with log := c.log ++
        [{ level := "debug", msg := ch,
           params := [("members", .text (Join chan.Status.Nicks.keys ", ".toList))] }] } := by
  have hline₂ : ":s 366 me ".toList ++ ch ++ " :End of /NAMES list.".toList =
      ":s ".toList ++ (Join ("366".toList :: ["me".toList, ch]) " ".toList ++
        " :".toList ++ "End of /NAMES list.".toList) := by
    simp [Join]
  have htok₂ : ∀ t ∈ "366".toList :: ["me".toList, ch],
      t ≠ [] ∧ ∀ x ∈ t, isSpace x = false := by
    intro t ht
    simp only [List.mem_cons, List.mem_singleton, List.not_mem_nil, or_false] at ht
    rcases ht with rfl | rfl | rfl
    · exact ⟨by decide, by decide⟩
    · exact ⟨by decide, by decide⟩
    · exact ⟨hch.1, hch.2.1⟩
  have hpar₂ : ∀ p ∈ ["me".toList, ch], p.head? ≠ some ':' := by
    intro p hp
    simp only [List.mem_cons, List.mem_singleton, List.not_mem_nil, or_false] at hp
    rcases hp with rfl | rfl
    · decide
    · exact hch.2.2
  have hdec₂ := ParseMessage_server_line_trimmed now raw _ _ "End of /NAMES list.".toList
    htok₂ hpar₂ (htrim.trans hline₂)
  have hc366 : classify "366".toList = .MessageTypeReply := by decide
  have hm366 : ReplyTypeMapping "366".toList = some .ReplyTypeEndOfNames := by decide
  simp only [handleLine, Connection.decodeAndMapMessage, RawMessageDecoder.Decode, hdec₂,
    hc366, hm366, hfac, DefaultReplyFactory, dispatch, MessageObject.Message,
    defaultOnReply, runOnReply, defaultConnectionStatusUpdater, defaultChannelMemberUpdater,
    EndOfNamesReply.Channel, index]
  simp [htracked]

theorem GoMap.lookup_ne_none_of_mem_keys {κ β : Type} [DecidableEq κ] (m : GoMap κ β) (k : κ)
    (h : k ∈ m.keys) : m.lookup k ≠ none := by
  induction m with
  | nil => simp [GoMap.keys] at h
  | cons e m ih =>
    obtain ⟨k', v'⟩ := e
    by_cases hk : k' = k
    · simp [GoMap.lookup, hk]
    · have hm : k ∈ GoMap.keys m := by
        simp only [GoMap.keys, List.map_cons, List.mem_cons] at h
        rcases h with h | h
        · exact absurd h.symm hk
        · exact h
      simp only [GoMap.lookup, hk, if_false]
      exact ih hm

/-- What `cleanupChannels` leaves under each key: a new channel of the name of the
key under every tracked key, and nothing under any other. -/
theorem cleanupChannels_lookup (c : Connection) (k : GoString) :
    (cleanupChannels c).2.channels.lookup k =
      (c.channels.lookup k).map fun _ => NewChannel k := by
  obtain ⟨hkeys, hlook, -⟩ := cleanupChannels_channels c
  cases h : c.channels.lookup k with
  | some v =>
    rw [hlook k (GoMap.mem_keys_of_lookup _ k v h)]
    rfl
  | none =>
    cases h' : (cleanupChannels c).2.channels.lookup k with
    | none => rfl
    | some ch =>
      have hk : k ∈ c.channels.keys := hkeys ▸ GoMap.mem_keys_of_lookup _ k ch h'
      exact absurd h (GoMap.lookup_ne_none_of_mem_keys _ k hk)

/-! ## The claims -/

/-- Claim C1, evaluated on the code: the accepted line `+12 x` has the command token
`+12`, which is not three ASCII digits, and `ParseMessage` classifies it as a
Reply, because `strconv.Atoi` accepts a sign before two digits. -/
theorem ParseMessage_signed_token_is_reply (now : Nat) :
    ∃ m, ParseMessage now "+12 x".toList = .ok m ∧ m.Command = "+12".toList ∧
      m.MessageType = .MessageTypeReply :=
  ⟨_, rfl, rfl, rfl⟩

/-- Claim C2, evaluated on the code: `ParseMessage` panics, with an index or a
slice out of range, on the empty string, on a line that is only CRLF, on a line of
white space, on a tag block followed by a space, on a prefix followed by a space,
on a tag block with an empty tag segment, and on a prefix with `@` before `!`. -/
theorem ParseMessage_panics_on_degenerate_lines (now : Nat) :
    isGoPanic (ParseMessage now "".toList) = true ∧
    isGoPanic (ParseMessage now "\r\n".toList) = true ∧
    isGoPanic (ParseMessage now " \t ".toList) = true ∧
    isGoPanic (ParseMessage now "@a ".toList) = true ∧
    isGoPanic (ParseMessage now ":a ".toList) = true ∧
    isGoPanic (ParseMessage now "@a;;b PING".toList) = true ∧
    isGoPanic (ParseMessage now ":a@b!c PING".toList) = true :=
  ⟨rfl, rfl, rfl, rfl, rfl, rfl, rfl⟩

/-- Claim C3, evaluated on the code: on the line `@ :abc`, whose tag block is empty
and whose remainder `:abc` starts with `:` and holds no space, `ParseMessage`
returns no error: it panics on the first byte of the empty tag key. -/
theorem ParseMessage_panics_on_empty_tag_block (now : Nat) :
    ParseMessage now "@ :abc".toList = .error (.goPanic "index out of range") :=
  rfl

/-- Claim C4, evaluated on the code: the remainder of `@a=b=c PRIVMSG #t :hi` after
its tag block is `PRIVMSG #t` ++ `" :"` ++ `hi`, and the value `b=c` of its tag is
one that the grammar in the comment on `ParseMessage` allows (message.go:34,38);
`ParseMessage` returns the error "invalid tag format", not a message whose Trail is
`hi`, because `parseTag` splits the tag at every `=` and refuses three parts. -/
theorem ParseMessage_rejects_tag_with_two_equals :
    ParseMessage 0 "@a=b=c PRIVMSG #t :hi".toList =
        .error (.goError "failed to parse message: invalid tag format") ∧
    ¬ ∃ m, ParseMessage 0 "@a=b=c PRIVMSG #t :hi".toList = .ok m ∧ m.Trail = "hi".toList := by
  have h : ParseMessage 0 "@a=b=c PRIVMSG #t :hi".toList =
      .error (.goError "failed to parse message: invalid tag format") := rfl
  refine ⟨h, ?_⟩
  rintro ⟨m, hm, -⟩
  rw [h] at hm
  cases hm

/-- The split at the trailing text: for every line whose tag block and prefix
`ParseMessage` parses without failing, leaving the remainder `rest`: if `rest` is
`left ++ " :" ++ right`, where `left` holds no `" :"` and its fields are `cmd`
followed by `params`, then `ParseMessage` succeeds with Trail `right`, Command
`cmd` and Params `params`; and if `rest` holds no `" :"` and its fields are `cmd`
followed by `params`, it succeeds with an empty Trail, Command `cmd` and Params
`params`. -/
theorem ParseMessage_trailing_split (now : Nat) (raw rest₁ rest : GoString)
    (tags : Option TagsSection) (pfx : Option PrefixSection)
    (htags : parseTagsSection (TrimSuffix raw "\r\n".toList) = .ok (tags, rest₁))
    (hpfx : parsePrefixSection rest₁ = .ok (pfx, rest)) :
    (∀ (left right cmd : GoString) (params : List GoString),
      rest = left ++ " :".toList ++ right → Index left " :".toList = none →
      Fields left = cmd :: params →
      ∃ m, ParseMessage now raw = .ok m ∧ m.Trail = right ∧ m.Command = cmd ∧
        m.Params = params) ∧
    (Index rest " :".toList = none →
      ∀ (cmd : GoString) (params : List GoString), Fields rest = cmd :: params →
      ∃ m, ParseMessage now raw = .ok m ∧ m.Trail = [] ∧ m.Command = cmd ∧
        m.Params = params) := by
  have hstage := ParseMessage_of_stages now raw rest₁ rest tags pfx htags hpfx
  constructor
  · intro left right cmd params hform hleft hfields
    rw [hstage, hform, parseParams_split _ left right cmd params hleft hfields]
    refine ⟨_, rfl, rfl, rfl, ?_⟩
    cases params <;> simp
  · intro hno cmd params hfields
    rw [hstage, parseParams_nosplit _ rest cmd params hno hfields]
    refine ⟨_, rfl, rfl, rfl, ?_⟩
    cases params <;> simp

/-- An instance of `ParseMessage_trailing_split`: the line
`:nick!~u@host PRIVMSG #t :a: b` yields Trail `a: b`, Command `PRIVMSG` and
Params `[#t]`. -/
theorem ParseMessage_trailing_split_witness :
    Index "PRIVMSG #t".toList " :".toList = none ∧
    Fields "PRIVMSG #t".toList = ["PRIVMSG".toList, "#t".toList] ∧
    ∃ m, ParseMessage 0 ":nick!~u@host PRIVMSG #t :a: b".toList = .ok m ∧
      m.Trail = "a: b".toList ∧ m.Command = "PRIVMSG".toList ∧ m.Params = ["#t".toList] :=
  ⟨rfl, rfl,
    (ParseMessage_trailing_split 0 ":nick!~u@host PRIVMSG #t :a: b".toList
      ":nick!~u@host PRIVMSG #t :a: b".toList "PRIVMSG #t :a: b".toList none
      (some { Nick := "nick".toList, Ident := "~u".toList, Host := "host".toList,
              RawPrefix := "nick!~u@host".toList })
      rfl rfl).1 "PRIVMSG #t".toList "a: b".toList "PRIVMSG".toList ["#t".toList] rfl rfl rfl⟩

/-- Claim C5: for every message, `RawMessageEncoder.Encode` returns no error and the
string made of Command, a space, Params followed by `":" ++ Trail` when Trail is
not empty, joined by single spaces, and CRLF; and the message afterwards is the
same message with `RawMsg` set to that string without the CRLF. -/
theorem RawMessageEncoder_Encode_wire (m : Message) :
    (RawMessageEncoder.Encode m).1 =
        .ok (m.Command ++ " ".toList ++
          Join (m.Params ++ if m.Trail = [] then [] else [":".toList ++ m.Trail]) " ".toList ++
          "\r\n".toList) ∧
    (RawMessageEncoder.Encode m).2 =
        { m with RawMsg := (m.Command ++ " ".toList ++
          Join (m.Params ++ if m.Trail = [] then [] else [":".toList ++ m.Trail]) " ".toList) } ∧
    (RawMessageEncoder.Encode m).2.Command = m.Command ∧
    (RawMessageEncoder.Encode m).2.Params = m.Params ∧
    (RawMessageEncoder.Encode m).2.Trail = m.Trail ∧
    (RawMessageEncoder.Encode m).2.MessageType = m.MessageType ∧
    (RawMessageEncoder.Encode m).2.PrefixSection = m.PrefixSection ∧
    (RawMessageEncoder.Encode m).2.TagsSection = m.TagsSection := by
  refine ⟨?_, ?_, rfl, rfl, rfl, rfl, rfl, rfl⟩
  · unfold RawMessageEncoder.Encode
    by_cases h : m.Trail = [] <;> simp [h]
  · unfold RawMessageEncoder.Encode
    by_cases h : m.Trail = [] <;> simp [h]

/-- Claim C6: `NewPassCommand(p).Encode()` is `"PASS " ++ p ++ CRLF`,
`NewJoinCommand(cs...).Encode()` is `"JOIN "`, the channels joined by commas, and
CRLF, and for a non-empty text `x`, `NewPrivmsgCommand(t, x).Encode()` is
`"PRIVMSG " ++ t ++ " :" ++ x ++ CRLF`, each with a nil error. -/
theorem constructors_Encode (p : GoString) (cs : List GoString) (t x : GoString)
    (hx : x ≠ []) :
    (NewPassCommand p).Encode.1 = .ok ("PASS ".toList ++ p ++ "\r\n".toList) ∧
    (NewJoinCommand cs).Encode.1 =
      .ok ("JOIN ".toList ++ Join cs ",".toList ++ "\r\n".toList) ∧
    (NewPrivmsgCommand t x).Encode.1 =
      .ok ("PRIVMSG ".toList ++ t ++ " :".toList ++ x ++ "\r\n".toList) := by
  refine ⟨?_, ?_, ?_⟩
  · simp [NewPassCommand, Command.Encode, Command.Message, RawMessageEncoder.Encode, Join]
  · simp [NewJoinCommand, Command.Encode, Command.Message, RawMessageEncoder.Encode, Join]
  · simp [NewPrivmsgCommand, Command.Encode, Command.Message, RawMessageEncoder.Encode, Join, hx]

/-- Witness of `constructors_Encode`: the three commands of the test
`TestCommandEncoding`. -/
theorem constructors_Encode_witness :
    "hi".toList ≠ [] ∧
    (NewPassCommand "x".toList).Encode.1 = .ok "PASS x\r\n".toList ∧
    (NewJoinCommand ["#a".toList, "&b".toList, "#c".toList]).Encode.1 =
      .ok "JOIN #a,&b,#c\r\n".toList ∧
    (NewPrivmsgCommand "#t".toList "hi".toList).Encode.1 = .ok "PRIVMSG #t :hi\r\n".toList :=
  ⟨by decide,
    constructors_Encode "x".toList ["#a".toList, "&b".toList, "#c".toList] "#t".toList
      "hi".toList (by decide)⟩

/-- Claim C7 as stated fails: each of the lines `:p :c x`, `:p @c d` and `A<TAB>:b`
is accepted, and parsing the encoding of its message gives another Command, or
other Params and Trail. -/
theorem roundtrip_fails_on_leading_colon_or_at :
    (∃ m wire m', ParseMessage 0 ":p :c x".toList = .ok m ∧
      (RawMessageEncoder.Encode m).1 = .ok wire ∧ ParseMessage 0 wire = .ok m' ∧
      m.Command = ":c".toList ∧ m'.Command = "x".toList) ∧
    (∃ m wire m', ParseMessage 0 ":p @c d".toList = .ok m ∧
      (RawMessageEncoder.Encode m).1 = .ok wire ∧ ParseMessage 0 wire = .ok m' ∧
      m.Command = "@c".toList ∧ m'.Command = "d".toList) ∧
    (∃ m wire m', ParseMessage 0 "A\t:b".toList = .ok m ∧
      (RawMessageEncoder.Encode m).1 = .ok wire ∧ ParseMessage 0 wire = .ok m' ∧
      m.Params = [":b".toList] ∧ m.Trail = [] ∧ m'.Params = [] ∧ m'.Trail = "b".toList) :=
  ⟨⟨_, _, _, rfl, rfl, rfl, rfl, rfl⟩, ⟨_, _, _, rfl, rfl, rfl, rfl, rfl⟩,
    ⟨_, _, _, rfl, rfl, rfl, rfl, rfl, rfl, rfl⟩⟩

/-- Claim C7, amended: for every line that `ParseMessage` accepts, producing a
message whose Command starts with neither `@` nor `:` and none of whose Params
starts with `:`, encoding the message with `RawMessageEncoder.Encode` and parsing
the encoded string succeeds and yields the same Command, Params and Trail. -/
theorem ParseMessage_Encode_roundtrip (now now' : Nat) (raw : GoString) (m : Message)
    (h : ParseMessage now raw = .ok m)
    (hcmd : m.Command.head? ≠ some '@' ∧ m.Command.head? ≠ some ':')
    (hparams : ∀ p ∈ m.Params, p.head? ≠ some ':') :
    ∃ wire m', (RawMessageEncoder.Encode m).1 = .ok wire ∧
      ParseMessage now' wire = .ok m' ∧
      m'.Command = m.Command ∧ m'.Params = m.Params ∧ m'.Trail = m.Trail := by
  obtain ⟨s, hs⟩ := ParseMessage_ok_fields now raw m h
  have htok : ∀ t ∈ m.Command :: m.Params, t ≠ [] ∧ ∀ c ∈ t, isSpace c = false := by
    intro t ht
    rw [← hs] at ht
    exact Fields_tokens s t ht
  obtain ⟨m', hm', h1, h2, h3, -, -⟩ :=
    ParseMessage_wire now' m.Command m.Params m.Trail htok hcmd hparams
  exact ⟨_, m', rfl, hm', h1, h2, h3⟩

/-- Witness of `ParseMessage_Encode_roundtrip`: the line
`:nick!~u@host PRIVMSG #t :a: b`. -/
theorem ParseMessage_Encode_roundtrip_witness :
    ∃ m, ParseMessage 0 ":nick!~u@host PRIVMSG #t :a: b".toList = .ok m ∧
      (m.Command.head? ≠ some '@' ∧ m.Command.head? ≠ some ':') ∧
      (∀ p ∈ m.Params, p.head? ≠ some ':') ∧
      ∃ wire m', (RawMessageEncoder.Encode m).1 = .ok wire ∧
        ParseMessage 1 wire = .ok m' ∧
        m'.Command = m.Command ∧ m'.Params = m.Params ∧ m'.Trail = m.Trail :=
  ⟨{ PrefixSection := some { Nick := "nick".toList, Ident := "~u".toList,
                             Host := "host".toList, RawPrefix := "nick!~u@host".toList }
     Command := "PRIVMSG".toList
     Params := ["#t".toList]
     Trail := "a: b".toList
     RawMsg := ":nick!~u@host PRIVMSG #t :a: b".toList
     Parsed := true },
    rfl, by decide, by decide,
    ParseMessage_Encode_roundtrip 0 1 ":nick!~u@host PRIVMSG #t :a: b".toList _ rfl
      (by decide) (by decide)⟩

/-- Claim C8, evaluated on the code: `EnqueueCommand` sends on the channel in the
field `out` whatever the state of the connection.  On the connection that `New`
returns, which `Dial` has not connected, the channel is nil and `EnqueueCommand` of
the valid command PRIVMSG `#t` `hi` does not return.  Once `Dial` has connected,
the call returns nil and appends the command to the queue, as the claim has it.
After the welcome reply and `Close`, the channel is closed and the same call
panics with "send on closed channel", where the claim has it return nil with the
command appended.  So it is for every connection without a socket and every
PRIVMSG with a text; a PRIVMSG with an empty text is refused with the validation
error in every state, the connection unchanged. -/
theorem EnqueueCommand_blocks_before_Dial_and_panics_after_Close :
    (NewPrivmsgCommand "#t".toList "hi".toList).Validate = .ok () ∧
    (∃ c₀ c₁ c₂ c₃,
      New 0 { Server := "irc.example.net:6667".toList, Nicks := ["me".toList] } = .ok c₀ ∧
      c₀.EnqueueCommand (NewPrivmsgCommand "#t".toList "hi".toList) = none ∧
      Connection.Dial 0 defaultOnConnect [true] c₀ = some (.ok (), c₁) ∧
      c₁.EnqueueCommand (NewPrivmsgCommand "#t".toList "hi".toList) =
        some (.ok (), { c₁ with out := c₁.out ++ [NewPrivmsgCommand "#t".toList "hi".toList] }) ∧
      handleLine 0 defaultOnCommand defaultOnReply c₁ ":s 001 me :Welcome\r\n".toList = .ok c₂ ∧
      Connection.Close defaultOnDisconnect c₂ = (.ok (), c₃) ∧
      c₃.EnqueueCommand (NewPrivmsgCommand "#t".toList "hi".toList) =
        some (.error (.goPanic "send on closed channel"), c₃)) ∧
    (∀ (c : Connection) (t : GoString) (a : Char) (x : GoString),
      Connection.EnqueueCommand { c with conn := false, closed := false }
          (NewPrivmsgCommand t (a :: x)) = none ∧
      Connection.EnqueueCommand { c with conn := false, closed := true }
          (NewPrivmsgCommand t (a :: x)) =
        some (.error (.goPanic "send on closed channel"),
          { c with conn := false, closed := true })) ∧
    (∀ (c : Connection) (t : GoString),
      c.EnqueueCommand (NewPrivmsgCommand t []) =
        some (.error (.goError ("failed to enqueue command; validation failed: " ++
          "PRIVMSG command: a message is required")), c)) := by
  refine ⟨rfl, ⟨_, _, _, _, rfl, rfl, rfl, rfl, rfl, rfl, rfl⟩, ?_, ?_⟩
  · intro c t a x
    constructor <;>
      simp [Connection.EnqueueCommand, NewPrivmsgCommand, Command.Validate]
  · intro c t
    simp [Connection.EnqueueCommand, NewPrivmsgCommand, Command.Validate]

/-- Claim C9 as stated fails: on a connection whose command factory maps PING to
another type, as the exported field `CommandFactory` allows, the line
`PING :server1`, with or without its CRLF, is no `PingCommand` for the hooks and
leads to no PONG: the outgoing queue stays empty. -/
theorem ping_pong_fails_on_factory_override :
    ((handleLine 0 defaultOnCommand defaultOnReply
        { CommandFactory := GoMap.store GoMap.empty .CommandTypePing .UnknownCommand }
        ("PING :".toList ++ "server1".toList)).toOption.map fun c => c.out) = some [] ∧
    ((handleLine 0 defaultOnCommand defaultOnReply
        { CommandFactory := GoMap.store GoMap.empty .CommandTypePing .UnknownCommand }
        ("PING :".toList ++ "server1".toList ++ "\r\n".toList)).toOption.map fun c => c.out) =
      some [] ∧
    ((handleLine 0 defaultOnCommand defaultOnReply {}
        ("PING :".toList ++ "server1".toList ++ "\r\n".toList)).toOption.map fun c => c.out) =
      some [NewPongCommand "server1".toList] :=
  ⟨rfl, rfl, rfl⟩

/-- Claim C9, amended: for every token `tok`, on a connection without a factory
override for PING, decoding and classifying the line `"PING :" ++ tok ++ CRLF`, as
the receive loop reads it, and running the default OnCommand hooks in order appends
exactly one command to the outgoing queue and changes nothing else: a PONG with no
parameters and Trail `tok`, which encodes to `"PONG :" ++ tok ++ CRLF` when `tok`
is not empty.  The decoder cuts exactly one final CRLF: the line `"PING :" ++ tok`
without the terminator is answered by the PONG whose Trail is `tok` less one final
CRLF, which is `tok` itself when `tok` does not end in CRLF.  For a command that
is not a PING the ping responder leaves the connection as it is. -/
theorem ping_answered_by_one_pong (now : Nat) (c : Connection) (tok : GoString)
    (hfac : c.CommandFactory.lookup .CommandTypePing = none) :
    handleLine now defaultOnCommand defaultOnReply c
        ("PING :".toList ++ tok ++ "\r\n".toList) =
      .ok { c with out := c.out ++ [NewPongCommand tok] } ∧
    handleLine now defaultOnCommand defaultOnReply c ("PING :".toList ++ tok) =
      .ok { c with out := c.out ++ [NewPongCommand (TrimSuffix tok "\r\n".toList)] } ∧
    (HasSuffix tok "\r\n".toList = false → TrimSuffix tok "\r\n".toList = tok) ∧
    TrimSuffix (tok ++ "\r\n".toList) "\r\n".toList = tok ∧
    (NewPongCommand tok).Message.Params = [] ∧
    (NewPongCommand tok).Message.Trail = tok ∧
    (tok ≠ [] →
      (NewPongCommand tok).Encode.1 = .ok ("PONG :".toList ++ tok ++ "\r\n".toList)) ∧
    (∀ cmd : Command, (∀ m, cmd ≠ .PingCommand m) → defaultPingResponder now c cmd = (.ok (), c)) := by
  have h1 : CommandTypeMapping "PING".toList = some .CommandTypePing := by decide
  have hline : ∀ raw t, TrimSuffix raw "\r\n".toList = "PING :".toList ++ t →
      handleLine now defaultOnCommand defaultOnReply c raw =
        .ok { c with out := c.out ++ [NewPongCommand t] } := by
    intro raw t htrim
    simp only [handleLine, Connection.decodeAndMapMessage, RawMessageDecoder.Decode,
      ParseMessage_ping_trimmed now raw t htrim]
    simp only [h1, hfac, DefaultCommandFactory, if_true]
    rfl
  refine ⟨hline _ tok (TrimSuffix_append _ _), hline _ _ (TrimSuffix_ping tok),
    TrimSuffix_of_not_HasSuffix _ _, TrimSuffix_append _ _, rfl, rfl, ?_, ?_⟩
  · intro hne
    simp [NewPongCommand, Command.Encode, Command.Message, RawMessageEncoder.Encode, Join, hne]
  · intro cmd hcmd
    cases cmd <;> first | rfl | exact absurd rfl (hcmd _)

/-- Witness of `ping_answered_by_one_pong`: the line `PING :server1` with its CRLF,
on a connection with no factory override. -/
theorem ping_answered_by_one_pong_witness :
    ({} : Connection).CommandFactory.lookup .CommandTypePing = none ∧
    ((handleLine 0 defaultOnCommand defaultOnReply {} "PING :server1\r\n".toList).toOption.map
        fun c => c.out) = some [NewPongCommand "server1".toList] ∧
    (NewPongCommand "server1".toList).Encode.1 = .ok "PONG :server1\r\n".toList :=
  ⟨rfl,
    by
      have h := (ping_answered_by_one_pong 0 {} "server1".toList rfl).1
      rw [show "PING :".toList ++ "server1".toList ++ "\r\n".toList = "PING :server1\r\n".toList
        from rfl] at h
      rw [h]; rfl,
    (ping_answered_by_one_pong 0 {} "server1".toList rfl).2.2.2.2.2.2.1 (by decide)⟩

/-- Claim C10 as stated fails: the names reply and the end-of-names reply, each
with its CRLF, leave the member map of the tracked channel empty when its name is
`#a b`, with a space, when it is empty, and when it is `:x`; and on a connection
whose reply factory maps 353 to another type, as the exported field `ReplyFactory`
allows, the map of `#t` stays empty. -/
theorem names_reply_fails_on_odd_names_or_override :
    (((handleLine 0 defaultOnCommand defaultOnReply
          { channels := GoMap.store GoMap.empty "#a b".toList (NewChannel "#a b".toList) }
          (":s 353 me = ".toList ++ "#a b".toList ++ " :".toList ++
            Join ["n1".toList] " ".toList ++ "\r\n".toList)).bind
        fun c₁ => handleLine 0 defaultOnCommand defaultOnReply c₁
          (":s 366 me ".toList ++ "#a b".toList ++
            " :End of /NAMES list.".toList ++ "\r\n".toList)).toOption.map
      fun c₂ => (c₂.channels.lookup "#a b".toList).map fun chan => chan.Status.Nicks.keys) =
      some (some []) ∧
    (((handleLine 0 defaultOnCommand defaultOnReply
          { channels := GoMap.store GoMap.empty "".toList (NewChannel "".toList) }
          (":s 353 me = ".toList ++ "".toList ++ " :".toList ++
            Join ["n1".toList] " ".toList ++ "\r\n".toList)).bind
        fun c₁ => handleLine 0 defaultOnCommand defaultOnReply c₁
          (":s 366 me ".toList ++ "".toList ++
            " :End of /NAMES list.".toList ++ "\r\n".toList)).toOption.map
      fun c₂ => (c₂.channels.lookup "".toList).map fun chan => chan.Status.Nicks.keys) =
      some (some []) ∧
    (((handleLine 0 defaultOnCommand defaultOnReply
          { channels := GoMap.store GoMap.empty ":x".toList (NewChannel ":x".toList) }
          (":s 353 me = ".toList ++ ":x".toList ++ " :".toList ++
            Join ["n1".toList] " ".toList ++ "\r\n".toList)).bind
        fun c₁ => handleLine 0 defaultOnCommand defaultOnReply c₁
          (":s 366 me ".toList ++ ":x".toList ++
            " :End of /NAMES list.".toList ++ "\r\n".toList)).toOption.map
      fun c₂ => (c₂.channels.lookup ":x".toList).map fun chan => chan.Status.Nicks.keys) =
      some (some []) ∧
    (((handleLine 0 defaultOnCommand defaultOnReply
          { channels := GoMap.store GoMap.empty "#t".toList (NewChannel "#t".toList),
            ReplyFactory := GoMap.store GoMap.empty .ReplyTypeNames .UnknownCommand }
          (":s 353 me = ".toList ++ "#t".toList ++ " :".toList ++
            Join ["n1".toList] " ".toList ++ "\r\n".toList)).bind
        fun c₁ => handleLine 0 defaultOnCommand defaultOnReply c₁
          (":s 366 me ".toList ++ "#t".toList ++
            " :End of /NAMES list.".toList ++ "\r\n".toList)).toOption.map
      fun c₂ => (c₂.channels.lookup "#t".toList).map fun chan => chan.Status.Nicks.keys) =
      some (some []) :=
  ⟨rfl, rfl, rfl, rfl⟩

/-- Claim C10, amended: for every tracked channel `ch` whose name is not empty,
holds no white space and does not start with `:`, and whose member map is empty,
and every list `ns` of one or more non-empty, space-free nicks, on a connection
without a factory override for 353 and 366: handling the names reply
`":s 353 me = " ++ ch ++ " :" ++ ns` joined by single spaces, followed by CRLF as
the receive loop reads it, through `decodeAndMapMessage` and the default hooks,
and then an end-of-names reply for `ch` (any such reply object, and the decoded
line `":s 366 me " ++ ch ++ " :End of /NAMES list."` with its CRLF), leaves the
member map of `ch` with exactly the nicks of `ns` as keys, each key `k` mapped to
a Nick whose Name is `k`.  The decoder cuts exactly one final CRLF, so the same
holds of the two lines without their terminator, when the last nick does not end
in CRLF. -/
theorem names_reply_fills_member_map (now₁ now₂ : Nat) (c : Connection) (ch : GoString)
    (chan : Channel) (ns : List GoString)
    (htracked : c.channels.lookup ch = some chan)
    (hempty : chan.Status.Nicks = GoMap.empty)
    (hch : ch ≠ [] ∧ (∀ x ∈ ch, isSpace x = false) ∧ ch.head? ≠ some ':')
    (hne : ns ≠ [])
    (hnick : ∀ n ∈ ns, n ≠ [] ∧ ' ' ∉ n)
    (hfac : c.ReplyFactory.lookup .ReplyTypeNames = none ∧
      c.ReplyFactory.lookup .ReplyTypeEndOfNames = none) :
    ∃ c₁ chan',
      handleLine now₁ defaultOnCommand defaultOnReply c
        (":s 353 me = ".toList ++ ch ++ " :".toList ++ Join ns " ".toList ++ "\r\n".toList) =
          .ok c₁ ∧
      (HasSuffix (ns.getLast hne) "\r\n".toList = false →
        handleLine now₁ defaultOnCommand defaultOnReply c
          (":s 353 me = ".toList ++ ch ++ " :".toList ++ Join ns " ".toList) = .ok c₁) ∧
      (∀ m₂ : Message, m₂.MessageType = .MessageTypeReply →
        EndOfNamesReply.Channel m₂ = .ok ch →
        ∃ c₂, dispatch now₂ defaultOnCommand defaultOnReply c₁ (.EndOfNamesReply m₂) = .ok c₂ ∧
          c₂.channels.lookup ch = some chan') ∧
      (∃ c₂, handleLine now₂ defaultOnCommand defaultOnReply c₁
          (":s 366 me ".toList ++ ch ++ " :End of /NAMES list.".toList ++ "\r\n".toList) =
            .ok c₂ ∧
        handleLine now₂ defaultOnCommand defaultOnReply c₁
          (":s 366 me ".toList ++ ch ++ " :End of /NAMES list.".toList) = .ok c₂ ∧
        c₂.channels.lookup ch = some chan') ∧
      (∀ k, k ∈ chan'.Status.Nicks.keys ↔ k ∈ ns) ∧
      (∀ k ∈ ns, chan'.Status.Nicks.lookup k = some { Name := k }) := by
  let chan' : Channel :=
    { chan with Status := { chan.Status with Nicks := mergeNames chan.Status.Nicks ns } }
  let c₁ : Connection := { c with channels := c.channels.store ch chan' }
  have hl : c₁.channels.lookup ch = some chan' := GoMap.lookup_store_self _ _ _
  have hsuf₂ : HasSuffix (":s 366 me ".toList ++ ch ++ " :End of /NAMES list.".toList)
      "\r\n".toList = false := by
    have := HasSuffix_crlf_append (":s 366 me ".toList ++ ch ++ " :End of /NAMES lis".toList)
      't' ".".toList (by decide) (by decide)
    rw [show HasSuffix ".".toList "\r\n".toList = false from by decide] at this
    rw [← this]
    congr 1
    simp
  refine ⟨c₁, chan', ?_, ?_, ?_, ?_, ?_, ?_⟩
  · exact names_line_handled now₁ c ch chan ns _ htracked hch hne hnick hfac.1
      (TrimSuffix_append _ _)
  · intro hlast
    exact names_line_handled now₁ c ch chan ns _ htracked hch hne hnick hfac.1
      (TrimSuffix_of_not_HasSuffix _ _
        (HasSuffix_crlf_Join (":s 353 me = ".toList ++ ch) ns hne hlast))
  · intro m₂ htype hchan
    refine ⟨{ c₁ with log := c₁.log ++
      [{ level := "debug", msg := ch,
         params := [("members", .text (Join chan'.Status.Nicks.keys ", ".toList))] }] }, ?_, hl⟩
    simp only [dispatch, MessageObject.Message, htype, defaultOnReply, runOnReply,
      defaultConnectionStatusUpdater, defaultChannelMemberUpdater, hchan, hl]
  · refine ⟨_, end_of_names_line_handled now₂ c₁ ch chan' _ hl hch hfac.2
        (TrimSuffix_append _ _),
      end_of_names_line_handled now₂ c₁ ch chan' _ hl hch hfac.2
        (TrimSuffix_of_not_HasSuffix _ _ hsuf₂), hl⟩
  · intro k
    show k ∈ (mergeNames chan.Status.Nicks ns).keys ↔ k ∈ ns
    rw [mem_keys_mergeNames, hempty]
    simp [GoMap.keys, GoMap.empty]
  · intro k hk
    exact lookup_mergeNames_of_mem ns _ k hk

/-- Witness of `names_reply_fills_member_map`: the channel `#t` and the nicks `n1`,
`n2`, `n3`, in the lines `:s 353 me = #t :n1 n2 n3` and
`:s 366 me #t :End of /NAMES list.`, each followed by CRLF. -/
theorem names_reply_fills_member_map_witness :
    ∃ c₁ c₂ chan',
      handleLine 0 defaultOnCommand defaultOnReply
        { channels := GoMap.store GoMap.empty "#t".toList (NewChannel "#t".toList) }
        ":s 353 me = #t :n1 n2 n3\r\n".toList = .ok c₁ ∧
      handleLine 1 defaultOnCommand defaultOnReply c₁
        ":s 366 me #t :End of /NAMES list.\r\n".toList = .ok c₂ ∧
      c₂.channels.lookup "#t".toList = some chan' ∧
      (∀ k, k ∈ chan'.Status.Nicks.keys ↔ k ∈ ["n1".toList, "n2".toList, "n3".toList]) ∧
      (∀ k ∈ ["n1".toList, "n2".toList, "n3".toList],
        chan'.Status.Nicks.lookup k = some { Name := k }) := by
  obtain ⟨c₁, chan', h1, -, -, ⟨c₂, h2, -, h3⟩, h4, h5⟩ := names_reply_fills_member_map 0 1
    { channels := GoMap.store GoMap.empty "#t".toList (NewChannel "#t".toList) }
    "#t".toList (NewChannel "#t".toList) ["n1".toList, "n2".toList, "n3".toList]
    rfl rfl ⟨by decide, by decide, by decide⟩ (by decide) (by decide) ⟨rfl, rfl⟩
  exact ⟨c₁, c₂, chan', h1, h2, h3, h4, h5⟩

/-- Claim C11, evaluated on the code: `Close` on a connection whose status is
Connected calls `c.conn.Close()` first (connection.go:155), and on a connection
that holds no socket this is a call on a nil interface: `Close` panics, runs no
hook and resets no channel.  A connection that is connected, with its socket, and
tracks `#t`, joined with the member `n1`, is closed with `#t` reset; a welcome reply
and the own JOIN for `#t` handled after that leave it Connected, without a socket,
with `#t` joined; `Close` then panics and `#t` stays joined, where the claim has
every tracked channel Parted after `Close` on a connection whose status is
Connected.  So it is for every state that is Connected without a socket.  The hook
`cleanupChannels` itself returns nil in every state, keeps the tracked names and
leaves under each of them a new channel of that name: Parted, without members. -/
theorem Close_panics_on_connected_without_socket :
    (∃ c₁ c₂ c₃,
      Connection.Close defaultOnDisconnect
        { Status := { Connected := true, CurrentNick := "me".toList }, conn := true,
          channels := GoMap.store GoMap.empty "#t".toList
            { Name := "#t".toList,
              Status := { Status := .ChannelStatusJoined,
                          Nicks := GoMap.store GoMap.empty "n1".toList
                            { Name := "n1".toList } } } } = (.ok (), c₁) ∧
      c₁.channels.lookup "#t".toList = some (NewChannel "#t".toList) ∧
      handleLine 0 defaultOnCommand defaultOnReply c₁ ":s 001 me :Welcome\r\n".toList =
        .ok c₂ ∧
      handleLine 0 defaultOnCommand defaultOnReply c₂ ":me!u@h JOIN #t\r\n".toList = .ok c₃ ∧
      c₃.Status.Connected = true ∧ c₃.conn = false ∧
      Connection.Close defaultOnDisconnect c₃ =
        (.error (.goPanic "nil pointer dereference"), c₃) ∧
      (c₃.channels.lookup "#t".toList).map (fun ch => ch.Status.Status) =
        some .ChannelStatusJoined) ∧
    (∀ c : Connection,
      Connection.Close defaultOnDisconnect
          { c with conn := false, Status := { c.Status with Connected := true } } =
        (.error (.goPanic "nil pointer dereference"),
          { c with conn := false, Status := { c.Status with Connected := true } })) ∧
    (∀ c : Connection,
      (cleanupChannels c).1 = .ok () ∧
      (cleanupChannels c).2.channels.keys = c.channels.keys ∧
      ∀ k, (cleanupChannels c).2.channels.lookup k =
        (c.channels.lookup k).map fun _ => NewChannel k) ∧
    (∀ k : GoString,
      (NewChannel k).Status.Status = .ChannelStatusParted ∧
      (NewChannel k).Status.Nicks = GoMap.empty ∧ (NewChannel k).Name = k) :=
  ⟨⟨_, _, _, rfl, rfl, rfl, rfl, rfl, rfl, rfl, rfl⟩, fun _ => rfl,
    fun c => ⟨rfl, (cleanupChannels_channels c).1, cleanupChannels_lookup c⟩,
    fun _ => ⟨rfl, rfl, rfl⟩⟩

/-- Claim C12 as stated fails: for the channel name `#a`, a tab, `b` the reply does
not validate and `Channel()` is `b`; for the empty channel name and for the channel
name `:x`, `Channel()` is `=`, and for `:x` the names are `x` and `:n1`; for the
nick `n1` followed by CRLF, `Names()` is `n1` alone. -/
theorem NamesReply_fails_on_odd_channel_or_crlf :
    (∃ m, RawMessageDecoder.Decode 0 (":".toList ++ "s".toList ++ " 353 ".toList ++
          "me".toList ++ " = ".toList ++ "#a\tb".toList ++ " :".toList ++
          Join ["n1".toList] " ".toList) = .ok m ∧
      isGoError (NamesReply.Validate m) = true ∧ NamesReply.Channel m = .ok "b".toList) ∧
    (∃ m, RawMessageDecoder.Decode 0 (":".toList ++ "s".toList ++ " 353 ".toList ++
          "me".toList ++ " = ".toList ++ "".toList ++ " :".toList ++
          Join ["n1".toList] " ".toList) = .ok m ∧
      NamesReply.Channel m = .ok "=".toList) ∧
    (∃ m, RawMessageDecoder.Decode 0 (":".toList ++ "s".toList ++ " 353 ".toList ++
          "me".toList ++ " = ".toList ++ ":x".toList ++ " :".toList ++
          Join ["n1".toList] " ".toList) = .ok m ∧
      NamesReply.Channel m = .ok "=".toList ∧ NamesReply.Names m = ["x".toList, ":n1".toList]) ∧
    (∃ m, RawMessageDecoder.Decode 0 (":".toList ++ "s".toList ++ " 353 ".toList ++
          "me".toList ++ " = ".toList ++ "#t".toList ++ " :".toList ++
          Join ["n1\r\n".toList] " ".toList) = .ok m ∧
      NamesReply.Names m = ["n1".toList]) :=
  ⟨⟨_, rfl, rfl, rfl⟩, ⟨_, rfl, rfl⟩, ⟨_, rfl, rfl, rfl⟩, ⟨_, rfl, rfl⟩⟩

/-- Claim C12, amended: for every prefix `p` without a space in which `!` comes
before `@`, every own nick `me` and channel name `ch` that are non-empty, free of
white space and do not start with a colon, and every non-empty list `ns` of
non-empty, space-free nicks the last of which does not end in CRLF, the line
`:p 353 me = ch :` followed by `ns` joined by single spaces decodes to a message for
which, as a NamesReply, `Validate()` succeeds, `Names()` is `ns` in the same order
and `Channel()` is `ch`. -/
theorem NamesReply_of_names_line (now : Nat) (p me ch : GoString) (ns : List GoString)
    (hp : ' ' ∉ p)
    (hord : ∀ i j, Index p "!".toList = some i → Index p "@".toList = some j → i < j)
    (hme : me ≠ [] ∧ (∀ x ∈ me, isSpace x = false) ∧ me.head? ≠ some ':')
    (hch : ch ≠ [] ∧ (∀ x ∈ ch, isSpace x = false) ∧ ch.head? ≠ some ':')
    (hne : ns ≠ [])
    (hnick : ∀ n ∈ ns, n ≠ [] ∧ ' ' ∉ n)
    (hlast : HasSuffix (ns.getLast hne) "\r\n".toList = false) :
    ∃ m, RawMessageDecoder.Decode now
        (":".toList ++ p ++ " 353 ".toList ++ me ++ " = ".toList ++ ch ++ " :".toList ++
          Join ns " ".toList) = .ok m ∧
      NamesReply.Validate m = .ok () ∧ NamesReply.Names m = ns ∧
      NamesReply.Channel m = .ok ch := by
  have hline : ":".toList ++ p ++ " 353 ".toList ++ me ++ " = ".toList ++ ch ++ " :".toList ++
      Join ns " ".toList =
      ':' :: (p ++ ' ' :: (Join ("353".toList :: [me, "=".toList, ch]) " ".toList ++
        " :".toList ++ Join ns " ".toList)) := by
    simp [Join]
  have htok : ∀ t ∈ "353".toList :: [me, "=".toList, ch],
      t ≠ [] ∧ ∀ x ∈ t, isSpace x = false := by
    intro t ht
    simp only [List.mem_cons, List.mem_singleton, List.not_mem_nil, or_false] at ht
    rcases ht with rfl | rfl | rfl | rfl
    · exact ⟨by decide, by decide⟩
    · exact ⟨hme.1, hme.2.1⟩
    · exact ⟨by decide, by decide⟩
    · exact ⟨hch.1, hch.2.1⟩
  have hpar : ∀ q ∈ [me, "=".toList, ch], q.head? ≠ some ':' := by
    intro q hq
    simp only [List.mem_cons, List.mem_singleton, List.not_mem_nil, or_false] at hq
    rcases hq with rfl | rfl | rfl
    · exact hme.2.2
    · decide
    · exact hch.2.2
  have hsuf : HasSuffix (':' :: (p ++ ' ' :: (Join ("353".toList :: [me, "=".toList, ch])
      " ".toList ++ " :".toList ++ Join ns " ".toList))) "\r\n".toList = false := by
    have := HasSuffix_crlf_Join (":".toList ++ p ++ " 353 ".toList ++ me ++ " = ".toList ++ ch)
      ns hne hlast
    rw [← this, ← hline]
  obtain ⟨m, hm, -, hparams, htrail, -⟩ :=
    ParseMessage_prefixed_line now p _ _ (Join ns " ".toList) hp hord htok hpar hsuf
  refine ⟨m, ?_, ?_, ?_, ?_⟩
  · rw [hline]; exact hm
  · simp [NamesReply.Validate, hparams]
  · rw [NamesReply.Names, htrail]
    exact Split_Join_single ' ' ns hne (fun n hn => (hnick n hn).2)
  · simp [NamesReply.Channel, hparams, index]

/-- Witness of `NamesReply_of_names_line`: the line of the test of the repository,
`:user!~nick@server/mask 353 nick = #tenyks :nick1 nick2 nick3 nick4`. -/
theorem NamesReply_of_names_line_witness :
    ∃ m, RawMessageDecoder.Decode 0
        (":".toList ++ "user!~nick@server/mask".toList ++ " 353 ".toList ++ "nick".toList ++
          " = ".toList ++ "#tenyks".toList ++ " :".toList ++
          Join ["nick1".toList, "nick2".toList, "nick3".toList, "nick4".toList] " ".toList) =
          .ok m ∧
      NamesReply.Validate m = .ok () ∧
      NamesReply.Names m = ["nick1".toList, "nick2".toList, "nick3".toList, "nick4".toList] ∧
      NamesReply.Channel m = .ok "#tenyks".toList :=
  NamesReply_of_names_line 0 "user!~nick@server/mask".toList "nick".toList "#tenyks".toList
    ["nick1".toList, "nick2".toList, "nick3".toList, "nick4".toList]
    (by decide)
    (by
      intro i j hi hj
      have h1 : Index "user!~nick@server/mask".toList "!".toList = some 4 := by decide
      have h2 : Index "user!~nick@server/mask".toList "@".toList = some 10 := by decide
      rw [h1] at hi
      rw [h2] at hj
      cases hi
      cases hj
      decide)
    (by decide) (by decide) (by decide) (by decide) (by decide)

/-- Claim C13, evaluated on the code: `next` computes in `float64` and not in exact
arithmetic.  For the backoff with min 9007199254740996 (two to the power 53, plus
4), max 9007199254740995 and the factor left at zero, so that 2 is used,
`float64(b.max)` rounds up to 9007199254740996; the first call finds the uncapped
value 9007199254740996 not above it, increments the counter although the uncapped
value exceeds max, and returns 9007199254740996, which exceeds max and is not the
lesser of the two; the second call caps, leaves the counter, and returns
`time.Duration(float64(b.max))`, again 9007199254740996 and above max.  For the
backoff with min 0, max 10 and the factor two to the power 1023, the call at the
counter 1 returns 0, and the call at the counter 2 computes `math.Pow` as +Inf and
the product 0 * +Inf as NaN, which is not above max, and returns the conversion of
NaN to a duration, which is left to the implementation: where it is the least
`int64`, as on amd64, the returned durations decrease from 0 to
-9223372036854775808. -/
theorem backoff_next_exceeds_max (indefinite : Int) :
    Float64.ofRat (9007199254740995 : ℚ) = .finite 9007199254740996 ∧
    backoff.next indefinite { min := 9007199254740996, max := 9007199254740995 } =
      (9007199254740996, { min := 9007199254740996, max := 9007199254740995, n := 1 }) ∧
    backoff.next indefinite { min := 9007199254740996, max := 9007199254740995, n := 1 } =
      (9007199254740996, { min := 9007199254740996, max := 9007199254740995, n := 1 }) ∧
    (backoff.next indefinite { min := 9007199254740996, max := 9007199254740995 }).1 >
      9007199254740995 ∧
    (backoff.next indefinite { min := 9007199254740996, max := 9007199254740995, n := 1 }).1 >
      9007199254740995 ∧
    backoff.next indefinite { factor := .finite (2 ^ 1023), max := 10, n := 1 } =
      (0, { factor := .finite (2 ^ 1023), max := 10, n := 2 }) ∧
    Float64.Pow (.finite (2 ^ 1023)) 2 = .inf false ∧
    Float64.mul (.finite 0) (.inf false) = .NaN ∧
    Float64.lt (.finite 10) .NaN = false ∧
    backoff.next indefinite { factor := .finite (2 ^ 1023), max := 10, n := 2 } =
      (indefinite, { factor := .finite (2 ^ 1023), max := 10, n := 3 }) ∧
    (backoff.next (-9223372036854775808)
        { factor := .finite (2 ^ 1023), max := 10, n := 2 }).1 <
      (backoff.next (-9223372036854775808)
        { factor := .finite (2 ^ 1023), max := 10, n := 1 }).1 := by
  have h1 := backoff.next_above_rounded_max indefinite
  have h2 := backoff.next_capped_above_max indefinite
  have hpw : Float64.Pow (.finite (2 ^ 1023)) 2 = .inf false := by
    rw [Float64.Pow_finite _ _ (by norm_num), ← pow_mul, Float64.ofRat_two_pow,
      if_neg (by norm_num)]
  refine ⟨Float64.ofRat_max_rounds_up, h1, h2, ?_, ?_,
    backoff.next_zero_before_overflow indefinite, hpw, Float64.mul_zero_inf false,
    Float64.lt_NaN _, backoff.next_not_a_number indefinite, ?_⟩
  · rw [h1]; decide
  · rw [h2]; decide
  · rw [backoff.next_zero_before_overflow, backoff.next_not_a_number]; decide

/-- Claim C14 as stated fails: on a connection whose command factory maps PING to a
function that builds a PONG of its own, the object returned for the accepted line
`PING :x` has a `Message()` other than the decoded message. -/
theorem decodeAndMapMessage_override_replaces_message :
    ∃ m mo, ParseMessage 0 "PING :x".toList = .ok m ∧
      Connection.decodeAndMapMessage
        { CommandFactory :=
            GoMap.store GoMap.empty .CommandTypePing fun _ => NewPongCommand "y".toList }
        0 "PING :x".toList = .ok mo ∧
      mo.Message ≠ m :=
  ⟨_, _, rfl, rfl, by decide⟩

/-- Claim C14, amended: for every line that ParseMessage accepts as `msg`,
decodeAndMapMessage returns the result of the connection's override factory for the
verb or numeric when the connection has one; otherwise the result of the default
factory when it has one, an object whose `Message()` is `msg`; otherwise
UnknownCommand of `msg`.  Without an override for them the tokens PART, CTCP,
002-005, 331, 332, 401 and 432 yield UnknownCommand, as does every token absent
from both type mappings; and on a connection built by New an inbound PRIVMSG yields
the connection-aware PrivmsgCommand of `msg`, not the default one. -/
theorem decodeAndMapMessage_factory_order (now : Nat) (c : Connection) (raw : GoString)
    (msg : Message) (h : ParseMessage now raw = .ok msg) :
    (msg.MessageType = .MessageTypeCommand →
      (∀ ct fn, CommandTypeMapping msg.Command = some ct →
        c.CommandFactory.lookup ct = some fn →
        c.decodeAndMapMessage now raw = .ok (.command (fn msg))) ∧
      (∀ ct fn, CommandTypeMapping msg.Command = some ct →
        c.CommandFactory.lookup ct = none → DefaultCommandFactory ct = some fn →
        c.decodeAndMapMessage now raw = .ok (.command (fn msg)) ∧ (fn msg).Message = msg) ∧
      (∀ ct, CommandTypeMapping msg.Command = some ct →
        c.CommandFactory.lookup ct = none → DefaultCommandFactory ct = none →
        c.decodeAndMapMessage now raw = .ok (.command (.UnknownCommand msg))) ∧
      (CommandTypeMapping msg.Command = none →
        c.decodeAndMapMessage now raw = .ok (.command (.UnknownCommand msg)))) ∧
    (msg.MessageType = .MessageTypeReply →
      (∀ rt fn, ReplyTypeMapping msg.Command = some rt →
        c.ReplyFactory.lookup rt = some fn →
        c.decodeAndMapMessage now raw = .ok (.command (fn msg))) ∧
      (∀ rt fn, ReplyTypeMapping msg.Command = some rt →
        c.ReplyFactory.lookup rt = none → DefaultReplyFactory rt = some fn →
        c.decodeAndMapMessage now raw = .ok (fn msg) ∧ (fn msg).Message = msg) ∧
      (∀ rt, ReplyTypeMapping msg.Command = some rt →
        c.ReplyFactory.lookup rt = none → DefaultReplyFactory rt = none →
        c.decodeAndMapMessage now raw = .ok (.command (.UnknownCommand msg))) ∧
      (ReplyTypeMapping msg.Command = none →
        c.decodeAndMapMessage now raw = .ok (.command (.UnknownCommand msg)))) ∧
    (MessageObject.command (.UnknownCommand msg)).Message = msg ∧
    (msg.Command ∈ ["PART".toList, "CTCP".toList] →
      (∀ ct, CommandTypeMapping msg.Command = some ct → c.CommandFactory.lookup ct = none) →
      c.decodeAndMapMessage now raw = .ok (.command (.UnknownCommand msg))) ∧
    (msg.Command ∈ ["002".toList, "003".toList, "004".toList, "005".toList, "331".toList,
        "332".toList, "401".toList, "432".toList] →
      (∀ rt, ReplyTypeMapping msg.Command = some rt → c.ReplyFactory.lookup rt = none) →
      c.decodeAndMapMessage now raw = .ok (.command (.UnknownCommand msg))) ∧
    (CommandTypeMapping msg.Command = none → ReplyTypeMapping msg.Command = none →
      c.decodeAndMapMessage now raw = .ok (.command (.UnknownCommand msg))) ∧
    (∀ now₀ conf, New now₀ conf = .ok c → msg.Command = "PRIVMSG".toList →
      c.decodeAndMapMessage now raw = .ok (.command (.PrivmsgCommand msg true)) ∧
      (MessageObject.command (.PrivmsgCommand msg true)).Message = msg ∧
      ∀ fn, DefaultCommandFactory .CommandTypePrivmsg = some fn →
        fn msg ≠ .PrivmsgCommand msg true) := by
  have hcls := ParseMessage_ok_classify now raw msg h
  have hcmd : msg.MessageType = .MessageTypeCommand →
      c.decodeAndMapMessage now raw =
        match CommandTypeMapping msg.Command with
        | some ct =>
          match c.CommandFactory.lookup ct with
          | some fn => .ok (.command (fn msg))
          | none =>
            match DefaultCommandFactory ct with
            | some fn => .ok (.command (fn msg))
            | none => .ok (.command (.UnknownCommand msg))
        | none => .ok (.command (.UnknownCommand msg)) := by
    intro ht
    simp only [Connection.decodeAndMapMessage, RawMessageDecoder.Decode, h, ht, if_true]
  have hrpl : msg.MessageType = .MessageTypeReply →
      c.decodeAndMapMessage now raw =
        match ReplyTypeMapping msg.Command with
        | some rt =>
          match c.ReplyFactory.lookup rt with
          | some fn => .ok (.command (fn msg))
          | none =>
            match DefaultReplyFactory rt with
            | some fn => .ok (fn msg)
            | none => .ok (.command (.UnknownCommand msg))
        | none => .ok (.command (.UnknownCommand msg)) := by
    intro ht
    simp only [Connection.decodeAndMapMessage, RawMessageDecoder.Decode, h, ht]
    rfl
  refine ⟨?_, ?_, rfl, ?_, ?_, ?_, ?_⟩
  · intro ht
    refine ⟨?_, ?_, ?_, ?_⟩
    · intro ct fn h1 h2
      rw [hcmd ht, h1]; simp only [h2]
    · intro ct fn h1 h2 h3
      refine ⟨?_, DefaultCommandFactory_Message ct fn h3 msg⟩
      rw [hcmd ht, h1]; simp only [h2, h3]
    · intro ct h1 h2 h3
      rw [hcmd ht, h1]; simp only [h2, h3]
    · intro h1
      rw [hcmd ht, h1]
  · intro ht
    refine ⟨?_, ?_, ?_, ?_⟩
    · intro rt fn h1 h2
      rw [hrpl ht, h1]; simp only [h2]
    · intro rt fn h1 h2 h3
      refine ⟨?_, DefaultReplyFactory_Message rt fn h3 msg⟩
      rw [hrpl ht, h1]; simp only [h2, h3]
    · intro rt h1 h2 h3
      rw [hrpl ht, h1]; simp only [h2, h3]
    · intro h1
      rw [hrpl ht, h1]
  · intro hmem hno
    simp only [List.mem_cons, List.mem_singleton, List.not_mem_nil, or_false] at hmem
    rcases hmem with hc | hc
    · have ht : msg.MessageType = .MessageTypeCommand := by rw [hcls, hc]; decide
      have hm : CommandTypeMapping msg.Command = some .CommandTypePart := by rw [hc]; decide
      rw [hcmd ht, hm]; simp only [hno _ hm, DefaultCommandFactory]
    · have ht : msg.MessageType = .MessageTypeCommand := by rw [hcls, hc]; decide
      have hm : CommandTypeMapping msg.Command = some .CommandTypeCTCP := by rw [hc]; decide
      rw [hcmd ht, hm]; simp only [hno _ hm, DefaultCommandFactory]
  · intro hmem hno
    simp only [List.mem_cons, List.mem_singleton, List.not_mem_nil, or_false] at hmem
    have key : ∀ (tok : GoString) (rt : ReplyType), msg.Command = tok →
        classify tok = .MessageTypeReply → ReplyTypeMapping tok = some rt →
        DefaultReplyFactory rt = none →
        c.decodeAndMapMessage now raw = .ok (.command (.UnknownCommand msg)) := by
      intro tok rt hc h1 h2 h3
      have ht : msg.MessageType = .MessageTypeReply := by rw [hcls, hc]; exact h1
      have hm : ReplyTypeMapping msg.Command = some rt := by rw [hc]; exact h2
      rw [hrpl ht, hm]; simp only [hno _ hm, h3]
    rcases hmem with hc | hc | hc | hc | hc | hc | hc | hc
    · exact key _ .ReplyTypeYourHost hc (by decide) (by decide) rfl
    · exact key _ .ReplyTypeCreated hc (by decide) (by decide) rfl
    · exact key _ .ReplyTypeMyInfo hc (by decide) (by decide) rfl
    · exact key _ .ReplyTypeBounce hc (by decide) (by decide) rfl
    · exact key _ .ReplyTypeNoTopic hc (by decide) (by decide) rfl
    · exact key _ .ReplyTypeTopic hc (by decide) (by decide) rfl
    · exact key _ .ReplyTypeErrNoSuchNick hc (by decide) (by decide) rfl
    · exact key _ .ReplyTypeErrErroneusNickname hc (by decide) (by decide) rfl
  · intro h1 h2
    cases ht : msg.MessageType with
    | MessageTypeCommand => rw [hcmd ht, h1]
    | MessageTypeReply => rw [hrpl ht, h2]
  · intro now₀ conf hnew hc
    have ht : msg.MessageType = .MessageTypeCommand := by rw [hcls, hc]; decide
    have hm : CommandTypeMapping msg.Command = some .CommandTypePrivmsg := by rw [hc]; decide
    have hf := (New_CommandFactory now₀ conf c hnew).1
    refine ⟨?_, rfl, ?_⟩
    · rw [hcmd ht, hm, hf]
      rfl
    · intro fn hfn
      simp only [DefaultCommandFactory, Option.some.injEq] at hfn
      subst hfn
      simp

/-- Witness of `decodeAndMapMessage_factory_order`: the line `PART #t` on a
connection without overrides. -/
theorem decodeAndMapMessage_factory_order_witness :
    ∃ m, ParseMessage 0 "PART #t".toList = .ok m ∧
      Connection.decodeAndMapMessage {} 0 "PART #t".toList =
        .ok (.command (.UnknownCommand m)) :=
  ⟨_, rfl,
    (decodeAndMapMessage_factory_order 0 {} "PART #t".toList _ rfl).2.2.2.1 (by decide)
      (fun _ _ => rfl)⟩

/-- Claim C15 as stated fails: on a connected connection whose nick is `me` and whose
command factory has no entry for PRIVMSG, the line `PRIVMSG me :hi` decodes to the
default PRIVMSG command, whose `IsDirect()` is false although its first parameter is
the current nick. -/
theorem IsDirect_false_on_default_factory :
    ∃ m bound,
      Connection.decodeAndMapMessage
        { Status := { Connected := true, CurrentNick := "me".toList } } 0
        "PRIVMSG me :hi".toList = .ok (.command (.PrivmsgCommand m bound)) ∧
      m.Params = ["me".toList] ∧
      PrivmsgCommand.IsDirect
        { Status := { Connected := true, CurrentNick := "me".toList } } m bound = .ok false :=
  ⟨_, _, rfl, rfl, rfl⟩

/-- Claim C15, amended: for every connection whose status is Connected and whose
command factory maps PRIVMSG to `mentionAndDirectPrivmsgCommand`, as on a connection
built by New, every accepted PRIVMSG line with at least one parameter decodes
through the connection to a PRIVMSG command whose `IsDirect()` is true if and only
if the first parameter equals the connection's CurrentNick. -/
theorem IsDirect_iff_target_is_CurrentNick (now : Nat) (c : Connection) (raw : GoString)
    (msg : Message) (target : GoString) (rest : List GoString)
    (hconn : c.Status.Connected = true)
    (hfac : c.CommandFactory.lookup .CommandTypePrivmsg = some mentionAndDirectPrivmsgCommand)
    (h : ParseMessage now raw = .ok msg) (hcmd : msg.Command = "PRIVMSG".toList)
    (hpar : msg.Params = target :: rest) :
    ∃ bound b, c.decodeAndMapMessage now raw = .ok (.command (.PrivmsgCommand msg bound)) ∧
      PrivmsgCommand.IsDirect c msg bound = .ok b ∧
      (b = true ↔ target = c.Status.CurrentNick) := by
  refine ⟨true, decide (target = c.Status.CurrentNick),
    decodeAndMapMessage_privmsg_bound now c raw msg hfac h hcmd, ?_, by simp⟩
  simp [PrivmsgCommand.IsDirect, hconn, hpar, index, bind, Except.bind, pure, Except.pure]

/-- Witness of `IsDirect_iff_target_is_CurrentNick`: the connection that New builds
for `irc.example.org:6667`, connected under the nick `me`, and the line
`:a!b@c PRIVMSG me :hi`. -/
theorem IsDirect_iff_target_is_CurrentNick_witness :
    ∃ c₀ m, New 0 { Server := "irc.example.org:6667".toList } = .ok c₀ ∧
      ParseMessage 1 ":a!b@c PRIVMSG me :hi".toList = .ok m ∧
      ∃ bound b,
        Connection.decodeAndMapMessage
          { c₀ with Status := { c₀.Status with Connected := true, CurrentNick := "me".toList } }
          1 ":a!b@c PRIVMSG me :hi".toList = .ok (.command (.PrivmsgCommand m bound)) ∧
        PrivmsgCommand.IsDirect
          { c₀ with Status := { c₀.Status with Connected := true, CurrentNick := "me".toList } }
          m bound = .ok b ∧
        (b = true ↔ "me".toList = "me".toList) :=
  ⟨_, _, rfl, rfl,
    IsDirect_iff_target_is_CurrentNick 1 _ ":a!b@c PRIVMSG me :hi".toList _ "me".toList []
      rfl rfl rfl rfl rfl⟩

/-- Claim C16 as stated fails: on a connected connection with the connection-aware
PRIVMSG factory and the nick `a: b`, the trailing text `a: b: hi` begins with the
nick and `": "`, yet `IsMention()` is false; and on a connected connection whose
command factory has no entry for PRIVMSG and whose nick is `me`, `IsMention()` is
false for the trailing text `me: hi`. -/
theorem IsMention_false_on_nick_with_separator_or_default_factory :
    (∃ m bound,
      Connection.decodeAndMapMessage
        { Status := { Connected := true, CurrentNick := "a: b".toList },
          CommandFactory :=
            GoMap.store GoMap.empty .CommandTypePrivmsg mentionAndDirectPrivmsgCommand } 0
        "PRIVMSG #t :a: b: hi".toList = .ok (.command (.PrivmsgCommand m bound)) ∧
      m.Trail = "a: b".toList ++ ": ".toList ++ "hi".toList ∧
      PrivmsgCommand.IsMention
        { Status := { Connected := true, CurrentNick := "a: b".toList },
          CommandFactory :=
            GoMap.store GoMap.empty .CommandTypePrivmsg mentionAndDirectPrivmsgCommand }
        m bound = .ok false) ∧
    (∃ m bound,
      Connection.decodeAndMapMessage
        { Status := { Connected := true, CurrentNick := "me".toList } } 0
        "PRIVMSG #t :me: hi".toList = .ok (.command (.PrivmsgCommand m bound)) ∧
      m.Trail = "me".toList ++ ": ".toList ++ "hi".toList ∧
      PrivmsgCommand.IsMention
        { Status := { Connected := true, CurrentNick := "me".toList } } m bound = .ok false) :=
  ⟨⟨_, _, rfl, rfl, rfl⟩, ⟨_, _, rfl, rfl, rfl⟩⟩

/-- Claim C16, amended: for every connection whose status is Connected and whose
command factory maps PRIVMSG to `mentionAndDirectPrivmsgCommand`, as on a connection
built by New, and every CurrentNick that does not contain `": "`, every accepted
PRIVMSG line decodes through the connection to a PRIVMSG command whose `IsMention()`
is true if and only if the trailing text begins with CurrentNick ++ ": ". -/
theorem IsMention_iff_trail_starts_with_nick (now : Nat) (c : Connection) (raw : GoString)
    (msg : Message)
    (hconn : c.Status.Connected = true)
    (hfac : c.CommandFactory.lookup .CommandTypePrivmsg = some mentionAndDirectPrivmsgCommand)
    (hnick : Index c.Status.CurrentNick ": ".toList = none)
    (h : ParseMessage now raw = .ok msg) (hcmd : msg.Command = "PRIVMSG".toList) :
    ∃ bound b, c.decodeAndMapMessage now raw = .ok (.command (.PrivmsgCommand msg bound)) ∧
      PrivmsgCommand.IsMention c msg bound = .ok b ∧
      (b = true ↔ (c.Status.CurrentNick ++ ": ".toList) <+: msg.Trail) := by
  obtain ⟨b, hb, hiff⟩ := IsMention_bound_connected c msg hconn
  refine ⟨true, b, decodeAndMapMessage_privmsg_bound now c raw msg hfac h hcmd, hb, ?_⟩
  rw [hiff]
  constructor
  · rintro ⟨i, hi, htake⟩
    have hspec := Index_some_spec msg.Trail ": ".toList i hi
    rw [htake] at hspec
    exact ⟨_, hspec.symm⟩
  · rintro ⟨t, ht⟩
    have hsep : ": ".toList = [':', ' '] := rfl
    rw [hsep] at ht hnick
    refine ⟨c.Status.CurrentNick.length, ?_, ?_⟩
    · rw [← ht, hsep]
      exact Index_append_sep ':' ' ' (by decide) _ t hnick
    · rw [← ht]
      simp

/-- Witness of `IsMention_iff_trail_starts_with_nick`: the connection that New
builds for `irc.example.org:6667`, connected under the nick `me`, and the line
`:a!b@c PRIVMSG #t :me: hi`. -/
theorem IsMention_iff_trail_starts_with_nick_witness :
    ∃ c₀ m, New 0 { Server := "irc.example.org:6667".toList } = .ok c₀ ∧
      ParseMessage 1 ":a!b@c PRIVMSG #t :me: hi".toList = .ok m ∧
      ∃ bound b,
        Connection.decodeAndMapMessage
          { c₀ with Status := { c₀.Status with Connected := true, CurrentNick := "me".toList } }
          1 ":a!b@c PRIVMSG #t :me: hi".toList = .ok (.command (.PrivmsgCommand m bound)) ∧
        PrivmsgCommand.IsMention
          { c₀ with Status := { c₀.Status with Connected := true, CurrentNick := "me".toList } }
          m bound = .ok b ∧
        (b = true ↔ ("me".toList ++ ": ".toList) <+: m.Trail) :=
  ⟨_, _, rfl, rfl,
    IsMention_iff_trail_starts_with_nick 1 _ ":a!b@c PRIVMSG #t :me: hi".toList _
      rfl rfl rfl rfl rfl⟩

/-- Claim C17, evaluated on the code: on a connected connection with the
connection-aware PRIVMSG factory, the nick `me` and one registered handler, the
line `:a!b@c PRIVMSG me :me: hi` decodes to a PRIVMSG whose `IsDirect()` and
`IsMention()` are both true, and the chat message handed to the handler has Direct
and Mention both false; the encoder sets neither flag for any message. -/
theorem defaultPrivmsgHandler_leaves_flags_unset :
    (∃ m,
      Connection.decodeAndMapMessage
        { Status := { Connected := true, CurrentNick := "me".toList },
          CommandFactory :=
            GoMap.store GoMap.empty .CommandTypePrivmsg mentionAndDirectPrivmsgCommand,
          chatMessageHandlers := [7] } 0
        ":a!b@c PRIVMSG me :me: hi".toList = .ok (.command (.PrivmsgCommand m true)) ∧
      PrivmsgCommand.IsDirect
        { Status := { Connected := true, CurrentNick := "me".toList },
          CommandFactory :=
            GoMap.store GoMap.empty .CommandTypePrivmsg mentionAndDirectPrivmsgCommand,
          chatMessageHandlers := [7] } m true = .ok true ∧
      PrivmsgCommand.IsMention
        { Status := { Connected := true, CurrentNick := "me".toList },
          CommandFactory :=
            GoMap.store GoMap.empty .CommandTypePrivmsg mentionAndDirectPrivmsgCommand,
          chatMessageHandlers := [7] } m true = .ok true) ∧
    ((handleLine 0 defaultOnCommand defaultOnReply
        { Status := { Connected := true, CurrentNick := "me".toList },
          CommandFactory :=
            GoMap.store GoMap.empty .CommandTypePrivmsg mentionAndDirectPrivmsgCommand,
          chatMessageHandlers := [7] }
        ":a!b@c PRIVMSG me :me: hi".toList).toOption.map fun c => c.delivered) =
      some [(7, { DestinationPath := "/".toList, OriginPath := "/".toList, Direct := false,
                  Mention := false, Content := "me: hi".toList, Timestamp := 0 })] ∧
    (∀ now m, ((tenyksChatMessageEncoder.Encode now m).toOption.map fun msg =>
      (msg.Direct, msg.Mention)) = some (false, false)) :=
  ⟨⟨_, rfl, rfl, rfl⟩, rfl, fun _ _ => rfl⟩

/-- Claim C18, evaluated on the code: on a connected connection with the
connection-aware PRIVMSG factory and one registered handler, the accepted line
`PRIVMSG :hi` decodes to a PRIVMSG without parameters, on which the default PRIVMSG
hook panics in the direct test and calls no handler; and so does the handling of
the line. -/
theorem defaultPrivmsgHandler_panics_without_target :
    (∃ m,
      Connection.decodeAndMapMessage
        { Status := { Connected := true, CurrentNick := "me".toList },
          CommandFactory :=
            GoMap.store GoMap.empty .CommandTypePrivmsg mentionAndDirectPrivmsgCommand,
          chatMessageHandlers := [7] } 0
        "PRIVMSG :hi".toList = .ok (.command (.PrivmsgCommand m true)) ∧
      m.Params = [] ∧ m.Trail = "hi".toList ∧
      (defaultPrivmsgHandler 0
        { Status := { Connected := true, CurrentNick := "me".toList },
          CommandFactory :=
            GoMap.store GoMap.empty .CommandTypePrivmsg mentionAndDirectPrivmsgCommand,
          chatMessageHandlers := [7] } (.PrivmsgCommand m true)).1 =
        .error (.goPanic "index out of range") ∧
      (defaultPrivmsgHandler 0
        { Status := { Connected := true, CurrentNick := "me".toList },
          CommandFactory :=
            GoMap.store GoMap.empty .CommandTypePrivmsg mentionAndDirectPrivmsgCommand,
          chatMessageHandlers := [7] } (.PrivmsgCommand m true)).2.delivered = []) ∧
    handleLine 0 defaultOnCommand defaultOnReply
        { Status := { Connected := true, CurrentNick := "me".toList },
          CommandFactory :=
            GoMap.store GoMap.empty .CommandTypePrivmsg mentionAndDirectPrivmsgCommand,
          chatMessageHandlers := [7] }
        "PRIVMSG :hi".toList = .error (.goPanic "index out of range") :=
  ⟨⟨_, rfl, rfl, rfl, rfl, rfl⟩, rfl⟩

/-- Claim C19, evaluated on the code: `SendAsync` hands the decoded PRIVMSG to
`EnqueueCommand`, which sends on the channel in the field `out` whatever the state
of the connection.  On the connection that `New` returns, which `Dial` has not
connected, `SendAsync` of the chat message `hello` for the path `/irc/net/#tenyks`
does not return.  Once `Dial` has connected, it returns nil and appends the
PRIVMSG for `#tenyks` with the Trail `hello`, as the claim has it.  After the
welcome reply and the end of the stream, on which the default error hook closes
the connection, the channel is closed and the same call panics with "send on
closed channel", where the claim has it return nil with the PRIVMSG appended.  So
it is for every connection without a socket and every chat message with a
content; a control message, and a chat message with an empty content, are refused
with an error in every state, the connection unchanged. -/
theorem SendAsync_blocks_before_Dial_and_panics_after_Close :
    (∃ c₀ c₁ c₂ c₃,
      New 0 { Server := "irc.example.net:6667".toList, Nicks := ["me".toList] } = .ok c₀ ∧
      c₀.SendAsync
        (.chat { DestinationPath := "/irc/net/#tenyks".toList, Content := "hello".toList }) =
          none ∧
      Connection.Dial 0 defaultOnConnect [true] c₀ = some (.ok (), c₁) ∧
      c₁.SendAsync
        (.chat { DestinationPath := "/irc/net/#tenyks".toList, Content := "hello".toList }) =
          some (.ok (),
            { c₁ with out := c₁.out ++ [NewPrivmsgCommand "#tenyks".toList "hello".toList] }) ∧
      handleLine 0 defaultOnCommand defaultOnReply c₁ ":s 001 me :Welcome\r\n".toList = .ok c₂ ∧
      defaultErrorHandlerFunc defaultOnDisconnect c₂ .EOF = (.ok (), c₃) ∧
      c₃.SendAsync
        (.chat { DestinationPath := "/irc/net/#tenyks".toList, Content := "hello".toList }) =
          some (.error (.goPanic "send on closed channel"), c₃)) ∧
    (∀ (c : Connection) (d : GoString) (a : Char) (x : GoString),
      Connection.SendAsync { c with conn := false, closed := false }
          (.chat { DestinationPath := d, Content := a :: x }) = none ∧
      Connection.SendAsync { c with conn := false, closed := true }
          (.chat { DestinationPath := d, Content := a :: x }) =
        some (.error (.goPanic "send on closed channel"),
          { c with conn := false, closed := true }) ∧
      Connection.SendAsync { c with conn := true }
          (.chat { DestinationPath := d, Content := a :: x }) =
        some (.ok (),
          { c with conn := true, out := c.out ++ [NewPrivmsgCommand (pathSplit d).2 (a :: x)] })) ∧
    (∀ (c : Connection) (m : ControlMessage),
      c.SendAsync (.control m) =
        some (.error
          (.goError "failed to send message; decoding failed: unexpected message type"), c)) ∧
    (∀ (c : Connection) (d : GoString),
      c.SendAsync (.chat { DestinationPath := d, Content := [] }) =
        some (.error (.goError ("failed to enqueue command; validation failed: " ++
          "PRIVMSG command: a message is required")), c)) := by
  refine ⟨⟨_, _, _, _, rfl, rfl, rfl, rfl, rfl, rfl, rfl⟩, ?_, fun _ _ => rfl, ?_⟩
  · intro c d a x
    refine ⟨?_, ?_, ?_⟩ <;>
      simp [Connection.SendAsync, tenyksChatMessageDecoder.Decode, NewPrivmsgCommand,
        Connection.EnqueueCommand, Command.Validate]
  · intro c d
    simp [Connection.SendAsync, tenyksChatMessageDecoder.Decode, NewPrivmsgCommand,
      Connection.EnqueueCommand, Command.Validate]

/-- Claim C20: for every registry `r`, every list `as` of adapters registered on it
in order and every adapter type t, `GetAdaptersFor(t)` sends each name n to the
adapter of `as` most recently registered with type t and name n, and to what `r`
had for t and n when there is none; it is the mapping of `r` for t when no adapter
of type t is in `as`.  On the zero-value registry and on the one of NewRegistry,
both of which have the empty mapping for every type, it therefore has no other
entries and is the empty mapping when no adapter of type t was registered.
Registering an adapter makes it the entry of its type and name and changes no
entry with a different type or name. -/
theorem registry_GetAdaptersFor_after_registrations (r : registry) (as : List Adapter)
    (t : AdapterType) :
    (∀ n, ((as.foldl registry.RegisterAdapter r).GetAdaptersFor t).lookup n =
      match as.reverse.find? fun a => decide (a.GetType = t ∧ a.GetName = n) with
      | some a => some a
      | none => (r.GetAdaptersFor t).lookup n) ∧
    ((∀ a ∈ as, a.GetType ≠ t) →
      (as.foldl registry.RegisterAdapter r).GetAdaptersFor t = r.GetAdaptersFor t) ∧
    (({} : registry).GetAdaptersFor t = GoMap.empty ∧
      NewRegistry.GetAdaptersFor t = GoMap.empty) ∧
    (∀ a : Adapter,
      ((r.RegisterAdapter a).GetAdaptersFor a.GetType).lookup a.GetName = some a ∧
      ∀ n, ¬ (a.GetType = t ∧ a.GetName = n) →
        ((r.RegisterAdapter a).GetAdaptersFor t).lookup n = (r.GetAdaptersFor t).lookup n) := by
  refine ⟨fun n => registry.lookup_foldl_RegisterAdapter as t n r,
    fun h => registry.GetAdaptersFor_foldl_of_no_type as t h r, ⟨rfl, rfl⟩, ?_⟩
  intro a
  constructor
  · rw [registry.lookup_RegisterAdapter, if_pos ⟨rfl, rfl⟩]
  · intro n hn
    rw [registry.lookup_RegisterAdapter, if_neg hn]

/-- Witness of `registry_GetAdaptersFor_after_registrations`: two adapters of type 0
named `irc` and one of type 1 on the zero-value registry; the mapping of type 0
holds the later one, and the mapping of type 2 is empty. -/
theorem registry_GetAdaptersFor_after_registrations_witness :
    (([({ GetType := 0, GetName := "irc".toList, id := 1 } : Adapter),
        { GetType := 1, GetName := "irc".toList, id := 2 },
        { GetType := 0, GetName := "irc".toList, id := 3 }].foldl registry.RegisterAdapter
          {}).GetAdaptersFor 0).lookup "irc".toList =
      some { GetType := 0, GetName := "irc".toList, id := 3 } ∧
    ([({ GetType := 0, GetName := "irc".toList, id := 1 } : Adapter),
        { GetType := 1, GetName := "irc".toList, id := 2 },
        { GetType := 0, GetName := "irc".toList, id := 3 }].foldl registry.RegisterAdapter
          {}).GetAdaptersFor 2 = GoMap.empty :=
  ⟨(registry_GetAdaptersFor_after_registrations {}
      [{ GetType := 0, GetName := "irc".toList, id := 1 },
        { GetType := 1, GetName := "irc".toList, id := 2 },
        { GetType := 0, GetName := "irc".toList, id := 3 }] 0).1 "irc".toList,
    (registry_GetAdaptersFor_after_registrations {}
      [{ GetType := 0, GetName := "irc".toList, id := 1 },
        { GetType := 1, GetName := "irc".toList, id := 2 },
        { GetType := 0, GetName := "irc".toList, id := 3 }] 2).2.1 (by decide)⟩

/-- Claim C21: over the steps of the default hooks, for every connection state.
After the default command hooks have handled a command, the tracked channel names
are the same and a tracked channel ch has status Joined if and only if it had
status Joined before or the command is a JOIN whose prefix nick equals CurrentNick
and whose first parameter is ch.  After the default reply hooks have handled a
reply, the tracked names and the status of every channel are unchanged.  After the
dispatcher has handled any message object, ch has status Joined if and only if it
had before or the object is a JOIN command, of message type command, with that
prefix nick and that first parameter.  The command hooks do handle every command
but a JOIN from our nick without a parameter and a connection-aware PRIVMSG without
a parameter on a connected connection. -/
theorem channel_joined_only_by_own_JOIN (now : Nat) (c : Connection) :
    (∀ cmd c', runOnCommand now defaultOnCommand c cmd = .ok c' →
      c'.channels.keys = c.channels.keys ∧
      ∀ ch chan', c'.channels.lookup ch = some chan' →
        (chan'.Status.Status = .ChannelStatusJoined ↔
          (∃ chan, c.channels.lookup ch = some chan ∧
            chan.Status.Status = .ChannelStatusJoined) ∨
          (∃ m p, cmd = .JoinCommand m ∧ m.PrefixSection = some p ∧
            p.Nick = c.Status.CurrentNick ∧ m.Params.head? = some ch))) ∧
    (∀ mo c', runOnReply now defaultOnReply c mo = .ok c' →
      c'.channels.keys = c.channels.keys ∧
      ∀ ch, (c'.channels.lookup ch).map (fun x => x.Status.Status) =
        (c.channels.lookup ch).map fun x => x.Status.Status) ∧
    (∀ mo c', dispatch now defaultOnCommand defaultOnReply c mo = .ok c' →
      c'.channels.keys = c.channels.keys ∧
      ∀ ch chan', c'.channels.lookup ch = some chan' →
        (chan'.Status.Status = .ChannelStatusJoined ↔
          (∃ chan, c.channels.lookup ch = some chan ∧
            chan.Status.Status = .ChannelStatusJoined) ∨
          (∃ m p, mo = .command (.JoinCommand m) ∧ m.MessageType = .MessageTypeCommand ∧
            m.PrefixSection = some p ∧ p.Nick = c.Status.CurrentNick ∧
            m.Params.head? = some ch))) ∧
    (∀ cmd,
      (∀ m p, cmd = .JoinCommand m → m.PrefixSection = some p →
        p.Nick = c.Status.CurrentNick → m.Params ≠ []) →
      (∀ m, cmd = .PrivmsgCommand m true → c.Status.Connected = true → m.Params ≠ []) →
      ∃ c', runOnCommand now defaultOnCommand c cmd = .ok c') := by
  have hcmd : ∀ cmd c', runOnCommand now defaultOnCommand c cmd = .ok c' →
      c'.channels.keys = c.channels.keys ∧
      ∀ ch chan', c'.channels.lookup ch = some chan' →
        (chan'.Status.Status = .ChannelStatusJoined ↔
          (∃ chan, c.channels.lookup ch = some chan ∧
            chan.Status.Status = .ChannelStatusJoined) ∨
          (∃ m p, cmd = .JoinCommand m ∧ m.PrefixSection = some p ∧
            p.Nick = c.Status.CurrentNick ∧ m.Params.head? = some ch)) := by
    intro cmd c' h
    obtain ⟨hnp, hch, -⟩ := runOnCommand_default now c c' cmd h
    obtain ⟨hk, -, hs⟩ := defaultJoinChannelStatusUpdater_status now c cmd
    rw [hch]
    exact ⟨hk, hs hnp⟩
  have hrpl : ∀ mo c', runOnReply now defaultOnReply c mo = .ok c' →
      c'.channels.keys = c.channels.keys ∧
      ∀ ch, (c'.channels.lookup ch).map (fun x => x.Status.Status) =
        (c.channels.lookup ch).map fun x => x.Status.Status := by
    intro mo c' h
    rw [runOnReply_default now c c' mo h]
    exact defaultChannelMemberUpdater_status now c mo
  refine ⟨hcmd, hrpl, ?_, ?_⟩
  · intro mo c' h
    unfold dispatch at h
    cases ht : mo.Message.MessageType with
    | MessageTypeCommand =>
      rw [ht] at h
      cases mo with
      | command cmd =>
        obtain ⟨hk, hs⟩ := hcmd cmd c' h
        refine ⟨hk, ?_⟩
        intro ch chan' hl
        rw [hs ch chan' hl]
        constructor
        · rintro (hb | ⟨m, p, h1, h2, h3, h4⟩)
          · exact Or.inl hb
          · subst h1
            exact Or.inr ⟨m, p, rfl, ht, h2, h3, h4⟩
        · rintro (hb | ⟨m, p, h1, -, h2, h3, h4⟩)
          · exact Or.inl hb
          · cases h1
            exact Or.inr ⟨m, p, rfl, h2, h3, h4⟩
      | WelcomeReply m => cases h
      | NamesReply m => cases h
      | EndOfNamesReply m => cases h
      | ErrNickInUseReply m => cases h
    | MessageTypeReply =>
      rw [ht] at h
      obtain ⟨hk, hs⟩ := hrpl mo c' h
      refine ⟨hk, ?_⟩
      intro ch chan' hl
      have hs' := hs ch
      rw [hl] at hs'
      constructor
      · intro hj
        cases hb : c.channels.lookup ch with
        | none => rw [hb] at hs'; cases hs'
        | some chan =>
          rw [hb] at hs'
          simp only [Option.map_some', Option.some.injEq] at hs'
          exact Or.inl ⟨chan, rfl, by rw [← hs']; exact hj⟩
      · rintro (⟨chan, hb, hj⟩ | ⟨m, p, h1, h2, -, -, -⟩)
        · rw [hb] at hs'
          simp only [Option.map_some', Option.some.injEq] at hs'
          rw [hs']
          exact hj
        · subst h1
          rw [show (MessageObject.command (.JoinCommand m)).Message.MessageType =
            m.MessageType from rfl, h2] at ht
          cases ht
  · intro cmd hjoin hpriv
    cases cmd with
    | JoinCommand m =>
      rcases defaultJoinChannelStatusUpdater_cases now c (.JoinCommand m) with
        ⟨m', p, ch₀, rest, chan₀, hcmd', hp, hn, hpar, hl, hr⟩ | ⟨m', p, hcmd', hp, hn, hpar, hr⟩ |
        ⟨-, hr⟩
      · rw [defaultOnCommand, runOnCommand_cons_ok _ _ _ _ _ (by rw [hr])]
        exact ⟨_, rfl⟩
      · exact absurd hpar (hjoin m' p hcmd' hp hn)
      · rw [defaultOnCommand, runOnCommand_cons_ok _ _ _ _ _ (by rw [hr])]
        exact ⟨_, rfl⟩
    | PrivmsgCommand m bound =>
      obtain ⟨msg, -, h1, -⟩ := (defaultPrivmsgHandler_fans_out now c).1 m bound
        (fun hb hc => hpriv m (by rw [hb]) hc)
      rw [defaultOnCommand, runOnCommand_cons_ok _ _ _ _ _ rfl]
      rw [show (defaultJoinChannelStatusUpdater now c (.PrivmsgCommand m bound)).2 = c from rfl,
        runOnCommand_cons_ok _ _ _ _ _ h1]
      exact ⟨_, rfl⟩
    | PassCommand m => exact ⟨_, rfl⟩
    | UserCommand m => exact ⟨_, rfl⟩
    | NickCommand m => exact ⟨_, rfl⟩
    | PingCommand m => exact ⟨_, rfl⟩
    | PongCommand m => exact ⟨_, rfl⟩
    | UnknownCommand m => exact ⟨_, rfl⟩

/-- Witness of `channel_joined_only_by_own_JOIN`: on a connection with the nick `me`
that tracks `#t` and `#u`, both parted, the line `:me!u@h JOIN #t` leaves `#t`
joined and `#u` parted. -/
theorem channel_joined_only_by_own_JOIN_witness :
    ∃ c', handleLine 0 defaultOnCommand defaultOnReply
        { Status := { CurrentNick := "me".toList },
          channels := GoMap.store (GoMap.store GoMap.empty "#t".toList (NewChannel "#t".toList))
            "#u".toList (NewChannel "#u".toList) }
        ":me!u@h JOIN #t".toList = .ok c' ∧
      c'.channels.keys = ["#t".toList, "#u".toList] ∧
      ((c'.channels.lookup "#t".toList).map fun x => x.Status.Status) =
        some .ChannelStatusJoined ∧
      ((c'.channels.lookup "#u".toList).map fun x => x.Status.Status) =
        some .ChannelStatusParted :=
  ⟨_, rfl,
    ((channel_joined_only_by_own_JOIN 0
      { Status := { CurrentNick := "me".toList },
        channels := GoMap.store (GoMap.store GoMap.empty "#t".toList (NewChannel "#t".toList))
          "#u".toList (NewChannel "#u".toList) }).1
      (.JoinCommand
        { PrefixSection := some { Nick := "me".toList, Ident := "u".toList, Host := "h".toList,
                                  RawPrefix := "me!u@h".toList }
          Command := "JOIN".toList
          Params := ["#t".toList]
          RawMsg := ":me!u@h JOIN #t".toList
          Parsed := true }) _ rfl).1,
    rfl, rfl⟩

/-- Claim C22, evaluated on the code: on the connection that New builds for the
channel `#t`, which tracks `#t` parted and without members, handling the inbound
line `:s 353 me = #t :n1` with the default hooks leaves `#t` parted with the member
`n1`. -/
theorem parted_channel_gets_members :
    ∃ c₀ c₁,
      New 0 { Server := "irc.example.org:6667".toList, Channels := ["#t".toList] } = .ok c₀ ∧
      ((c₀.channels.lookup "#t".toList).map fun x => (x.Status.Status, x.Status.Nicks.keys)) =
        some (.ChannelStatusParted, []) ∧
      handleLine 1 defaultOnCommand defaultOnReply c₀ ":s 353 me = #t :n1".toList = .ok c₁ ∧
      ((c₁.channels.lookup "#t".toList).map fun x => (x.Status.Status, x.Status.Nicks.keys)) =
        some (.ChannelStatusParted, ["n1".toList]) :=
  ⟨_, _, rfl, rfl, rfl, rfl⟩

/-- Claim C23: with the connect hooks as a list of functions of the connection
state that leave the socket field to `Dial`, on a connection without a socket and
at a call of `DialContext` that gives one, for every backoff and every later
outcome.  `Dial` sets the socket and runs the hooks in list order, each on the
state its predecessor left.  If a hook returns an error after hooks that returned
nil, `Dial` returns exactly that error, on the state that this hook left, whatever
the hooks after it are, and the socket is set.  If every hook returns nil, `Dial`
returns nil on the state left by all hooks run once in list order, and the socket
is set.  A call of `DialContext` that fails only logs and goes on to the next
call; `Connection.Dial` is this loop with the backoff of five minutes. -/
theorem Dial_runs_OnConnect_hooks (indefinite : Int) (hooks : List OnConnectHook)
    (dials : List Bool) (b : backoff) (c : Connection) (hsock : c.conn = false)
    (hkeep : ∀ hook ∈ hooks, ∀ s, (hook s).2.conn = s.conn) :
    (∀ (pre : List OnConnectHook) (hook : OnConnectHook) (post : List OnConnectHook)
        (e : Failure), hooks = pre ++ hook :: post →
      (∀ (pre' : List OnConnectHook) (hook' : OnConnectHook) (post' : List OnConnectHook),
          pre = pre' ++ hook' :: post' →
        (hook' (pre'.foldl (fun (s : Connection) (hook : OnConnectHook) => (hook s).2)
          { c with conn := true, out := [] })).1 = .ok ()) →
      (hook (pre.foldl (fun (s : Connection) (hook : OnConnectHook) => (hook s).2)
        { c with conn := true, out := [] })).1 = .error e →
      dialLoop indefinite hooks (true :: dials) b c =
        some (.error e, (pre ++ [hook]).foldl (fun (s : Connection) (hook : OnConnectHook) => (hook s).2)
          { c with conn := true, out := [] }) ∧
      ((pre ++ [hook]).foldl (fun (s : Connection) (hook : OnConnectHook) => (hook s).2)
        { c with conn := true, out := [] }).conn = true) ∧
    ((∀ (pre : List OnConnectHook) (hook : OnConnectHook) (post : List OnConnectHook),
          hooks = pre ++ hook :: post →
        (hook (pre.foldl (fun (s : Connection) (hook : OnConnectHook) => (hook s).2)
          { c with conn := true, out := [] })).1 = .ok ()) →
      dialLoop indefinite hooks (true :: dials) b c =
        some (.ok (), hooks.foldl (fun (s : Connection) (hook : OnConnectHook) => (hook s).2)
          { c with conn := true, out := [] }) ∧
      (hooks.foldl (fun (s : Connection) (hook : OnConnectHook) => (hook s).2)
        { c with conn := true, out := [] }).conn = true) ∧
    dialLoop indefinite hooks (false :: dials) b c =
      dialLoop indefinite hooks dials (b.next indefinite).2
        { c with log := c.log ++
          [{ level := "error", msg := "connection failed".toList,
             params := [("connection", .text c.Name),
               ("retry", .duration (b.next indefinite).1)] }] } ∧
    Connection.Dial indefinite hooks (true :: dials) c =
      dialLoop indefinite hooks (true :: dials) { max := 300000000000 } c := by
  refine ⟨?_, ?_, ?_, rfl⟩
  · intro pre hook post e hsplit hall herr
    have hconn : ((pre ++ [hook]).foldl (fun (s : Connection) (hook : OnConnectHook) => (hook s).2)
        { c with conn := true, out := [] }).conn = true := by
      rw [foldl_hooks_conn (pre ++ [hook]) (fun k hk => hkeep k (by
        rw [hsplit]
        rcases List.mem_append.mp hk with hk | hk
        · exact List.mem_append_left _ hk
        · rw [List.mem_singleton.mp hk]
          exact List.mem_append_right _ (List.mem_cons_self _ _)))]
    refine ⟨?_, hconn⟩
    rw [dialLoop_socket indefinite hooks dials b c hsock, hsplit,
      runOnConnect_first_error pre hook post e _ hall herr]
  · intro hall
    have hconn : (hooks.foldl (fun (s : Connection) (hook : OnConnectHook) => (hook s).2)
        { c with conn := true, out := [] }).conn = true := by
      rw [foldl_hooks_conn hooks hkeep]
    refine ⟨?_, hconn⟩
    rw [dialLoop_socket indefinite hooks dials b c hsock, runOnConnect_all_ok hooks _ hall]
    exact dialLoop_of_conn indefinite hooks dials b _ hconn
  · simp [dialLoop, hsock]

/-- Witness of `Dial_runs_OnConnect_hooks`: the default hooks on a connection with
the nick `me` and the channel `#t`, at a first call of `DialContext` that gives a
socket; `Dial` returns nil with USER, NICK and JOIN in the queue. -/
theorem Dial_runs_OnConnect_hooks_witness :
    ((Connection.Dial 0 defaultOnConnect [true]
        { nicks := ["me".toList], user := "u".toList, realName := "r".toList,
          channels := GoMap.store GoMap.empty "#t".toList (NewChannel "#t".toList) }).map
      fun r => (r.1, r.2.conn, r.2.out)) =
      some (.ok (), true,
        [NewUserCommand "u".toList 0 "r".toList, NewNickCommand "me".toList,
          NewJoinCommand ["#t".toList]]) := by
  have h := (Dial_runs_OnConnect_hooks 0 defaultOnConnect [] { max := 300000000000 }
    { nicks := ["me".toList], user := "u".toList, realName := "r".toList,
      channels := GoMap.store GoMap.empty "#t".toList (NewChannel "#t".toList) }
    rfl defaultOnConnect_conn).2.1
    (by
      intro pre hook post hsplit
      rcases pre with _ | ⟨k, pre⟩
      · simp only [defaultOnConnect, List.nil_append, List.cons.injEq] at hsplit
        rw [← hsplit.1]
        rfl
      · rcases pre with _ | ⟨k', pre⟩
        · simp only [defaultOnConnect, List.cons_append, List.nil_append,
            List.cons.injEq] at hsplit
          rw [← hsplit.1, ← hsplit.2.1]
          rfl
        · simp [defaultOnConnect] at hsplit)
  show Option.map _ (dialLoop 0 defaultOnConnect [true] { max := 300000000000 } _) = _
  rw [h.1]
  rfl

/-- Claim C24, evaluated on the code: for the tag block `k=a=b`, whose value `a=b`
holds a further `=` as the grammar in the comment on `ParseMessage` allows
(message.go:34,38), `parseTag` splits the segment at every `=`, finds three parts
and returns the error "invalid tag format", so that `ParseMessage` returns the
error and no tags, where the claim has the key `k` and the Value `a=b`; and for
the tag blocks `a;;b` and `;k=a=b`, with an empty segment, it panics. -/
theorem ParseMessage_rejects_equals_in_tag_value :
    Split "k=a=b".toList "=".toList = ["k".toList, "a".toList, "b".toList] ∧
    parseTag "k=a=b".toList =
      .error (.goError "failed to parse message: invalid tag format") ∧
    ParseMessage 0 "@k=a=b PING :x".toList =
      .error (.goError "failed to parse message: invalid tag format") ∧
    ParseMessage 0 "@a;;b PING :x".toList = .error (.goPanic "index out of range") ∧
    ParseMessage 0 "@;k=a=b PING :x".toList = .error (.goPanic "index out of range") :=
  ⟨rfl, rfl, rfl, rfl, rfl⟩

/-- The tags of a line made of `@`, a tag block, a space and a rest, where the block is the segments joined by `;` and every segment is a key that
is not empty, alone or followed by `=` and a value, with no `=`, `;` or space in
key and value: the tag stage returns one tag for each segment, in order, whose
Value is the value of the segment (empty when it has none) and whose Key is the
key of the segment, with an empty Vendor, when the key does not start with `+`
(after a leading `+` the rest of the key is the Key, split at its first `/` into
Vendor and Key when it has one); RawTags is the block; and every message that
ParseMessage returns for the line has this tags section. -/
theorem ParseMessage_tags (now : Nat) (segs : List (GoString × Option GoString))
    (block rest : GoString) (hne : segs ≠ [])
    (hblock : block =
      Join (segs.map fun kv => kv.1 ++ (kv.2.map (List.cons '=')).getD []) ";".toList)
    (hkey : ∀ kv ∈ segs, kv.1 ≠ [] ∧ '=' ∉ kv.1 ∧ ';' ∉ kv.1 ∧ ' ' ∉ kv.1)
    (hval : ∀ kv ∈ segs, ∀ v, kv.2 = some v → '=' ∉ v ∧ ';' ∉ v ∧ ' ' ∉ v) :
    ∃ tags,
      parseTagsSection ('@' :: (block ++ ' ' :: rest)) =
        .ok (some { Tags := tags, RawTags := block }, rest) ∧
      List.Forall₂ (fun kv tag =>
        tag.Value = kv.2.getD [] ∧
        (kv.1.head? ≠ some '+' → tag.Key = kv.1 ∧ tag.Vendor = []) ∧
        (∀ k, kv.1 = '+' :: k → '/' ∉ k → tag.Key = k ∧ tag.Vendor = []) ∧
        (∀ vendor name, kv.1 = '+' :: (vendor ++ '/' :: name) → '/' ∉ vendor →
          tag.Key = name ∧ tag.Vendor = vendor)) segs tags ∧
      ∀ m, ParseMessage now ('@' :: (block ++ ' ' :: rest)) = .ok m →
        m.TagsSection = some { Tags := tags, RawTags := block } := by
  obtain ⟨tags, htags⟩ := parseTag_segments segs
    (fun kv hkv => ⟨(hkey kv hkv).1, (hkey kv hkv).2.1⟩)
    (fun kv hkv v hv => (hval kv hkv v hv).1)
  have hseg : ∀ (c : Char), c = ';' ∨ c = ' ' →
      ∀ n ∈ segs.map (fun kv => kv.1 ++ (kv.2.map (List.cons '=')).getD []), c ∉ n := by
    intro c hc n hn hmem
    obtain ⟨kv, hkv, rfl⟩ := List.mem_map.mp hn
    rcases List.mem_append.mp hmem with h | h
    · rcases hc with rfl | rfl
      · exact (hkey kv hkv).2.2.1 h
      · exact (hkey kv hkv).2.2.2 h
    · cases hv : kv.2 with
      | none => rw [hv] at h; simp at h
      | some v =>
        rw [hv] at h
        simp only [Option.map_some', Option.getD_some, List.mem_cons] at h
        rcases h with h | h
        · rcases hc with rfl | rfl
          · exact absurd h (by decide)
          · exact absurd h (by decide)
        · rcases hc with rfl | rfl
          · exact (hval kv hkv v hv).2.1 h
          · exact (hval kv hkv v hv).2.2 h
  have hsplit : Split block ";".toList =
      segs.map fun kv => kv.1 ++ (kv.2.map (List.cons '=')).getD [] := by
    rw [hblock]
    exact Split_Join_single ';' _ (by simpa using hne) (hseg ';' (Or.inl rfl))
  have hsp : ' ' ∉ block := by
    intro hmem
    rw [hblock] at hmem
    rcases mem_Join ' ' _ _ hmem with h | ⟨s, hs, hx⟩
    · exact absurd h (by decide)
    · exact hseg ' ' (Or.inr rfl) s hs hx
  have hmap : (Split block ";".toList).mapM parseTag = .ok tags := by
    rw [hsplit]
    apply mapM_parseTag
    rw [List.forall₂_map_left_iff]
    exact List.Forall₂.imp (fun _ _ h => h.1) htags
  refine ⟨tags, parseTagsSection_block block rest hsp tags hmap,
    List.Forall₂.imp (fun _ _ h => h.2) htags, ?_⟩
  intro m hm
  obtain ⟨rest1, rest2, h1, -, -⟩ := ParseMessage_ok_sections now _ m hm
  have htrim := TrimSuffix_crlf_after_space ('@' :: block) rest
  simp only [List.cons_append] at htrim
  rw [htrim, parseTagsSection_block block _ hsp tags hmap] at h1
  simp only [Except.ok.injEq, Prod.mk.injEq] at h1
  exact h1.1.symm

/-- An instance of `ParseMessage_tags`: the line of the test of the repository with the
tags `test-tag=test-tag-value` and `test-tag2`. -/
theorem ParseMessage_tags_witness :
    ∃ m tags, ParseMessage 0
        ('@' :: ("test-tag=test-tag-value;test-tag2".toList ++
          ' ' :: "PRIVMSG #tenyks :yo kyletest2".toList)) = .ok m ∧
      m.TagsSection = some
        { Tags := tags, RawTags := "test-tag=test-tag-value;test-tag2".toList } ∧
      tags.length = 2 := by
  obtain ⟨tags, -, h2, h3⟩ := ParseMessage_tags 0
    [("test-tag".toList, some "test-tag-value".toList), ("test-tag2".toList, none)]
    "test-tag=test-tag-value;test-tag2".toList "PRIVMSG #tenyks :yo kyletest2".toList
    (by decide) (by decide) (by decide) (by decide)
  exact ⟨_, tags, rfl, h3 _ rfl, h2.length_eq.symm⟩

/-- Claim C25, evaluated on the code: for the tag `example.com/test-tag=v`, whose key
holds a `/` and has no leading `+`, the parsed tag has an empty Vendor and the Key
`example.com/test-tag`; with the leading `+` the Vendor is `example.com` and the Key
`test-tag`. -/
theorem parseTag_keeps_vendor_without_plus :
    (∃ m, ParseMessage 0 "@example.com/test-tag=v PRIVMSG #t :hi".toList = .ok m ∧
      m.TagsSection = some
        { Tags := [{ Key := "example.com/test-tag".toList, Value := "v".toList, Vendor := [] }],
          RawTags := "example.com/test-tag=v".toList }) ∧
    (∃ m, ParseMessage 0 "@+example.com/test-tag=v PRIVMSG #t :hi".toList = .ok m ∧
      m.TagsSection = some
        { Tags := [{ Key := "test-tag".toList, Value := "v".toList,
                     Vendor := "example.com".toList }],
          RawTags := "+example.com/test-tag=v".toList }) :=
  ⟨⟨_, rfl, rfl⟩, ⟨_, rfl, rfl⟩⟩

/-- Claim C26, evaluated on the code: for the line `:a@b!c PING`, whose prefix
`a@b!c` holds no space and holds both `!` and `@`, `ParseMessage` returns no
message: it panics when it cuts the Ident between the `!` and the earlier `@`. -/
theorem ParseMessage_panics_on_at_before_bang (now : Nat) :
    ParseMessage now ":a@b!c PING".toList = .error (.goPanic "slice bounds out of range") ∧
    Index "a@b!c".toList "!".toList = some 3 ∧ Index "a@b!c".toList "@".toList = some 1 :=
  ⟨rfl, rfl, rfl⟩

/-- Claim C27: for every configuration from which New builds a connection and
whose first nick is `nick`, running the default connect hooks, login then join, on
that connection, whose outgoing queue is empty, returns nil and leaves the queue
holding, in this order: a PASS with the password if and only if the password is
not empty; a USER with the parameters user, `0`, `*` and the trailing realName; a
NICK with `nick`; and, if and only if a channel is configured, one JOIN whose
parameter is the comma-joined list of the tracked channel names, which are distinct
and are the configured channels.  CurrentNick is `nick` afterwards. -/
theorem defaultOnConnect_fills_queue (now : Nat) (conf : Config) (c : Connection)
    (nick : GoString) (rest : List GoString)
    (hnew : New now conf = .ok c) (hnicks : conf.Nicks = nick :: rest) :
    c.out = [] ∧
    (∃ c', runOnConnect defaultOnConnect c = (.ok (), c') ∧
      c'.out =
        (if conf.Password ≠ [] then
          [Command.PassCommand
            { Command := "PASS".toList, MessageType := .MessageTypeCommand,
              Params := [conf.Password] }]
        else []) ++
        [Command.UserCommand
          { Command := "USER".toList, MessageType := .MessageTypeCommand,
            Params := [conf.User, "0".toList, "*".toList], Trail := conf.RealName },
         Command.NickCommand
          { Command := "NICK".toList, MessageType := .MessageTypeCommand, Params := [nick] }] ++
        (if conf.Channels ≠ [] then
          [Command.JoinCommand
            { Command := "JOIN".toList, MessageType := .MessageTypeCommand,
              Params := [Join c.channels.keys ",".toList] }]
        else []) ∧
      c'.Status.CurrentNick = nick) ∧
    c.channels.keys.Nodup ∧
    (∀ ch, ch ∈ c.channels.keys ↔ ch ∈ conf.Channels) := by
  have hc := New_ok_eq now conf c hnew
  obtain ⟨hnodup, hmem⟩ := GoMap.keys_foldl_store_nodup NewChannel conf.Channels
    (GoMap.empty : GoMap GoString Channel) List.nodup_nil
  have hkeys : c.channels.keys =
      (conf.Channels.foldl (fun m ch => m.store ch (NewChannel ch)) GoMap.empty).keys := by
    rw [hc]
  have hmem' : ∀ ch, ch ∈ c.channels.keys ↔ ch ∈ conf.Channels := by
    intro ch
    rw [hkeys, hmem ch]
    simp [GoMap.empty, GoMap.keys]
  have hlen : c.channels.keys.length > 0 ↔ conf.Channels ≠ [] := by
    constructor
    · intro h hnil
      have : c.channels.keys = [] := by rw [hkeys, hnil]; rfl
      rw [this] at h
      exact absurd h (by decide)
    · intro h
      obtain ⟨x, hx⟩ := List.exists_mem_of_ne_nil _ h
      exact List.length_pos_of_mem ((hmem' x).mpr hx)
  refine ⟨by rw [hc], ?_, by rw [hkeys]; exact hnodup, hmem'⟩
  have hpw : c.password = conf.Password := by rw [hc]
  have hus : c.user = conf.User := by rw [hc]
  have hrn : c.realName = conf.RealName := by rw [hc]
  have hnk : c.nicks = nick :: rest := by rw [hc]; exact hnicks
  have hout : c.out = [] := by rw [hc]
  have hlogin := defaultLoginFunc_of_nicks c nick rest hnk
  refine ⟨(defaultJoinFunc (defaultLoginFunc c).2).2, ?_, ?_, ?_⟩
  · rw [defaultOnConnect, runOnConnect, hlogin]
    simp only [runOnConnect, defaultJoinFunc_eq]
  · rw [hlogin, defaultJoinFunc_eq]
    by_cases hp : conf.Password = [] <;> by_cases hch : conf.Channels = []
    · have hl : ¬ c.channels.keys.length > 0 := fun h => (hlen.mp h) hch
      simp [hpw, hp, hl, hout, hus, hrn, hch, NewUserCommand, NewNickCommand, formatNat]
      decide
    · have hl : c.channels.keys.length > 0 := hlen.mpr hch
      simp [hpw, hp, hl, hout, hus, hrn, hch, NewUserCommand, NewNickCommand, NewJoinCommand,
        formatNat]
      decide
    · have hl : ¬ c.channels.keys.length > 0 := fun h => (hlen.mp h) hch
      simp [hpw, hp, hl, hout, hus, hrn, hch, NewPassCommand, NewUserCommand, NewNickCommand,
        formatNat]
      decide
    · have hl : c.channels.keys.length > 0 := hlen.mpr hch
      simp [hpw, hp, hl, hout, hus, hrn, hch, NewPassCommand, NewUserCommand, NewNickCommand,
        NewJoinCommand, formatNat]
      decide
  · rw [hlogin, defaultJoinFunc_eq]

/-- Witness of `defaultOnConnect_fills_queue`: a configuration with the password
`pw`, the nicks `me` and `me_` and the channels `#a`, `#b`, `#a`. -/
theorem defaultOnConnect_fills_queue_witness :
    ∃ c, New 0 { Server := "irc.example.org:6667".toList, Password := "pw".toList,
                 User := "u".toList, RealName := "r".toList,
                 Nicks := ["me".toList, "me_".toList],
                 Channels := ["#a".toList, "#b".toList, "#a".toList] } = .ok c ∧
      (runOnConnect defaultOnConnect c).2.out =
        [NewPassCommand "pw".toList, NewUserCommand "u".toList 0 "r".toList,
          NewNickCommand "me".toList, NewJoinCommand ["#a".toList, "#b".toList]] ∧
      c.channels.keys.Nodup :=
  ⟨_, rfl, rfl,
    (defaultOnConnect_fills_queue 0
      { Server := "irc.example.org:6667".toList, Password := "pw".toList,
        User := "u".toList, RealName := "r".toList,
        Nicks := ["me".toList, "me_".toList],
        Channels := ["#a".toList, "#b".toList, "#a".toList] } _ "me".toList ["me_".toList]
      rfl rfl).2.2.1⟩

/-- Claim C28 as stated fails: on a connection that holds a socket and whose status
is not Connected, as it is from `Dial` to the welcome reply, handling `io.EOF` with
the default error hook returns nil and leaves the connection as it is, socket
set. -/
theorem defaultErrorHandlerFunc_keeps_socket_before_welcome :
    (defaultErrorHandlerFunc defaultOnDisconnect { conn := true } .EOF).1 = .ok () ∧
    (defaultErrorHandlerFunc defaultOnDisconnect { conn := true } .EOF).2.conn = true :=
  ⟨rfl, rfl⟩

/-- Claim C28, amended: for every connection state that holds a socket and whose
status is Connected, handling `io.EOF` with the default error hook returns nil and
leaves the connection without a socket, with Connected false, the same tracked
channel names and every tracked channel parted, with an empty member map and its
key as Name; handling any other error returns nil and leaves the connection state
unchanged, and so does handling `io.EOF` on a connection whose status is not
Connected. -/
theorem defaultErrorHandlerFunc_closes_on_EOF (c : Connection) :
    (c.conn = true → c.Status.Connected = true →
      (defaultErrorHandlerFunc defaultOnDisconnect c .EOF).1 = .ok () ∧
      (defaultErrorHandlerFunc defaultOnDisconnect c .EOF).2.conn = false ∧
      (defaultErrorHandlerFunc defaultOnDisconnect c .EOF).2.Status.Connected = false ∧
      (defaultErrorHandlerFunc defaultOnDisconnect c .EOF).2.channels.keys = c.channels.keys ∧
      ∀ k ch, (defaultErrorHandlerFunc defaultOnDisconnect c .EOF).2.channels.lookup k = some ch →
        ch.Status.Status = .ChannelStatusParted ∧ ch.Status.Nicks = GoMap.empty ∧
        ch.Name = k) ∧
    (∀ msg, defaultErrorHandlerFunc defaultOnDisconnect c (.other msg) = (.ok (), c)) ∧
    (c.Status.Connected = false →
      defaultErrorHandlerFunc defaultOnDisconnect c .EOF = (.ok (), c)) := by
  refine ⟨?_, fun _ => rfl, ?_⟩
  · intro hs hc
    obtain ⟨h1, -, h3⟩ := cleanupChannels_channels c
    have hr : defaultErrorHandlerFunc defaultOnDisconnect c .EOF =
        c.Close defaultOnDisconnect := rfl
    rw [hr, Close_connected c hc hs]
    exact ⟨rfl, rfl, rfl, h1, h3⟩
  · intro hc
    simp [defaultErrorHandlerFunc, Connection.Close, hc]

/-- Witness of `defaultErrorHandlerFunc_closes_on_EOF`: a connected connection with
a socket that tracks `#t`, joined, with the member `n1`. -/
theorem defaultErrorHandlerFunc_closes_on_EOF_witness :
    (defaultErrorHandlerFunc defaultOnDisconnect
      { Status := { Connected := true }, conn := true,
        channels := GoMap.store GoMap.empty "#t".toList
          { Name := "#t".toList,
            Status := { Status := .ChannelStatusJoined,
                        Nicks := GoMap.store GoMap.empty "n1".toList
                          { Name := "n1".toList } } } } .EOF).2.conn = false :=
  ((defaultErrorHandlerFunc_closes_on_EOF
      { Status := { Connected := true }, conn := true,
        channels := GoMap.store GoMap.empty "#t".toList
          { Name := "#t".toList,
            Status := { Status := .ChannelStatusJoined,
                        Nicks := GoMap.store GoMap.empty "n1".toList
                          { Name := "n1".toList } } } }).1 rfl rfl).2.1

/-- Claim C29: for every connection state and every names reply whose `Channel()`
is ch.  If ch is tracked, the default member-updater hook returns nil and leaves ch
mapped to a channel whose member key set is the union of the previous key set and
the set of `Names()`, with the same status, message and name; every other channel
and the set of tracked names are unchanged.  If ch is not tracked, the connection
and so the whole channel map are unchanged.  And after the default reply hooks have
handled any reply, every member of every tracked channel is still a member. -/
theorem names_reply_merges_members (now : Nat) (c : Connection) (m : Message) (ch : GoString)
    (hch : NamesReply.Channel m = .ok ch) :
    (∀ chan, c.channels.lookup ch = some chan →
      (defaultChannelMemberUpdater now c (.NamesReply m)).1 = .ok () ∧
      (defaultChannelMemberUpdater now c (.NamesReply m)).2.channels.keys = c.channels.keys ∧
      (∃ chan', (defaultChannelMemberUpdater now c (.NamesReply m)).2.channels.lookup ch =
          some chan' ∧
        (∀ n, n ∈ chan'.Status.Nicks.keys ↔
          n ∈ chan.Status.Nicks.keys ∨ n ∈ NamesReply.Names m) ∧
        chan'.Status.Status = chan.Status.Status ∧
        chan'.Status.Message = chan.Status.Message ∧ chan'.Name = chan.Name) ∧
      ∀ k, k ≠ ch →
        (defaultChannelMemberUpdater now c (.NamesReply m)).2.channels.lookup k =
          c.channels.lookup k) ∧
    (c.channels.lookup ch = none →
      defaultChannelMemberUpdater now c (.NamesReply m) = (.ok (), c)) ∧
    (∀ mo c', runOnReply now defaultOnReply c mo = .ok c' →
      ∀ k chan n, c.channels.lookup k = some chan → n ∈ chan.Status.Nicks.keys →
        ∃ chan', c'.channels.lookup k = some chan' ∧ n ∈ chan'.Status.Nicks.keys) := by
  refine ⟨?_, ?_, ?_⟩
  · intro chan hl
    have hr : defaultChannelMemberUpdater now c (.NamesReply m) =
        (.ok (), { c with channels := (c.channels.store ch
          { chan with Status := { chan.Status with
              Nicks := mergeNames chan.Status.Nicks (NamesReply.Names m) } }) }) := by
      simp [defaultChannelMemberUpdater, hch, hl]
    rw [hr]
    refine ⟨rfl, GoMap.keys_store_of_mem _ _ _ (GoMap.mem_keys_of_lookup _ _ _ hl), ?_, ?_⟩
    · refine ⟨_, GoMap.lookup_store_self _ _ _, ?_, rfl, rfl, rfl⟩
      intro n
      exact mem_keys_mergeNames (NamesReply.Names m) chan.Status.Nicks n
    · intro k hk
      exact GoMap.lookup_store_ne _ _ _ _ (Ne.symm hk)
  · intro hl
    simp [defaultChannelMemberUpdater, hch, hl]
  · intro mo c' h k chan n hk hn
    rw [runOnReply_default now c c' mo h]
    rcases defaultChannelMemberUpdater_cases now c mo with
      ⟨m', ch', chan₀, -, -, hl, hr⟩ | ⟨-, hr, -⟩
    · rw [hr]
      by_cases hc : ch' = k
      · subst hc
        rw [hl] at hk
        cases hk
        refine ⟨_, GoMap.lookup_store_self _ _ _, ?_⟩
        exact (mem_keys_mergeNames (NamesReply.Names m') _ n).mpr (Or.inl hn)
      · refine ⟨chan, ?_, hn⟩
        show GoMap.lookup (GoMap.store c.channels ch' _) k = some chan
        rw [GoMap.lookup_store_ne _ _ _ _ hc]
        exact hk
    · rw [hr]
      exact ⟨chan, hk, hn⟩

/-- Witness of `names_reply_merges_members`: the reply `:s 353 me = #t :n2 n3` on a
connection that tracks `#t`, joined, with the member `n1`. -/
theorem names_reply_merges_members_witness :
    NamesReply.Channel
        { Command := "353".toList, MessageType := .MessageTypeReply,
          Params := ["me".toList, "=".toList, "#t".toList], Trail := "n2 n3".toList } =
      .ok "#t".toList ∧
    (((defaultChannelMemberUpdater 0
        { channels := GoMap.store GoMap.empty "#t".toList
            { Name := "#t".toList,
              Status := { Status := .ChannelStatusJoined,
                          Nicks := GoMap.store GoMap.empty "n1".toList
                            { Name := "n1".toList } } } }
        (.NamesReply
          { Command := "353".toList, MessageType := .MessageTypeReply,
            Params := ["me".toList, "=".toList, "#t".toList],
            Trail := "n2 n3".toList })).2.channels.lookup "#t".toList).map
      fun x => (x.Status.Status, x.Status.Nicks.keys)) =
      some (.ChannelStatusJoined, ["n1".toList, "n2".toList, "n3".toList]) ∧
    (defaultChannelMemberUpdater 0
        { channels := GoMap.store GoMap.empty "#t".toList
            { Name := "#t".toList,
              Status := { Status := .ChannelStatusJoined,
                          Nicks := GoMap.store GoMap.empty "n1".toList
                            { Name := "n1".toList } } } }
        (.NamesReply
          { Command := "353".toList, MessageType := .MessageTypeReply,
            Params := ["me".toList, "=".toList, "#t".toList],
            Trail := "n2 n3".toList })).2.channels.keys = ["#t".toList] :=
  ⟨rfl, rfl,
    ((names_reply_merges_members 0
        { channels := GoMap.store GoMap.empty "#t".toList
            { Name := "#t".toList,
              Status := { Status := .ChannelStatusJoined,
                          Nicks := GoMap.store GoMap.empty "n1".toList
                            { Name := "n1".toList } } } }
        { Command := "353".toList, MessageType := .MessageTypeReply,
          Params := ["me".toList, "=".toList, "#t".toList], Trail := "n2 n3".toList }
        "#t".toList rfl).1 _ rfl).2.1⟩

/-- Claim C30: with the socket as a string of bytes to which every write appends,
the send loop consumes every queue to its end, whatever it wrote before.  The bytes
it has written are the bytes written before followed, in queue order, by the wire
string that `Encode()` returns for each command whose `Validate()` succeeds;
`Encode()` returns a wire string for every command.  The errors on its error
channel are those sent before followed, in queue order, by the one error that
`Validate()` returns for each command on which it fails.  A command on which
`Validate()` fails adds no byte and one error, and the commands after it are
processed as they would be without it. -/
theorem startSendLoop_writes_valid_commands (queue : List Command) (s : SendLoopState) :
    (∃ s', startSendLoop queue s = .ok s' ∧
      s'.written = s.written ++ (queue.map fun cmd =>
        match cmd.Validate, cmd.Encode.1 with
        | .ok (), .ok wire => wire
        | _, _ => []).flatten ∧
      s'.errs = s.errs ++ queue.filterMap fun cmd =>
        match cmd.Validate with
        | .ok () => none
        | .error e => some e) ∧
    (∀ cmd : Command, ∃ wire, cmd.Encode.1 = .ok wire) ∧
    (∀ cmd e rest, cmd.Validate = .error e →
      startSendLoop (cmd :: rest) s = startSendLoop rest { s with errs := s.errs ++ [e] }) := by
  have hval : ∀ cmd : Command, ∀ what, cmd.Validate ≠ .error (.goPanic what) := by
    intro cmd what
    cases cmd <;> simp only [Command.Validate] <;> (repeat' split) <;> simp
  refine ⟨?_, fun cmd => ⟨_, rfl⟩, ?_⟩
  · induction queue generalizing s with
    | nil => exact ⟨s, rfl, by simp, by simp⟩
    | cons cmd queue ih =>
      cases hv : cmd.Validate with
      | error e =>
        cases e with
        | goPanic what => exact absurd hv (hval cmd what)
        | goError msg =>
          obtain ⟨s', h1, h2, h3⟩ := ih { s with errs := s.errs ++ [.goError msg] }
          refine ⟨s', ?_, ?_, ?_⟩
          · rw [startSendLoop, hv]
            exact h1
          · rw [h2]
            simp [hv]
          · rw [h3]
            simp [hv]
      | ok u =>
        obtain ⟨s', h1, h2, h3⟩ := ih
          { s with
            log := s.log ++ [{ level := "debug", msg := cmd.Encode.2.Message.RawMsg,
                               params := [("direction", .text "|--->|".toList)] }],
            written := s.written ++ (RawMessageEncoder.Encode cmd.Message).1.toOption.getD [] }
        refine ⟨s', ?_, ?_, ?_⟩
        · rw [startSendLoop, hv]
          exact h1
        · rw [h2]
          simp [hv, Command.Encode, RawMessageEncoder.Encode, Except.toOption]
        · rw [h3]
          simp [hv]
  · intro cmd e rest hv
    cases e with
    | goPanic what => exact absurd hv (hval cmd what)
    | goError msg => rw [startSendLoop, hv]

/-- Witness of `startSendLoop_writes_valid_commands`: the queue of a PRIVMSG, a
PRIVMSG without text and a PONG; the loop writes the first and the third and sends
one error. -/
theorem startSendLoop_writes_valid_commands_witness :
    startSendLoop [NewPrivmsgCommand "#t".toList [], NewPongCommand "x".toList] {} =
      startSendLoop [NewPongCommand "x".toList]
        { errs := [.goError "PRIVMSG command: a message is required"] } ∧
    ((startSendLoop
        [NewPrivmsgCommand "#t".toList "hi".toList, NewPrivmsgCommand "#t".toList [],
          NewPongCommand "x".toList] {}).toOption.map fun s => (s.written, s.errs)) =
      some ("PRIVMSG #t :hi\r\nPONG :x\r\n".toList,
        [.goError "PRIVMSG command: a message is required"]) :=
  ⟨(startSendLoop_writes_valid_commands [] {}).2.2 (NewPrivmsgCommand "#t".toList [])
      (.goError "PRIVMSG command: a message is required") [NewPongCommand "x".toList] rfl,
    rfl⟩

/-- Claim C31, evaluated on the code: the line `:s 366 me #t :End of /NAMES list.`
decodes to an end-of-names reply with the two parameters `me` and `#t`, and
EndOfNamesReply.Validate returns the parameter count error "expected 2, but got 2"
for it; a reply with one parameter or with three passes.  The test of the method is
inverted: it returns nil exactly when the number of parameters is not 2. -/
theorem EndOfNamesReply_Validate_rejects_two_params :
    (∃ m,
      Connection.decodeAndMapMessage {} 0 ":s 366 me #t :End of /NAMES list.".toList =
        .ok (.EndOfNamesReply m) ∧
      m.Params = ["me".toList, "#t".toList] ∧
      EndOfNamesReply.Validate m =
        .error (.goError (ParameterCountValidationError ++ ": expected 2, but got 2"))) ∧
    (∃ m,
      Connection.decodeAndMapMessage {} 0 ":s 366 #t :End of /NAMES list.".toList =
        .ok (.EndOfNamesReply m) ∧
      m.Params = ["#t".toList] ∧ EndOfNamesReply.Validate m = .ok ()) ∧
    (∃ m,
      Connection.decodeAndMapMessage {} 0 ":s 366 me = #t :End of /NAMES list.".toList =
        .ok (.EndOfNamesReply m) ∧
      m.Params = ["me".toList, "=".toList, "#t".toList] ∧
      EndOfNamesReply.Validate m = .ok ()) ∧
    (∀ m : Message, EndOfNamesReply.Validate m = .ok () ↔ m.Params.length ≠ 2) ∧
    (∀ m : Message, isGoError (EndOfNamesReply.Validate m) = true ↔ m.Params.length = 2) := by
  refine ⟨⟨_, rfl, rfl, rfl⟩, ⟨_, rfl, rfl, rfl⟩, ⟨_, rfl, rfl, rfl⟩, ?_, ?_⟩
  · intro m
    unfold EndOfNamesReply.Validate
    split_ifs with h <;> simp [h]
  · intro m
    unfold EndOfNamesReply.Validate
    split_ifs with h <;> simp [h, isGoError]

/-- Claim C32: for every PRIVMSG command, of either kind, Validate returns an error
exactly when the number of parameters is not 1 or the trailing text is empty, and
nil otherwise; so for every target `t`, NewPrivmsgCommand `t` `x` passes Validate
exactly when `x` is not empty. -/
theorem PrivmsgCommand_Validate_iff (m : Message) (bound : Bool) (t x : GoString) :
    (isGoError (Command.Validate (.PrivmsgCommand m bound)) = true ↔
      (m.Params.length ≠ 1 ∨ m.Trail = [])) ∧
    (Command.Validate (.PrivmsgCommand m bound) = .ok () ↔
      ¬ (m.Params.length ≠ 1 ∨ m.Trail = [])) ∧
    ((NewPrivmsgCommand t x).Validate = .ok () ↔ x ≠ []) ∧
    (isGoError (NewPrivmsgCommand t x).Validate = true ↔ x = []) := by
  refine ⟨?_, ?_, ?_, ?_⟩
  · simp only [Command.Validate]
    by_cases h1 : m.Params.length = 1 <;> by_cases h2 : m.Trail = [] <;>
      simp [isGoError, h1, h2]
  · simp only [Command.Validate]
    by_cases h1 : m.Params.length = 1 <;> by_cases h2 : m.Trail = [] <;> simp [h1, h2]
  · simp only [NewPrivmsgCommand, Command.Validate]
    by_cases hx : x = [] <;> simp [hx]
  · simp only [NewPrivmsgCommand, Command.Validate]
    by_cases hx : x = [] <;> simp [hx, isGoError]

/-- Claim C33: for every connection state, the default OnReply hooks on a Welcome
reply return with Connected set to true and with every other field, CurrentNick and
the channel map among them, as before; so does the handling of every accepted line
with the numeric 001 on a connection without a factory override for it.  On a reply
that is not a Welcome the hooks either return a state with Connected as before, or
panic in the index of the last parameter; and each of the two hooks leaves Connected
as it was. -/
theorem welcome_sets_Connected (now : Nat) (c : Connection) (m : Message) (mo : MessageObject)
    (hmo : ∀ m', mo ≠ .WelcomeReply m') :
    runOnReply now defaultOnReply c (.WelcomeReply m) =
      .ok { c with Status := { c.Status with Connected := true } } ∧
    (∀ c', runOnReply now defaultOnReply c (.WelcomeReply m) = .ok c' →
      c'.Status.Connected = true ∧ c'.Status.CurrentNick = c.Status.CurrentNick ∧
      c'.channels = c.channels) ∧
    (∀ raw, ParseMessage now raw = .ok m → m.Command = "001".toList →
      c.ReplyFactory.lookup .ReplyTypeWelcome = none →
      c.decodeAndMapMessage now raw = .ok (.WelcomeReply m) ∧
      handleLine now defaultOnCommand defaultOnReply c raw =
        .ok { c with Status := { c.Status with Connected := true } }) ∧
    ((∃ c', runOnReply now defaultOnReply c mo = .ok c' ∧
        c'.Status.Connected = c.Status.Connected) ∨
      runOnReply now defaultOnReply c mo = .error (.goPanic "index out of range")) ∧
    (defaultConnectionStatusUpdater now c mo).2.Status.Connected = c.Status.Connected ∧
    (defaultChannelMemberUpdater now c mo).2.Status.Connected = c.Status.Connected := by
  have hw : runOnReply now defaultOnReply c (.WelcomeReply m) =
      .ok { c with Status := { c.Status with Connected := true } } := rfl
  refine ⟨hw, ?_, ?_, ?_, ?_, ?_⟩
  · intro c' h
    rw [hw] at h
    cases h
    exact ⟨rfl, rfl, rfl⟩
  · intro raw h hc hf
    have ht : m.MessageType = .MessageTypeReply := by
      rw [ParseMessage_ok_classify now raw m h, hc]; decide
    have hm : ReplyTypeMapping m.Command = some .ReplyTypeWelcome := by rw [hc]; decide
    have hd : c.decodeAndMapMessage now raw = .ok (.WelcomeReply m) := by
      simp only [Connection.decodeAndMapMessage, RawMessageDecoder.Decode, h, ht, hm, hf]
      rfl
    refine ⟨hd, ?_⟩
    simp only [handleLine, hd, dispatch, MessageObject.Message, ht]
    exact hw
  · cases mo with
    | WelcomeReply m' => exact absurd rfl (hmo m')
    | command cmd => exact Or.inl ⟨_, rfl, rfl⟩
    | ErrNickInUseReply m' => exact Or.inl ⟨_, rfl, rfl⟩
    | NamesReply m' =>
      rcases index_cases m'.Params (m'.Params.length - 1) with ⟨ch, hi⟩ | hi
      · left
        cases hl : c.channels.lookup ch with
        | none =>
          refine ⟨c, ?_, rfl⟩
          simp only [runOnReply, defaultOnReply, defaultConnectionStatusUpdater,
            defaultChannelMemberUpdater, NamesReply.Channel, hi, hl]
        | some chan =>
          simp only [runOnReply, defaultOnReply, defaultConnectionStatusUpdater,
            defaultChannelMemberUpdater, NamesReply.Channel, hi, hl]
          exact ⟨_, rfl, rfl⟩
      · right
        simp only [runOnReply, defaultOnReply, defaultConnectionStatusUpdater,
          defaultChannelMemberUpdater, NamesReply.Channel, hi]
    | EndOfNamesReply m' =>
      rcases index_cases m'.Params (m'.Params.length - 1) with ⟨ch, hi⟩ | hi
      · left
        simp only [runOnReply, defaultOnReply, defaultConnectionStatusUpdater,
          defaultChannelMemberUpdater, EndOfNamesReply.Channel, hi]
        exact ⟨_, rfl, rfl⟩
      · right
        simp only [runOnReply, defaultOnReply, defaultConnectionStatusUpdater,
          defaultChannelMemberUpdater, EndOfNamesReply.Channel, hi]
  · cases mo with
    | WelcomeReply m' => exact absurd rfl (hmo m')
    | _ => rfl
  · rcases defaultChannelMemberUpdater_cases now c mo with ⟨_, _, _, _, _, _, h⟩ | ⟨_, _, h⟩
    · rw [h]
    · rw [h]

/-- Witness of `welcome_sets_Connected`: the line `:s 001 me :Welcome` on a new
connection state, and a nick-in-use reply as the other reply. -/
theorem welcome_sets_Connected_witness :
    ∃ m, ParseMessage 0 ":s 001 me :Welcome".toList = .ok m ∧
      (handleLine 0 defaultOnCommand defaultOnReply {} ":s 001 me :Welcome".toList).toOption.map
        (fun c => c.Status.Connected) = some true :=
  ⟨_, rfl, by
    rw [((welcome_sets_Connected 0 {} _ (.ErrNickInUseReply {})
      (fun _ h => by cases h)).2.2.1 ":s 001 me :Welcome".toList rfl rfl rfl).2]
    rfl⟩

/-- Claim C34, evaluated on the code: four accepted lines on which the default hooks
index an empty parameter list and panic.  The line `:me!u@h JOIN :#chan` on a
connection whose current nick is `me` decodes to a JOIN without parameters, and the
join updater takes `Params[0]`; the line `PRIVMSG :hi` on a connected connection
with the connection-aware PRIVMSG factory decodes to a PRIVMSG without parameters,
and the direct test takes `Params[0]`; the lines `:s 353 :n1` and `:s 366 :End`
decode to a names reply and an end-of-names reply without parameters, and the member
updater takes `Params[len(Params)-1]`. -/
theorem default_hooks_index_out_of_range :
    (∃ m, ParseMessage 0 ":me!u@h JOIN :#chan".toList = .ok m ∧ m.Params = [] ∧
      m.Trail = "#chan".toList ∧
      Connection.decodeAndMapMessage { Status := { CurrentNick := "me".toList } } 0
        ":me!u@h JOIN :#chan".toList = .ok (.command (.JoinCommand m)) ∧
      runOnCommand 0 defaultOnCommand { Status := { CurrentNick := "me".toList } }
        (.JoinCommand m) = .error (.goPanic "index out of range") ∧
      handleLine 0 defaultOnCommand defaultOnReply { Status := { CurrentNick := "me".toList } }
        ":me!u@h JOIN :#chan".toList = .error (.goPanic "index out of range")) ∧
    (∃ m, ParseMessage 0 "PRIVMSG :hi".toList = .ok m ∧ m.Params = [] ∧
      Connection.decodeAndMapMessage
        { Status := { Connected := true, CurrentNick := "me".toList },
          CommandFactory :=
            GoMap.store GoMap.empty .CommandTypePrivmsg mentionAndDirectPrivmsgCommand } 0
        "PRIVMSG :hi".toList = .ok (.command (.PrivmsgCommand m true)) ∧
      runOnCommand 0 defaultOnCommand
        { Status := { Connected := true, CurrentNick := "me".toList },
          CommandFactory :=
            GoMap.store GoMap.empty .CommandTypePrivmsg mentionAndDirectPrivmsgCommand }
        (.PrivmsgCommand m true) = .error (.goPanic "index out of range") ∧
      handleLine 0 defaultOnCommand defaultOnReply
        { Status := { Connected := true, CurrentNick := "me".toList },
          CommandFactory :=
            GoMap.store GoMap.empty .CommandTypePrivmsg mentionAndDirectPrivmsgCommand }
        "PRIVMSG :hi".toList = .error (.goPanic "index out of range")) ∧
    (∃ m, ParseMessage 0 ":s 353 :n1".toList = .ok m ∧ m.Params = [] ∧
      Connection.decodeAndMapMessage {} 0 ":s 353 :n1".toList = .ok (.NamesReply m) ∧
      runOnReply 0 defaultOnReply {} (.NamesReply m) =
        .error (.goPanic "index out of range") ∧
      handleLine 0 defaultOnCommand defaultOnReply {} ":s 353 :n1".toList =
        .error (.goPanic "index out of range")) ∧
    (∃ m, ParseMessage 0 ":s 366 :End".toList = .ok m ∧ m.Params = [] ∧
      Connection.decodeAndMapMessage {} 0 ":s 366 :End".toList = .ok (.EndOfNamesReply m) ∧
      runOnReply 0 defaultOnReply {} (.EndOfNamesReply m) =
        .error (.goPanic "index out of range") ∧
      handleLine 0 defaultOnCommand defaultOnReply {} ":s 366 :End".toList =
        .error (.goPanic "index out of range")) :=
  ⟨⟨_, rfl, rfl, rfl, rfl, rfl, rfl⟩, ⟨_, rfl, rfl, rfl, rfl, rfl⟩, ⟨_, rfl, rfl, rfl, rfl, rfl⟩,
    ⟨_, rfl, rfl, rfl, rfl, rfl⟩⟩

/-- Claim C35: for every line that ParseMessage accepts, Command is not empty and
holds no white space character, every element of Params is not empty and holds no
white space character, Parsed is true, and RawMsg is the line without one trailing
CRLF: the line itself when it does not end in CRLF, and `s` when the line is `s`
followed by CRLF. -/
theorem ParseMessage_accepted_invariants (now : Nat) (raw : GoString) (m : Message)
    (h : ParseMessage now raw = .ok m) :
    m.Command ≠ [] ∧ (∀ c ∈ m.Command, isSpace c = false) ∧
    (∀ p ∈ m.Params, p ≠ [] ∧ ∀ c ∈ p, isSpace c = false) ∧
    m.Parsed = true ∧
    m.RawMsg = TrimSuffix raw "\r\n".toList ∧
    (HasSuffix raw "\r\n".toList = false → m.RawMsg = raw) ∧
    (∀ s, raw = s ++ "\r\n".toList → m.RawMsg = s) := by
  obtain ⟨s, hs⟩ := ParseMessage_ok_fields now raw m h
  have htok := Fields_tokens s
  rw [hs] at htok
  obtain ⟨_, _, _, _, hraw⟩ := ParseMessage_ok_sections now raw m h
  refine ⟨(htok _ (List.mem_cons_self _ _)).1, (htok _ (List.mem_cons_self _ _)).2,
    fun p hp => htok p (List.mem_cons_of_mem _ hp), ParseMessage_ok_Parsed now raw m h, hraw,
    ?_, ?_⟩
  · intro hsuf
    rw [hraw, TrimSuffix_of_not_HasSuffix raw _ hsuf]
  · intro s' hs'
    rw [hraw, hs', TrimSuffix_append]

/-- Witness of `ParseMessage_accepted_invariants`: the line `PRIVMSG #t :hi` with
its CRLF. -/
theorem ParseMessage_accepted_invariants_witness :
    ∃ m, ParseMessage 0 "PRIVMSG #t :hi\r\n".toList = .ok m ∧ m.Parsed = true ∧
      m.RawMsg = "PRIVMSG #t :hi".toList :=
  ⟨_, rfl,
    (ParseMessage_accepted_invariants 0 "PRIVMSG #t :hi\r\n".toList _ rfl).2.2.2.1,
    (ParseMessage_accepted_invariants 0 "PRIVMSG #t :hi\r\n".toList _ rfl).2.2.2.2.2.2
      "PRIVMSG #t :hi".toList rfl⟩

/-- Claim C36: for every message whose Command is not empty, holds no white space
character and starts with neither `@` nor `:`, whose Params are each not empty,
without a white space character and not starting with `:`, and whose Trail is any
string, RawMessageEncoder.Encode returns a string that ParseMessage accepts, and
the message parsed from it has the same Command, the same Params and the same
Trail, no tag section and no prefix section. -/
theorem Encode_ParseMessage_roundtrip (now : Nat) (m : Message)
    (hcmd : m.Command ≠ [] ∧ (∀ c ∈ m.Command, isSpace c = false) ∧
      m.Command.head? ≠ some '@' ∧ m.Command.head? ≠ some ':')
    (hparams : ∀ p ∈ m.Params, p ≠ [] ∧ (∀ c ∈ p, isSpace c = false) ∧ p.head? ≠ some ':') :
    ∃ wire m', (RawMessageEncoder.Encode m).1 = .ok wire ∧
      ParseMessage now wire = .ok m' ∧
      m'.Command = m.Command ∧ m'.Params = m.Params ∧ m'.Trail = m.Trail ∧
      m'.TagsSection = none ∧ m'.PrefixSection = none := by
  have htok : ∀ t ∈ m.Command :: m.Params, t ≠ [] ∧ ∀ c ∈ t, isSpace c = false := by
    intro t ht
    rcases List.mem_cons.mp ht with rfl | ht
    · exact ⟨hcmd.1, hcmd.2.1⟩
    · exact ⟨(hparams t ht).1, (hparams t ht).2.1⟩
  obtain ⟨m', hm', h1, h2, h3, h4, h5⟩ :=
    ParseMessage_wire now m.Command m.Params m.Trail htok ⟨hcmd.2.2.1, hcmd.2.2.2⟩
      (fun p hp => (hparams p hp).2.2)
  exact ⟨_, m', rfl, hm', h1, h2, h3, h4, h5⟩

/-- Witness of `Encode_ParseMessage_roundtrip`: a PRIVMSG to `#t` whose trailing
text holds a space before a colon and ends in CRLF. -/
theorem Encode_ParseMessage_roundtrip_witness :
    (RawMessageEncoder.Encode
      { Command := "PRIVMSG".toList, Params := ["#t".toList], Trail := "a :b\r\n".toList }).1 =
      .ok "PRIVMSG #t :a :b\r\n\r\n".toList ∧
    ∃ wire m', (RawMessageEncoder.Encode
        { Command := "PRIVMSG".toList, Params := ["#t".toList],
          Trail := "a :b\r\n".toList }).1 = .ok wire ∧
      ParseMessage 0 wire = .ok m' ∧
      m'.Command = "PRIVMSG".toList ∧ m'.Params = ["#t".toList] ∧
      m'.Trail = "a :b\r\n".toList ∧ m'.TagsSection = none ∧ m'.PrefixSection = none :=
  ⟨rfl, Encode_ParseMessage_roundtrip 0
    { Command := "PRIVMSG".toList, Params := ["#t".toList], Trail := "a :b\r\n".toList }
    (by decide) (by decide)⟩

/-- Claim C37, evaluated on the code: the backoff that Dial constructs sets only max
and leaves min and the factor at zero, and each of its first 1024 delays is zero;
after 1024 failed dials its counter is 1024, `math.Pow(2, 1024)` is +Inf, the
product 0 * +Inf is NaN, which is not above the maximum, and the delay that `next`
returns is the conversion of NaN to a duration, which is left to the
implementation.  Where that conversion gives the least `int64`, as on amd64, the
delay of the 1025th failure is -9223372036854775808 nanoseconds and not zero, and
Dial over 1025 failed dials and a successful one logs it as the retry of its last
"connection failed" entry. -/
theorem Dial_retry_delay_not_zero_after_1024_failures (indefinite : Int) :
    (∀ k : Fin 1024,
      (backoff.next indefinite (backoff.after indefinite { max := 300000000000 } k)).1 = 0) ∧
    backoff.after indefinite { max := 300000000000 } 1024 =
      { max := 300000000000, n := 1024 } ∧
    Float64.Pow (.finite 2) 1024 = .inf false ∧
    Float64.mul (.finite 0) (.inf false) = .NaN ∧
    Float64.lt (.finite 300000000000) .NaN = false ∧
    (backoff.next indefinite (backoff.after indefinite { max := 300000000000 } 1024)).1 =
      indefinite ∧
    (backoff.next (-9223372036854775808)
      (backoff.after (-9223372036854775808) { max := 300000000000 } 1024)).1 ≠ 0 ∧
    ∃ c', Connection.Dial (-9223372036854775808) [] (List.replicate 1025 false ++ [true]) {} =
        some (.ok (), c') ∧
      c'.log.length = 1025 ∧
      c'.log.getLast? = some
        { level := "error", msg := "connection failed".toList,
          params := [("connection", .text []),
            ("retry", .duration (-9223372036854775808))] } := by
  have hf : Float64.lt ({ max := 300000000000 } : backoff).factor (.finite 1) = true := by
    show Float64.lt (.finite 0) (.finite 1) = true
    rw [Float64.lt_finite]; norm_num
  have hmx : (0 : Int) ≤ 300000000000 ∧ (300000000000 : Int) < 2 ^ 53 := by decide
  have ha : ∀ (ind : Int) (i : Nat), i ≤ 1024 →
      backoff.after ind { max := 300000000000 } i = { max := 300000000000, n := i } := by
    intro ind i hi
    rw [backoff.after_of_min_zero ind { max := 300000000000 } rfl hf hmx i
      (by show 0 + i ≤ 2 ^ 53; omega)]
    simp
  have hn : ∀ (ind : Int) (i : Nat), i ≤ 1024 →
      (backoff.next ind (backoff.after ind { max := 300000000000 } i)).1 =
        (if i < 1024 then 0 else ind) := by
    intro ind i hi
    rw [ha ind i hi, backoff.next_of_min_zero ind { max := 300000000000, n := i } rfl hf hmx
      (by show i < 2 ^ 53; omega)]
  have hlast : (backoff.next (-9223372036854775808)
      (backoff.after (-9223372036854775808) { max := 300000000000 } 1024)).1 =
        -9223372036854775808 := by
    rw [hn _ 1024 (le_refl _), if_neg (by decide)]
  refine ⟨?_, ha indefinite 1024 (le_refl _), ?_, Float64.mul_zero_inf false,
    Float64.lt_NaN _, ?_, ?_, ?_⟩
  · intro k
    rw [hn indefinite k (by omega), if_pos k.isLt]
  · rw [Float64.Pow_two, if_neg (by decide)]
  · rw [hn indefinite 1024 (le_refl _), if_neg (by decide)]
  · rw [hlast]; decide
  · unfold Connection.Dial
    rw [dialLoop_failures (-9223372036854775808) [] [true] 1025 _ {} rfl]
    refine ⟨_, rfl, ?_, ?_⟩
    · simp [runOnConnect]
    · simp only [runOnConnect]
      rw [List.range_succ, List.map_append, List.map_singleton, ← List.append_assoc,
        List.getLast?_append, hlast]
      rfl

/-- Claim C38, evaluated on the code: on a connection that tracks `#t`, the default
hooks on the names reply `:s 353 me = #t :n1 `, whose trailing text ends in a space,
leave `#t` with the member keys `n1` and the empty string; on `:s 353 me = #t :n1  n2`,
with two spaces, with `n1`, the empty string and `n2`; and on `:s 353 me = #t`,
without a trailing text, with the empty string alone.  `Names()` splits the trailing
text at every space and keeps the empty strings, and the member updater stores each
of them.  The Nick stored under a key has that key as its Name, the empty one
included. -/
theorem names_reply_merges_empty_nick :
    NamesReply.Names { Trail := "n1 ".toList } = ["n1".toList, []] ∧
    NamesReply.Names { Trail := "n1  n2".toList } = ["n1".toList, [], "n2".toList] ∧
    NamesReply.Names { Trail := [] } = [[]] ∧
    ((handleLine 0 defaultOnCommand defaultOnReply
        { channels := GoMap.store GoMap.empty "#t".toList { Name := "#t".toList } }
        ":s 353 me = #t :n1 ".toList).toOption.map fun c =>
      (c.channels.lookup "#t".toList).map fun x =>
        (x.Status.Nicks.keys, x.Status.Nicks.lookup [])) =
      some (some (["n1".toList, []], some { Name := [] })) ∧
    ((handleLine 0 defaultOnCommand defaultOnReply
        { channels := GoMap.store GoMap.empty "#t".toList { Name := "#t".toList } }
        ":s 353 me = #t :n1  n2".toList).toOption.map fun c =>
      (c.channels.lookup "#t".toList).map fun x =>
        (x.Status.Nicks.keys, x.Status.Nicks.lookup [])) =
      some (some (["n1".toList, [], "n2".toList], some { Name := [] })) ∧
    ((handleLine 0 defaultOnCommand defaultOnReply
        { channels := GoMap.store GoMap.empty "#t".toList { Name := "#t".toList } }
        ":s 353 me = #t".toList).toOption.map fun c =>
      (c.channels.lookup "#t".toList).map fun x =>
        (x.Status.Nicks.keys, x.Status.Nicks.lookup [])) =
      some (some ([[]], some { Name := [] })) ∧
    (∀ (nicks : GoMap GoString Nick) (before after : List GoString) (k : GoString),
      (mergeNames nicks (before ++ k :: after)).lookup k = some { Name := k }) :=
  ⟨rfl, rfl, rfl, rfl, rfl, rfl,
    fun nicks before after k => lookup_mergeNames_of_mem _ nicks k (by simp)⟩

end Tenyks
